import Mathlib

/-!
Verification of the ricoshacl generator (`scripts/utils.py`).

The development shallowly embeds the two components of the repository:

* `Ontology` — a loaded RDF graph plus base identifier, with the query
  methods `classes`, `properties` and `restrictions`;
* the `Shacl` generator — metadata preamble plus one `add_nodeshape` call
  per ontology class.

An RDF graph is a list of triples with set semantics (all statements below
are phrased through membership or deduplicated queries).  Blank nodes are
numbered; rdflib's globally fresh `BNode()` is modelled by a counter that
starts above every blank-node id of the source graph.  Python's set
iteration order is modelled by an explicit enumeration oracle `ord`
applied wherever the source iterates over a set.  Calls that raise in
Python (`assert` in the query methods, rdflib's term check in
`Graph.add`) return `Except.error`.
-/

set_option maxHeartbeats 1000000

namespace RicoShacl

/-- An RDF term, as rdflib's `URIRef`, `BNode` (numbered) and `Literal`
(lexical form plus optional datatype IRI; language tags do not occur in
this code base). -/
inductive Node where
  | uri (s : String)
  | bnode (n : Nat)
  | lit (s : String) (dt : Option String)
deriving DecidableEq

abbrev Triple := Node × Node × Node

/-! Kernel-computable character-list primitives standing in for the
Python string operations used by the source (`str.startswith`,
`str.split`, `int()` parsing).  They operate on `String.data` so that
concrete runs of the embedding reduce inside the kernel. -/

/-- `pre` is a prefix of `s` (Python `s.startswith(pre)`). -/
def listStartsWith : List Char → List Char → Bool
  | _, [] => true
  | [], _ :: _ => false
  | a :: as, b :: bs => a == b && listStartsWith as bs

def strStartsWith (s pre : String) : Bool := listStartsWith s.data pre.data

/-- Split at the first occurrence of `c`; `none` when absent. -/
def breakAtChar : List Char → Char → Option (List Char × List Char)
  | [], _ => none
  | a :: as, c =>
    if a == c then some ([], as)
    else
      match breakAtChar as c with
      | some (l, r) => some (a :: l, r)
      | none => none

/-- All `c`-separated fields (Python `s.split(c)`; never empty). -/
def splitAllChar : List Char → Char → List (List Char)
  | [], _ => [[]]
  | a :: as, c =>
    if a == c then [] :: splitAllChar as c
    else
      match splitAllChar as c with
      | [] => [[a]]
      | l :: ls => (a :: l) :: ls

/-- Parse an optionally signed decimal integer (Python `int(s)` on the
lexical forms occurring for XSD integer literals). -/
def parseDigits : List Char → Option Nat → Option Nat
  | [], acc => acc
  | c :: cs, acc =>
    if c.isDigit then
      parseDigits cs (some ((acc.getD 0) * 10 + (c.toNat - '0'.toNat)))
    else none

def parseIntL (cs : List Char) : Option Int :=
  match cs with
  | '-' :: rest => (parseDigits rest none).map (fun n => -(n : Int))
  | '+' :: rest => (parseDigits rest none).map (fun n => (n : Int))
  | _ => (parseDigits cs none).map (fun n => (n : Int))

/-- Python `str()` of a term: `URIRef` and `Literal` are `str` subclasses;
a `BNode`'s string is its (nonempty) label. -/
def Node.str : Node → String
  | .uri s => s
  | .bnode n => "N" ++ toString n
  | .lit s _ => s

def Node.isBNode : Node → Bool
  | .bnode _ => true
  | _ => false

def Node.bnodeIds : Node → List Nat
  | .bnode n => [n]
  | _ => []

def xsdDT (s : String) : String := "http://www.w3.org/2001/XMLSchema#" ++ s

/-- The XSD datatypes that rdflib parses to a Python `int`. -/
def intDatatypes : List String :=
  [xsdDT "integer", xsdDT "int", xsdDT "long", xsdDT "short", xsdDT "byte",
   xsdDT "nonNegativeInteger", xsdDT "positiveInteger",
   xsdDT "nonPositiveInteger", xsdDT "negativeInteger",
   xsdDT "unsignedLong", xsdDT "unsignedInt", xsdDT "unsignedShort",
   xsdDT "unsignedByte"]

/-- Python truthiness of an rdflib term.  `URIRef` and `BNode` are `str`
subclasses, so they are truthy iff nonempty (`BNode` labels are never
empty).  `Literal.__bool__` returns `bool(self.value)` when the lexical
form parses under the datatype and falls back to `len(self) != 0`
otherwise; we model the integer datatypes (the ones this code base uses
for cardinalities), all other literals fall back to lexical
nonemptiness. -/
def Node.truthy : Node → Bool
  | .uri s => s != ""
  | .bnode _ => true
  | .lit s dt =>
    match dt with
    | some d =>
      if intDatatypes.contains d then
        match parseIntL s.data with
        | some n => n != 0
        | none => s != ""
      else s != ""
    | none => s != ""

def otruthy : Option Node → Bool
  | none => false
  | some v => v.truthy

/-! Vocabulary constants (rdflib's `RDF`, `RDFS`, `OWL`, `SH`, `SDO`
namespaces). -/

def vRDFtype : Node := .uri "http://www.w3.org/1999/02/22-rdf-syntax-ns#type"
def vRDFfirst : Node := .uri "http://www.w3.org/1999/02/22-rdf-syntax-ns#first"
def vRDFrest : Node := .uri "http://www.w3.org/1999/02/22-rdf-syntax-ns#rest"
def vRDFnil : Node := .uri "http://www.w3.org/1999/02/22-rdf-syntax-ns#nil"
def vRDFSrange : Node := .uri "http://www.w3.org/2000/01/rdf-schema#range"
def vRDFSdomain : Node := .uri "http://www.w3.org/2000/01/rdf-schema#domain"
def vRDFSsubClassOf : Node := .uri "http://www.w3.org/2000/01/rdf-schema#subClassOf"
def vRDFSisDefinedBy : Node := .uri "http://www.w3.org/2000/01/rdf-schema#isDefinedBy"
def vOWLClass : Node := .uri "http://www.w3.org/2002/07/owl#Class"
def vOWLRestriction : Node := .uri "http://www.w3.org/2002/07/owl#Restriction"
def vOWLonClass : Node := .uri "http://www.w3.org/2002/07/owl#onClass"
def vOWLonProperty : Node := .uri "http://www.w3.org/2002/07/owl#onProperty"
def vOWLunionOf : Node := .uri "http://www.w3.org/2002/07/owl#unionOf"
def vOWLminQC : Node := .uri "http://www.w3.org/2002/07/owl#minQualifiedCardinality"
def vOWLmaxQC : Node := .uri "http://www.w3.org/2002/07/owl#maxQualifiedCardinality"
def vOWLOntology : Node := .uri "http://www.w3.org/2002/07/owl#Ontology"
def vOWLversionIRI : Node := .uri "http://www.w3.org/2002/07/owl#versionIRI"
def vOWLversionInfo : Node := .uri "http://www.w3.org/2002/07/owl#versionInfo"
def vSHNodeShape : Node := .uri "http://www.w3.org/ns/shacl#NodeShape"
def vSHtargetClass : Node := .uri "http://www.w3.org/ns/shacl#targetClass"
def vSHproperty : Node := .uri "http://www.w3.org/ns/shacl#property"
def vSHpath : Node := .uri "http://www.w3.org/ns/shacl#path"
def vSHclass : Node := .uri "http://www.w3.org/ns/shacl#class"
def vSHor : Node := .uri "http://www.w3.org/ns/shacl#or"
def vSHminCount : Node := .uri "http://www.w3.org/ns/shacl#minCount"
def vSHmaxCount : Node := .uri "http://www.w3.org/ns/shacl#maxCount"
def vSDOcreator : Node := .uri "https://schema.org/creator"
def vSDOdateCreated : Node := .uri "https://schema.org/dateCreated"
def vSDOdateModified : Node := .uri "https://schema.org/dateModified"
def vSDOdescription : Node := .uri "https://schema.org/description"
def vSDOname : Node := .uri "https://schema.org/name"
def vSDOpublisher : Node := .uri "https://schema.org/publisher"

/-! Triple-pattern queries of rdflib's `Graph`.  A graph object is a set of
triples; query results are deduplicated lists (the list order stands for
one arbitrary but fixed enumeration, permuted by the `ord` oracle wherever
the source iterates over a set). -/

/-- `graph.subjects(p, o)`. -/
def subjects (g : List Triple) (p o : Node) : List Node :=
  ((g.filter (fun t => t.2.1 == p && t.2.2 == o)).map (fun t => t.1)).dedup

/-- `graph.objects(s, p)`. -/
def objects (g : List Triple) (s p : Node) : List Node :=
  ((g.filter (fun t => t.1 == s && t.2.1 == p)).map (fun t => t.2.2)).dedup

/-- `graph.value(s, p, None, default=None)`: one object value if any,
otherwise `None`. -/
def gvalue (g : List Triple) (s p : Node) : Option Node :=
  (objects g s p).head?

/-- One step of rdflib's `Graph.items` list traversal (`while list: item =
value(list, RDF.first); ...; list = value(list, RDF.rest)`), fuelled to
stay total; a cyclic `rdf:rest` chain (on which rdflib raises) is
truncated once the fuel — always instantiated above the graph size — runs
out. -/
def rdfItemsAux (g : List Triple) : Nat → Option Node → List Node
  | 0, _ => []
  | _, none => []
  | fuel + 1, some node =>
    if node.truthy then
      match gvalue g node vRDFfirst with
      | some item => item :: rdfItemsAux g fuel (gvalue g node vRDFrest)
      | none => rdfItemsAux g fuel (gvalue g node vRDFrest)
    else []

/-- `tuple(Collection(graph, start))`: the items of the RDF collection at
`start` (`None` yields the empty tuple). -/
def rdfItems (g : List Triple) (start : Option Node) : List Node :=
  rdfItemsAux g (g.length + 1) start

/-- `Ontology`: the loaded source graph and the ontology's base
Identifier (`self.identifier`). -/
structure Ontology where
  graph : List Triple
  ident : String

/-- Body of `Ontology.classes` (source lines 46-64), after its assertion.
The assertion (`not all([in_domain_of, in_range_of])`) only fires when
both arguments are truthy; see `classes`. -/
def classesB (o : Ontology) (inDomainOf inRangeOf : Option Node) : List Node :=
  let allK := (subjects o.graph vRDFtype vOWLClass).filter
    (fun k => !k.isBNode && strStartsWith k.str o.ident)
  match inDomainOf with
  | some d =>
    if d.truthy then (objects o.graph d vRDFSrange).filter (fun k => allK.contains k)
    else
      match inRangeOf with
      | some r =>
        if r.truthy then (objects o.graph r vRDFSrange).filter (fun k => allK.contains k)
        else allK
      | none => allK
  | none =>
    match inRangeOf with
    | some r =>
      if r.truthy then (objects o.graph r vRDFSrange).filter (fun k => allK.contains k)
      else allK
    | none => allK

/-- `Ontology.classes` (source lines 34-64).  Note that both the
`in_domain_of` and the `in_range_of` branch query `rdfs:range`. -/
def classes (o : Ontology) (inDomainOf inRangeOf : Option Node) :
    Except String (List Node) :=
  if otruthy inDomainOf && otruthy inRangeOf then
    .error "domain and range cannot be given at the same time"
  else .ok (classesB o inDomainOf inRangeOf)

/-- `Ontology.classes()` with no arguments (never fails). -/
def ontClasses (o : Ontology) : List Node := classesB o none none

/-- `Ontology.properties` (source lines 66-91). -/
def properties (o : Ontology) (withDomain withRange : Option Node) :
    Except String (List Node) :=
  if otruthy withDomain && otruthy withRange then
    .error "domain and range cannot be given at the same time"
  else if !(otruthy withDomain || otruthy withRange) then
    .error "One of domain or range must be given"
  else
    let po := if otruthy withDomain then (vRDFSdomain, withDomain)
              else (vRDFSrange, withRange)
    match po.2 with
    | some obj =>
      if (ontClasses o).contains obj then
        .ok ((subjects o.graph po.1 obj).filter
          (fun p => !p.isBNode && strStartsWith p.str o.ident))
      else .error "is not an owl:Class defined in this ontology"
    | none => .error "unreachable: the guards ensure the chosen argument is present"

/-- The `Restriction` dataclass (source lines 20-25).  `on_klass` holds
optional nodes because the singleton branch of `Ontology.restrictions`
stores `graph.value(...)`, which is `None` when `owl:onClass` is absent. -/
structure Restriction where
  on_klass : List (Option Node)
  on_property : Option Node
  min_cardinality : Option Node
  max_cardinality : Option Node
deriving DecidableEq

/-- The restriction nodes considered by `Ontology.restrictions` (source
lines 100-107): all `owl:Restriction`-typed subjects, intersected — when
`for_klass` is truthy — with the direct `rdfs:subClassOf` objects of
`for_klass`. -/
def restrictionUris (o : Ontology) (forKlass : Node) : List Node :=
  let rs := subjects o.graph vRDFtype vOWLRestriction
  if forKlass.truthy then
    rs.filter (fun u => (objects o.graph forKlass vRDFSsubClassOf).contains u)
  else rs

/-- The per-node projection of `Ontology.restrictions` (source lines
108-129). -/
def mkRestriction (o : Ontology) (u : Node) : Restriction :=
  let onK : List (Option Node) :=
    match gvalue o.graph u vOWLonClass with
    | some (.bnode b) =>
      (rdfItems o.graph (gvalue o.graph (.bnode b) vOWLunionOf)).map some
    | v => [v]
  { on_klass := onK
    on_property := gvalue o.graph u vOWLonProperty
    min_cardinality := gvalue o.graph u vOWLminQC
    max_cardinality := gvalue o.graph u vOWLmaxQC }

/-- `Ontology.restrictions` (source lines 93-131).  The source returns a
Python list built in set-iteration order; the canonical order below is
permuted by the `ord` oracle at the use site in the generator. -/
def restrictions (o : Ontology) (forKlass : Node) : List Restriction :=
  (restrictionUris o forKlass).map (mkRestriction o)

/-! A model of CPython's `urllib.parse.urlparse`, restricted to the two
components `compute_shape_uri` reads (`path` and `fragment`).  Scheme,
netloc, query and params are split off in CPython's order.  The recent
CPython control-character stripping is not modelled (class URIs contain
none). -/

def isSchemeChar (c : Char) : Bool :=
  c.isAlphanum || c == '+' || c == '-' || c == '.'

/-- ASCII lowercase (scheme normalisation). -/
def asciiLower (c : Char) : Char :=
  if 'A' ≤ c && c ≤ 'Z' then Char.ofNat (c.toNat + 32) else c

/-- Split off a URL scheme: the text before the first `:` when it is a
valid scheme (starts with a letter, scheme characters throughout),
lowercased. -/
def splitScheme (cs : List Char) : List Char × List Char :=
  match breakAtChar cs ':' with
  | some (sc, rest) =>
    if !sc.isEmpty && (sc.headD ' ').isAlpha && sc.all isSchemeChar then
      (sc.map asciiLower, rest)
    else ([], cs)
  | none => ([], cs)

/-- `_splitnetloc`: the authority extends to the first `/`, `?` or `#`. -/
def splitNetloc (cs : List Char) : List Char × List Char :=
  match cs.findIdx? (fun c => c == '/' || c == '?' || c == '#') with
  | some n => (cs.take n, cs.drop n)
  | none => (cs, [])

/-- `_splitparams`: params split at the first `;` after the last `/`. -/
def splitParams (cs : List Char) : List Char × List Char :=
  if cs.contains '/' then
    let j := cs.length - 1 - ((cs.reverse.findIdx? (fun c => c == '/')).getD 0)
    match (cs.drop j).findIdx? (fun c => c == ';') with
    | some k => (cs.take (j + k), cs.drop (j + k + 1))
    | none => (cs, [])
  else
    match cs.findIdx? (fun c => c == ';') with
    | some k => (cs.take k, cs.drop (k + 1))
    | none => (cs, [])

/-- The schemes for which `urlparse` splits params (CPython's
`uses_params`). -/
def usesParams : List (List Char) :=
  ["", "ftp", "hdl", "prospero", "http", "imap", "https", "shttp", "rtsp",
   "rtspu", "sip", "sips", "mms", "sftp", "tel"].map String.data

/-- `urlparse(url)` reduced to `(path, fragment)`. -/
def urlPathFrag (url : List Char) : List Char × List Char :=
  let sr := splitScheme url
  let scheme := sr.1
  let afterScheme := sr.2
  let nr := if listStartsWith afterScheme ['/', '/'] then
      splitNetloc (afterScheme.drop 2)
    else ([], afterScheme)
  let fr := match breakAtChar nr.2 '#' with
    | some (a, b) => (a, b)
    | none => (nr.2, [])
  let qr := match breakAtChar fr.1 '?' with
    | some (a, b) => (a, b)
    | none => (fr.1, [])
  let path := if usesParams.contains scheme && qr.1.contains ';' then
      (splitParams qr.1).1
    else qr.1
  (path, fr.2)

/-- `Shacl.compute_shape_uri` (source lines 244-250): fragment-based name
when the parsed URI has a nonempty fragment, otherwise the last
`/`-separated path segment; resolved against the output namespace by
string concatenation (`Namespace.__getitem__`). -/
def computeShapeUri (shapeNS : String) (klass : Node) : Node :=
  let pf := urlPathFrag klass.str.data
  let fragment := pf.2
  let pathPart := (splitAllChar pf.1 '/').getLastD []
  let shapeName : String :=
    if !fragment.isEmpty then ⟨fragment⟩ ++ "Shape" else (⟨pathPart⟩ : String) ++ "Shape"
  .uri (shapeNS ++ shapeName)

/-! The `Shacl` generator.  State: the blank-node counter (rdflib's
globally fresh `BNode()`) and the output graph. -/

structure GenState where
  ctr : Nat
  g : List Triple
deriving DecidableEq

def GenState.fresh (st : GenState) : Node × GenState :=
  (.bnode st.ctr, { st with ctr := st.ctr + 1 })

def GenState.add (st : GenState) (t : Triple) : GenState :=
  { st with g := st.g ++ [t] }

/-- rdflib `graph.set((s, p, o))`: remove every triple with subject `s`
and predicate `p`, then add `(s, p, o)`. -/
def GenState.setT (st : GenState) (s p o : Node) : GenState :=
  { st with g := (st.g.filter (fun t => !(t.1 == s && t.2.1 == p))) ++ [(s, p, o)] }

/-- `prop_path_map`: a Python dict keyed by property Identifier. -/
abbrev PropMap := List (Node × Node)

def pmGet (m : PropMap) (k : Node) : Option Node :=
  match m.find? (fun kv => kv.1 == k) with
  | some kv => some kv.2
  | none => none

/-- Dict assignment `m[k] = v` (replace in place, else append). -/
def pmSet (m : PropMap) (k v : Node) : PropMap :=
  if m.any (fun kv => kv.1 == k) then
    m.map (fun kv => if kv.1 == k then (k, v) else kv)
  else m ++ [(k, v)]

/-- The loop body shared by source lines 213-217 and 229-233: per item,
allocate a constraint node `k`, add `(k, sh:class, item)`, and
`Collection.append(k)` — the first append attaches `first`/`rest` to the
collection head, later appends allocate a chain node and `graph.set` the
previous `rdf:rest` link (rdflib `Collection.append` on a freshly created
collection). -/
def collLoop (st : GenState) (endN : Node) (hasFirst : Bool) :
    List Node → GenState
  | [] => st
  | pk :: rest =>
    let fr := st.fresh
    let k := fr.1
    let st2 := fr.2.add (k, vSHclass, pk)
    if hasFirst then
      let fr2 := st2.fresh
      let node := fr2.1
      let st3 := ((fr2.2.setT endN vRDFrest node).add
        (node, vRDFfirst, k)).add (node, vRDFrest, vRDFnil)
      collLoop st3 node true rest
    else
      let st3 := (st2.add (endN, vRDFfirst, k)).add (endN, vRDFrest, vRDFnil)
      collLoop st3 endN true rest

/-- `collection = Collection(self.graph, BNode())`, the item loop, and
`graph.add((anchor, sh:or, collection.uri))`. -/
def buildOr (st : GenState) (anchor : Node) (items : List Node) : GenState :=
  let fr := st.fresh
  let root := fr.1
  let st2 := collLoop fr.2 root false items
  st2.add (anchor, vSHor, root)

/-- One iteration of the domain/range pass of `Shacl.add_nodeshape`
(source lines 204-220). -/
def domainRangeStep (o : Ontology) (ord : List Node → List Node) (shape : Node)
    (acc : GenState × PropMap) (prop : Node) : GenState × PropMap :=
  let st := acc.1
  let m := acc.2
  let propKlasses := classesB o none (some prop)
  if propKlasses.length < 1 then (st, m)
  else
    let fr := st.fresh
    let b := fr.1
    let m' := pmSet m prop b
    let st2 := (fr.2.add (shape, vSHproperty, b)).add (b, vSHpath, prop)
    if 1 < propKlasses.length then
      (buildOr st2 b (ord propKlasses), m')
    else
      (st2.add (b, vSHclass, (ord propKlasses).headD (Node.uri "")), m')

/-- The domain/range pass: fold over the properties in iteration order. -/
def pass1 (o : Ontology) (ord : List Node → List Node) (shape : Node) :
    List Node → GenState × PropMap → GenState × PropMap
  | [], acc => acc
  | q :: rest, acc => pass1 o ord shape rest (domainRangeStep o ord shape acc q)

/-- All list entries present, or `none` (rdflib's `Graph.add` raises on a
`None` term). -/
def allSome : List (Option Node) → Option (List Node)
  | [] => some []
  | none :: _ => none
  | some x :: rest =>
    match allSome rest with
    | some xs => some (x :: xs)
    | none => none

/-- Lines 223-227 of `Shacl.add_nodeshape`: look the anchor up in
`prop_path_map` (`dict.get` misses when `on_property` is `None`); on a
miss, allocate a fresh anchor and attach its `sh:property`/`sh:path`
triples — the map is *not* updated.  Adding a `None` path term raises in
rdflib. -/
def restrAnchor (shape : Node) (st : GenState) (m : PropMap) (r : Restriction) :
    Except String (Node × GenState) :=
  match (match r.on_property with
         | some q => pmGet m q
         | none => none) with
  | some b => .ok (b, st)
  | none =>
    match r.on_property with
    | some q =>
      let fr := st.fresh
      .ok (fr.1, (fr.2.add (shape, vSHproperty, fr.1)).add (fr.1, vSHpath, q))
    | none => .error "Graph.add: on_property is not an rdflib term"

/-- Lines 228-236: the `on_klass` disjunction/class constraint.  Adding a
`None` class term (missing `owl:onClass`) raises in rdflib. -/
def restrClassPart (st1 : GenState) (b : Node) (r : Restriction) :
    Except String GenState :=
  if 1 < r.on_klass.length then
    match allSome r.on_klass with
    | some items => .ok (buildOr st1 b items)
    | none => .error "Graph.add: onClass member is not an rdflib term"
  else if r.on_klass.length == 1 then
    match r.on_klass.headD none with
    | some c => .ok (st1.add (b, vSHclass, c))
    | none => .error "Graph.add: onClass value is not an rdflib term"
  else .ok st1

/-- Lines 237-240: the cardinality triples, guarded by Python truthiness
of the `Literal` values. -/
def restrCardPart (st2 : GenState) (b : Node) (r : Restriction) : GenState :=
  let st3 := match r.min_cardinality with
    | some v => if v.truthy then st2.add (b, vSHminCount, v) else st2
    | none => st2
  match r.max_cardinality with
  | some v => if v.truthy then st3.add (b, vSHmaxCount, v) else st3
  | none => st3

/-- One iteration of the restriction pass of `Shacl.add_nodeshape`
(source lines 222-240). -/
def restrStep (shape : Node) (acc : GenState × PropMap) (r : Restriction) :
    Except String (GenState × PropMap) :=
  match restrAnchor shape acc.1 acc.2 r with
  | .error e => .error e
  | .ok (b, st1) =>
    match restrClassPart st1 b r with
    | .error e => .error e
    | .ok st2 => .ok (restrCardPart st2 b r, acc.2)

/-- The restriction pass: fold over the restrictions in iteration
order. -/
def pass2 (shape : Node) : List Restriction → GenState → PropMap →
    Except String GenState
  | [], st, _ => .ok st
  | r :: rest, st, m =>
    match restrStep shape (st, m) r with
    | .error e => .error e
    | .ok acc => pass2 shape rest acc.1 acc.2

/-- `Shacl.add_nodeshape` (source lines 194-242). -/
def addNodeShape (o : Ontology) (ord : List Node → List Node) (shapeNS : String)
    (klass : Node) (st : GenState) : Except String GenState :=
  let shape := computeShapeUri shapeNS klass
  let st1 := ((st.add (shape, vRDFtype, vSHNodeShape)).add
    (shape, vRDFSisDefinedBy, .uri o.ident)).add (shape, vSHtargetClass, klass)
  match properties o (some klass) none with
  | .error e => .error e
  | .ok props =>
    let acc := pass1 o ord shape (ord props) (st1, ([] : PropMap))
    match pass2 shape ((ord (restrictionUris o klass)).map (mkRestriction o))
        acc.1 acc.2 with
    | .error e => .error e
    | .ok st3 => .ok st3

/-- Configuration of the `Shacl` constructor.  `versionIRIn3` is the
namespace-manager rendering of the version IRI used inside the
version-info string (serialization concerns are external to this spec,
so the rendered form is an input).  The serialization-only
namespace-binding argument of the constructor adds no triples and is
omitted. -/
structure ShaclCfg where
  namespaceStr : String
  versionIRI : Node
  versionIRIn3 : String
  creator : Node
  dateCreated : Option Node := none
  name : Option Node := none
  description : Option Node := none
  publisher : Option Node := none

/-- The metadata preamble of `Shacl.__init__` (source lines 155-189).
`gitHash` models `git_short_hash()` (a subprocess call into the build
environment) and `today` models `datetime.date.today().isoformat()`. -/
def metaTriples (o : Ontology) (cfg : ShaclCfg) (gitHash today : String) :
    List Triple :=
  let ident : Node := .uri cfg.namespaceStr
  let dateModified := today
  let dateCreated := match cfg.dateCreated with
    | some d => if d.truthy then d.str else dateModified
    | none => dateModified
  let descr := match cfg.description with
    | some d => if d.truthy then d.str
                else "OntoShacl generated validator for " ++ o.ident
    | none => "OntoShacl generated validator for " ++ o.ident
  let nm := match cfg.name with
    | some n => if n.truthy then n.str else o.ident ++ " Validator"
    | none => o.ident ++ " Validator"
  [(ident, vRDFtype, vOWLOntology),
   (ident, vOWLversionIRI, cfg.versionIRI),
   (ident, vOWLversionInfo,
     .lit (cfg.versionIRIn3 ++ ": Generated by OntoShacl on commit: " ++ gitHash) none),
   (ident, vSDOcreator, cfg.creator),
   (ident, vSDOdateCreated, .lit dateCreated (some (xsdDT "date"))),
   (ident, vSDOdateModified, .lit dateModified (some (xsdDT "date"))),
   (ident, vSDOdescription, .lit descr none),
   (ident, vSDOname, .lit nm none)]
  ++ (match cfg.publisher with
      | some pb => if pb.truthy then [(ident, vSDOpublisher, pb)] else []
      | none => [])

/-- A strict upper bound on the blank-node ids of a graph. -/
def graphBnodeBound (g : List Triple) : Nat :=
  (g.map (fun t =>
    (((t.1.bnodeIds ++ t.2.1.bnodeIds ++ t.2.2.bnodeIds).map (fun n => n + 1)).foldr
      max 0))).foldr max 0

/-- The class loop of `Shacl.__init__` (source lines 191-192). -/
def genLoop (o : Ontology) (ord : List Node → List Node) (shapeNS : String) :
    List Node → GenState → Except String GenState
  | [], st => .ok st
  | k :: rest, st =>
    match addNodeShape o ord shapeNS k st with
    | .error e => .error e
    | .ok st' => genLoop o ord shapeNS rest st'

/-- The full `Shacl` constructor: metadata preamble, then one
`add_nodeshape` per ontology class (in set-iteration order), returning
the output graph. -/
def shaclGen (o : Ontology) (cfg : ShaclCfg) (gitHash today : String)
    (ord : List Node → List Node) : Except String (List Triple) :=
  match genLoop o ord cfg.namespaceStr (ord (ontClasses o))
      { ctr := graphBnodeBound o.graph, g := metaTriples o cfg gitHash today } with
  | .error e => .error e
  | .ok st => .ok st.g

/-! ### Basic query lemmas -/

/-- Extract the graph of a successful generation run. -/
def okGraph : Except String (List Triple) → List Triple
  | .ok g => g
  | .error _ => []

/-- Example ontology: class `C` with property `p` of domain `C` and two
range classes `A`, `B`. -/
def exOnt : Ontology :=
  { graph :=
      [ (.uri "http://o/C", vRDFtype, vOWLClass),
        (.uri "http://o/A", vRDFtype, vOWLClass),
        (.uri "http://o/B", vRDFtype, vOWLClass),
        (.uri "http://o/p", vRDFSdomain, .uri "http://o/C"),
        (.uri "http://o/p", vRDFSrange, .uri "http://o/A"),
        (.uri "http://o/p", vRDFSrange, .uri "http://o/B") ]
    ident := "http://o/" }

def exCfg : ShaclCfg :=
  { namespaceStr := "http://v/"
    versionIRI := .uri "http://v/0.0.1"
    versionIRIn3 := ":0.0.1"
    creator := .uri "http://me/" }

/-- A class with a restriction whose `owl:onClass` value is a blank node
with no `owl:unionOf` list. -/
def exO7 : Ontology :=
  { graph :=
      [ (.uri "http://o/C", vRDFSsubClassOf, .bnode 0),
        (.bnode 0, vRDFtype, vOWLRestriction),
        (.bnode 0, vOWLonClass, .bnode 1),
        (.bnode 0, vOWLonProperty, .uri "http://o/p") ]
    ident := "http://o/" }

def exC10a : Node := .uri "http://o/a#X"

def exC10b : Node := .uri "http://o/b#X"

/-- Two distinct in-namespace classes sharing the fragment `X`. -/
def exO10 : Ontology :=
  { graph :=
      [ (exC10a, vRDFtype, vOWLClass),
        (exC10b, vRDFtype, vOWLClass) ]
    ident := "http://o/" }

/-- The anchor the restriction pass attaches to: the `prop_path_map`
entry for `restriction.on_property` when present, the freshly allocated
blank node otherwise. -/
def restrAnchorNode (m : PropMap) (st : GenState) (r : Restriction) : Node :=
  match r.on_property with
  | some q =>
    match pmGet m q with
    | some b => b
    | none => .bnode st.ctr
  | none => .bnode st.ctr

/-- A class with a restriction carrying an explicit
`owl:minQualifiedCardinality` of `"0"^^xsd:nonNegativeInteger`. -/
def exO5 : Ontology :=
  { graph :=
      [ (.uri "http://o/C", vRDFtype, vOWLClass),
        (.uri "http://o/C", vRDFSsubClassOf, .bnode 0),
        (.bnode 0, vRDFtype, vOWLRestriction),
        (.bnode 0, vOWLonProperty, .uri "http://o/p"),
        (.bnode 0, vOWLonClass, .uri "http://o/D"),
        (.bnode 0, vOWLminQC, .lit "0" (some (xsdDT "nonNegativeInteger"))) ]
    ident := "http://o/" }

def exW5r : Restriction :=
  { on_klass := [some (Node.uri "http://o/D")]
    on_property := some (Node.uri "http://o/p")
    min_cardinality := some (Node.lit "1" (some (xsdDT "nonNegativeInteger")))
    max_cardinality := none }

def exW5m : PropMap := [(Node.uri "http://o/p", Node.bnode 1)]

def exW5st : GenState := { ctr := 1, g := [] }

def exW5st' : GenState :=
  { ctr := 1
    g := [(Node.bnode 1, vSHclass, Node.uri "http://o/D"),
          (Node.bnode 1, vSHminCount,
            Node.lit "1" (some (xsdDT "nonNegativeInteger")))] }

def tripleBnodeIds (t : Triple) : List Nat :=
  t.1.bnodeIds ++ t.2.1.bnodeIds ++ t.2.2.bnodeIds

/-- Every blank-node id mentioned in `g` is below `c`. -/
def BndBelow (g : List Triple) (c : Nat) : Prop :=
  ∀ t ∈ g, ∀ n ∈ tripleBnodeIds t, n < c

/-- Every blank-node id of the node `x` is below `c`. -/
def nodeBnd (x : Node) (c : Nat) : Prop := ∀ n ∈ x.bnodeIds, n < c

/-- `rdf:nil` carries no `rdf:first`/`rdf:rest` triples (true of every
graph the generator produces). -/
def chainInvP (g : List Triple) : Prop :=
  ∀ t ∈ g, t.1 = vRDFnil → t.2.1 ≠ vRDFfirst ∧ t.2.1 ≠ vRDFrest

/-- Well-formedness of a generator state. -/
def StInv (st : GenState) : Prop := BndBelow st.g st.ctr ∧ chainInvP st.g

/-- A well-formed `rdf:first`/`rdf:rest` chain in `g` starting at a node,
carrying the item list `ks` and the chain-node list `cs`. -/
def ChainAt (g : List Triple) : Node → List Node → List Node → Prop
  | c, [], [] => c = vRDFnil
  | c, k :: ks, c' :: cs =>
    c' = c ∧ c ≠ vRDFnil ∧ c.truthy = true ∧
    objects g c vRDFfirst = [k] ∧
    ∃ d, objects g c vRDFrest = [d] ∧ ChainAt g d ks cs
  | _, _, _ => False

/-- All map values are blank nodes below `c`. -/
def MapBelow (m : PropMap) (c : Nat) : Prop :=
  ∀ kv ∈ m, ∃ n, kv.2 = Node.bnode n ∧ n < c

/-- The map values are pairwise distinct. -/
def ValNodup (m : PropMap) : Prop := (m.map (fun kv => kv.2)).Nodup

/-- Shape of the triples the domain/range pass adds: a `sh:property` link
from the shape to a fresh anchor, or a triple on a fresh blank node whose
predicate is `sh:path` (pointing back at a processed property),
`sh:class`, `sh:or`, `rdf:first` or `rdf:rest`. -/
def P1New (c : Nat) (shape : Node) (qs : List Node) (t : Triple) : Prop :=
  (t.2.1 = vSHproperty ∧ t.1 = shape ∧ ∃ n, c ≤ n ∧ t.2.2 = .bnode n) ∨
  ((∃ n, c ≤ n ∧ t.1 = .bnode n) ∧
    (t.2.1 = vSHpath ∨ t.2.1 = vSHclass ∨ t.2.1 = vSHor ∨
      t.2.1 = vRDFfirst ∨ t.2.1 = vRDFrest) ∧
    (t.2.1 = vSHpath → t.2.2 ∈ qs))

/-- A `rdf:first`/`rdf:rest` path from a node to `stop` (exclusive),
carrying the item list and the chain-node list; `ChainAt g c ks cs` is the
special case `stop = rdf:nil`. -/
def ChainSeg (g : List Triple) (stop : Node) : Node → List Node → List Node → Prop
  | c, [], [] => c = stop
  | c, k :: ks, c' :: cs =>
    c' = c ∧ c ≠ vRDFnil ∧ c.truthy = true ∧
    objects g c vRDFfirst = [k] ∧
    ∃ d, objects g c vRDFrest = [d] ∧ ChainSeg g stop d ks cs
  | _, _, _ => False

/-- All nodes a `Restriction` record can inject into the output are
bounded by `c`. -/
def RestrBnd (r : Restriction) (c : Nat) : Prop :=
  (∀ x, r.on_property = some x → nodeBnd x c) ∧
  (∀ ox ∈ r.on_klass, ∀ x, ox = some x → nodeBnd x c) ∧
  (∀ x, r.min_cardinality = some x → nodeBnd x c) ∧
  (∀ x, r.max_cardinality = some x → nodeBnd x c)

/-- Possible subjects of anchor-attached triples in the restriction pass:
a fresh blank node, or the `prop_path_map` entry of some processed
restriction's `on_property`. -/
def AnchorOf (c : Nat) (m : PropMap) (rs : List Restriction) (s : Node) : Prop :=
  (∃ n, c ≤ n ∧ s = .bnode n) ∨
  ∃ r ∈ rs, ∃ q, r.on_property = some q ∧ pmGet m q = some s

/-- Shape of the triples the restriction pass adds. -/
def P2New (c : Nat) (shape : Node) (m : PropMap) (rs : List Restriction)
    (t : Triple) : Prop :=
  (t.2.1 = vSHproperty ∧ t.1 = shape ∧ ∃ n, c ≤ n ∧ t.2.2 = .bnode n) ∨
  (t.2.1 = vSHpath ∧ (∃ n, c ≤ n ∧ t.1 = .bnode n) ∧
    (∃ r ∈ rs, r.on_property = some t.2.2) ∧ pmGet m t.2.2 = none) ∨
  ((t.2.1 = vRDFfirst ∨ t.2.1 = vRDFrest) ∧ ∃ n, c ≤ n ∧ t.1 = .bnode n) ∨
  ((t.2.1 = vSHclass ∨ t.2.1 = vSHor ∨ t.2.1 = vSHminCount ∨
    t.2.1 = vSHmaxCount) ∧ AnchorOf c m rs t.1)

/-- One guarded cardinality add (the body of each `if restriction...:`
block on source lines 237-240). -/
def cardAdd (st : GenState) (b pred : Node) : Option Node → GenState
  | some v => if v.truthy then st.add (b, pred, v) else st
  | none => st

/-- The shape name prescribed by the specification: the class URI's
fragment when nonempty, otherwise its last path segment, suffixed with
`Shape`. -/
def shapeNameOf (klass : Node) : String :=
  let pf := urlPathFrag klass.str.data
  if !pf.2.isEmpty then (⟨pf.2⟩ : String) ++ "Shape"
  else (⟨(splitAllChar pf.1 '/').getLastD []⟩ : String) ++ "Shape"

/-- Extract the state of a successful generator step (examples only). -/
def okState : Except String GenState → GenState
  | .ok st => st
  | .error _ => { ctr := 0, g := [] }

/-- The state produced by `add_nodeshape` on the example ontology's class
`C`, starting from an empty graph. -/
def exSt3 : GenState :=
  okState (addNodeShape exOnt id "http://v/" (.uri "http://o/C")
    { ctr := 0, g := [] })

/-- A class `C` with one range-constrained property `p` and a
min/max-cardinality restriction targeting the same property. -/
def exO4 : Ontology :=
  { graph :=
      [ (.uri "http://o/C", vRDFtype, vOWLClass),
        (.uri "http://o/D", vRDFtype, vOWLClass),
        (.uri "http://o/p", vRDFSdomain, .uri "http://o/C"),
        (.uri "http://o/p", vRDFSrange, .uri "http://o/D"),
        (.uri "http://o/C", vRDFSsubClassOf, .bnode 0),
        (.bnode 0, vRDFtype, vOWLRestriction),
        (.bnode 0, vOWLonProperty, .uri "http://o/p"),
        (.bnode 0, vOWLonClass, .uri "http://o/D"),
        (.bnode 0, vOWLminQC, .lit "1" (some (xsdDT "nonNegativeInteger"))),
        (.bnode 0, vOWLmaxQC, .lit "1" (some (xsdDT "nonNegativeInteger"))) ]
    ident := "http://o/" }

/-- The state produced by `add_nodeshape` on `exO4`'s class `C`, starting
from an empty graph whose counter clears the source blank node. -/
def exSt4 : GenState :=
  okState (addNodeShape exO4 id "http://v/" (.uri "http://o/C")
    { ctr := 1, g := [] })

/-! ### Lemmas and claim theorems -/

lemma mem_subjects {g : List Triple} {p o x : Node} :
    x ∈ subjects g p o ↔ (x, p, o) ∈ g := by
  simp only [subjects, List.mem_dedup, List.mem_map, List.mem_filter,
    Bool.and_eq_true, beq_iff_eq]
  constructor
  · rintro ⟨t, ⟨ht, hp, ho⟩, rfl⟩
    have : t = (t.1, p, o) := by
      obtain ⟨a, b, c⟩ := t
      simp_all
    rwa [this] at ht
  · intro h
    exact ⟨(x, p, o), ⟨h, rfl, rfl⟩, rfl⟩

lemma mem_objects {g : List Triple} {s p x : Node} :
    x ∈ objects g s p ↔ (s, p, x) ∈ g := by
  simp only [objects, List.mem_dedup, List.mem_map, List.mem_filter,
    Bool.and_eq_true, beq_iff_eq]
  constructor
  · rintro ⟨t, ⟨ht, hs, hp⟩, rfl⟩
    have : t = (s, p, t.2.2) := by
      obtain ⟨a, b, c⟩ := t
      simp_all
    rwa [this] at ht
  · intro h
    exact ⟨(s, p, x), ⟨h, rfl, rfl⟩, rfl⟩

lemma ontClasses_def (o : Ontology) :
    ontClasses o = (subjects o.graph vRDFtype vOWLClass).filter
      (fun k => !k.isBNode && strStartsWith k.str o.ident) := rfl

lemma mem_ontClasses {o : Ontology} {x : Node} :
    x ∈ ontClasses o ↔
      ((x, vRDFtype, vOWLClass) ∈ o.graph ∧ x.isBNode = false ∧
        strStartsWith x.str o.ident = true) := by
  rw [ontClasses_def, List.mem_filter, mem_subjects]
  simp [Bool.and_eq_true, Bool.not_eq_true']

lemma contains_iff_mem {l : List Node} {x : Node} :
    l.contains x = true ↔ x ∈ l := by
  simp [List.contains]

lemma classesB_inRange (o : Ontology) (r : Node) (hr : r.truthy = true) :
    classesB o none (some r) =
      (objects o.graph r vRDFSrange).filter (fun k => (ontClasses o).contains k) := by
  have h : classesB o none (some r) =
      if r.truthy then
        (objects o.graph r vRDFSrange).filter (fun k => (ontClasses o).contains k)
      else ontClasses o := rfl
  rw [h, hr]
  simp

lemma classesB_inDomain (o : Ontology) (d : Node) (hd : d.truthy = true) :
    classesB o (some d) none =
      (objects o.graph d vRDFSrange).filter (fun k => (ontClasses o).contains k) := by
  have h : classesB o (some d) none =
      if d.truthy then
        (objects o.graph d vRDFSrange).filter (fun k => (ontClasses o).contains k)
      else ontClasses o := rfl
  rw [h, hd]
  simp

lemma mem_classesB_inRange {o : Ontology} {r x : Node} (hr : r.truthy = true) :
    x ∈ classesB o none (some r) ↔
      ((r, vRDFSrange, x) ∈ o.graph ∧ x ∈ ontClasses o) := by
  rw [classesB_inRange o r hr]
  rw [List.mem_filter]
  rw [mem_objects, contains_iff_mem]

lemma mem_restrictionUris {o : Ontology} {c u : Node} (hc : c.truthy = true) :
    u ∈ restrictionUris o c ↔
      ((u, vRDFtype, vOWLRestriction) ∈ o.graph ∧
        (c, vRDFSsubClassOf, u) ∈ o.graph) := by
  unfold restrictionUris
  simp [hc, List.mem_filter, mem_subjects, mem_objects, List.contains]

/-! ### Shared concrete examples -/

/-! ### C2 -/

/-- C2: `classes(inDomainOf=p)` and `classes(inRangeOf=p)` run the
identical query via `rdfs:range`: the two calls are equal for every `p`,
and for a truthy `p` both return exactly the members of the base
ontology-class set that appear as `rdfs:range` objects of `p`. -/
theorem classes_domain_range_coincide (o : Ontology) (p : Node) :
    classes o (some p) none = classes o none (some p) ∧
    (p.truthy = true →
      ∃ l, classes o (some p) none = .ok l ∧
        ∀ k, (k ∈ l ↔ ((p, vRDFSrange, k) ∈ o.graph ∧ k ∈ ontClasses o))) := by
  have heq : classesB o (some p) none = classesB o none (some p) := by
    have h1 : classesB o (some p) none =
        if p.truthy then
          (objects o.graph p vRDFSrange).filter (fun k => (ontClasses o).contains k)
        else ontClasses o := rfl
    have h2 : classesB o none (some p) =
        if p.truthy then
          (objects o.graph p vRDFSrange).filter (fun k => (ontClasses o).contains k)
        else ontClasses o := rfl
    rw [h1, h2]
  constructor
  · unfold classes
    simp [otruthy, heq]
  · intro hp
    refine ⟨classesB o (some p) none, ?_, ?_⟩
    · unfold classes
      simp [otruthy]
    · intro k
      rw [heq]
      exact mem_classesB_inRange hp

theorem classes_domain_range_coincide_witness :
    ∃ l, classes exOnt (some (.uri "http://o/p")) none = .ok l ∧
      ∀ k, (k ∈ l ↔ (((.uri "http://o/p" : Node), vRDFSrange, k) ∈ exOnt.graph ∧
        k ∈ ontClasses exOnt)) :=
  (classes_domain_range_coincide exOnt (.uri "http://o/p")).2 (by decide)

/-! ### C8 -/

/-- C8: `properties` fails with `InvalidQuery` (a Python `assert`) iff
zero or both of `with_domain`/`with_range` are given or the given class
is not a member of `classes()`; with exactly one truthy argument naming a
member it returns, without error, the non-blank in-namespace subjects of
the corresponding `rdfs:domain`/`rdfs:range` triples. -/
theorem properties_query_spec (o : Ontology) :
    (∃ e, properties o none none = .error e) ∧
    (∀ c c', c.truthy = true → c'.truthy = true →
      ∃ e, properties o (some c) (some c') = .error e) ∧
    (∀ c, c.truthy = true → c ∉ ontClasses o →
      (∃ e, properties o (some c) none = .error e) ∧
      (∃ e, properties o none (some c) = .error e)) ∧
    (∀ c, c.truthy = true → c ∈ ontClasses o →
      (∃ l, properties o (some c) none = .ok l ∧
        ∀ x, (x ∈ l ↔ ((x, vRDFSdomain, c) ∈ o.graph ∧ x.isBNode = false ∧
          strStartsWith x.str o.ident = true))) ∧
      (∃ l, properties o none (some c) = .ok l ∧
        ∀ x, (x ∈ l ↔ ((x, vRDFSrange, c) ∈ o.graph ∧ x.isBNode = false ∧
          strStartsWith x.str o.ident = true)))) := by
  refine ⟨⟨_, rfl⟩, ?_, ?_, ?_⟩
  · intro c c' hc hc'
    unfold properties
    simp [otruthy, hc, hc']
  · intro c hc hmem
    constructor
    · unfold properties
      simp [otruthy, hc, hmem]
    · unfold properties
      simp [otruthy, hc, hmem]
  · intro c hc hmem
    constructor
    · refine ⟨(subjects o.graph vRDFSdomain c).filter
        (fun p => !p.isBNode && strStartsWith p.str o.ident), ?_, ?_⟩
      · unfold properties
        simp [otruthy, hc, hmem]
      · intro x
        rw [List.mem_filter, mem_subjects]
        simp [Bool.and_eq_true, Bool.not_eq_true']
    · refine ⟨(subjects o.graph vRDFSrange c).filter
        (fun p => !p.isBNode && strStartsWith p.str o.ident), ?_, ?_⟩
      · unfold properties
        simp [otruthy, hc, hmem]
      · intro x
        rw [List.mem_filter, mem_subjects]
        simp [Bool.and_eq_true, Bool.not_eq_true']

theorem properties_query_spec_witness :
    ∃ e, properties exOnt none none = .error e :=
  (properties_query_spec exOnt).1

/-! ### C6 -/

/-- C6: `restrictions(forClass=C)` returns exactly the projections of the
`owl:Restriction`-typed nodes that are objects of a direct
`rdfs:subClassOf` triple with subject `C`; the `onClass` sequence is the
ordered `owl:unionOf` list when the `owl:onClass` value is a blank node
and the singleton of that value otherwise. -/
theorem restrictions_membership (o : Ontology) (c : Node) (hc : c.truthy = true) :
    (∀ r, r ∈ restrictions o c ↔
      ∃ u, (u, vRDFtype, vOWLRestriction) ∈ o.graph ∧
        (c, vRDFSsubClassOf, u) ∈ o.graph ∧ r = mkRestriction o u) ∧
    (∀ u, (mkRestriction o u).on_klass =
      match gvalue o.graph u vOWLonClass with
      | some (.bnode b) =>
        (rdfItems o.graph (gvalue o.graph (.bnode b) vOWLunionOf)).map some
      | v => [v]) := by
  constructor
  · intro r
    simp only [restrictions, List.mem_map]
    constructor
    · rintro ⟨u, hu, rfl⟩
      have h := (mem_restrictionUris hc).1 hu
      exact ⟨u, h.1, h.2, rfl⟩
    · rintro ⟨u, h1, h2, rfl⟩
      exact ⟨u, (mem_restrictionUris hc).2 ⟨h1, h2⟩, rfl⟩
  · intro u
    rfl

theorem restrictions_membership_witness :
    (∀ r, r ∈ restrictions exOnt (.uri "http://o/C") ↔
      ∃ u, (u, vRDFtype, vOWLRestriction) ∈ exOnt.graph ∧
        ((.uri "http://o/C" : Node), vRDFSsubClassOf, u) ∈ exOnt.graph ∧
        r = mkRestriction exOnt u) ∧
    (∀ u, (mkRestriction exOnt u).on_klass =
      match gvalue exOnt.graph u vOWLonClass with
      | some (.bnode b) =>
        (rdfItems exOnt.graph (gvalue exOnt.graph (.bnode b) vOWLunionOf)).map some
      | v => [v]) :=
  restrictions_membership exOnt (.uri "http://o/C") (by decide)

/-! ### C7 -/

/-- C7 counterexample: `restrictions` returns a `Restriction` whose
`onClass` sequence is empty (blank `owl:onClass` without `owl:unionOf`),
refuting the invariant that `onClass` is never empty. -/
theorem restrictions_empty_on_klass_cex :
    (mkRestriction exO7 (.bnode 0)) ∈ restrictions exO7 (.uri "http://o/C") ∧
    (mkRestriction exO7 (.bnode 0)).on_klass = [] := by
  constructor
  · decide
  · decide

/-- C7 amended: a returned `Restriction` has an empty `onClass` sequence
exactly when the `owl:onClass` value is a blank node whose `owl:unionOf`
collection is missing or empty; a restriction lacking `owl:onClass`
entirely yields the singleton null sequence, not an empty one. -/
theorem restrictions_on_klass_characterization (o : Ontology) (c u : Node)
    (_hu : u ∈ restrictionUris o c) :
    ((mkRestriction o u).on_klass = [] ↔
      ∃ b, gvalue o.graph u vOWLonClass = some (.bnode b) ∧
        rdfItems o.graph (gvalue o.graph (.bnode b) vOWLunionOf) = []) ∧
    (gvalue o.graph u vOWLonClass = none →
      (mkRestriction o u).on_klass = [none]) := by
  constructor
  · unfold mkRestriction
    rcases hv : gvalue o.graph u vOWLonClass with _ | v
    · simp
    · cases v <;> simp
  · intro hv
    unfold mkRestriction
    rw [hv]

theorem restrictions_on_klass_characterization_witness :
    (((mkRestriction exO7 (.bnode 0)).on_klass = [] ↔
      ∃ b, gvalue exO7.graph (.bnode 0) vOWLonClass = some (.bnode b) ∧
        rdfItems exO7.graph (gvalue exO7.graph (.bnode b) vOWLunionOf) = []) ∧
    (gvalue exO7.graph (.bnode 0) vOWLonClass = none →
      (mkRestriction exO7 (.bnode 0)).on_klass = [none])) :=
  restrictions_on_klass_characterization exO7 (.uri "http://o/C") (.bnode 0)
    (by decide)

/-! ### C10 -/

/-- C10: `compute_shape_uri` is not injective — two distinct class
Identifiers with the same fragment map to the same shape Identifier for
every output namespace, and on a concrete ontology containing both
classes the generated graph has a single shared `NodeShape` subject
carrying both `targetClass` triples. -/
theorem compute_shape_uri_not_injective :
    exC10a ≠ exC10b ∧
    (∀ ns, computeShapeUri ns exC10a = computeShapeUri ns exC10b) ∧
    (shaclGen exO10 exCfg "h" "2024-01-01" id).isOk = true ∧
    (computeShapeUri "http://v/" exC10a, vRDFtype, vSHNodeShape) ∈
      okGraph (shaclGen exO10 exCfg "h" "2024-01-01" id) ∧
    (computeShapeUri "http://v/" exC10a, vSHtargetClass, exC10a) ∈
      okGraph (shaclGen exO10 exCfg "h" "2024-01-01" id) ∧
    (computeShapeUri "http://v/" exC10a, vSHtargetClass, exC10b) ∈
      okGraph (shaclGen exO10 exCfg "h" "2024-01-01" id) ∧
    (((okGraph (shaclGen exO10 exCfg "h" "2024-01-01" id)).filter
        (fun t => t.2.1 == vRDFtype && t.2.2 == vSHNodeShape)).map
      (fun t => t.1)).dedup = [computeShapeUri "http://v/" exC10a] := by
  refine ⟨by decide, ?_, by decide, by decide, by decide, by decide, by decide⟩
  intro ns
  rfl

/-! ### Generator state membership lemmas -/

lemma fresh_g (st : GenState) : st.fresh.2.g = st.g := rfl

lemma mem_add {st : GenState} {t t' : Triple} :
    t ∈ (st.add t').g ↔ (t ∈ st.g ∨ t = t') := by
  simp [GenState.add]

lemma mem_setT {st : GenState} {s p o' : Node} {t : Triple} :
    t ∈ (st.setT s p o').g ↔
      ((t ∈ st.g ∧ ¬(t.1 = s ∧ t.2.1 = p)) ∨ t = (s, p, o')) := by
  simp [GenState.setT, List.mem_filter, Bool.and_eq_true, beq_iff_eq]
  tauto

lemma collLoop_mem_other {pred : Node} (hc : pred ≠ vSHclass)
    (hf : pred ≠ vRDFfirst) (hr : pred ≠ vRDFrest) :
    ∀ (items : List Node) (st : GenState) (e : Node) (hasF : Bool) (s o' : Node),
      ((s, pred, o') ∈ (collLoop st e hasF items).g ↔ (s, pred, o') ∈ st.g) := by
  intro items
  induction items with
  | nil =>
    intro st e hasF s o'
    simp [collLoop]
  | cons pk rest ih =>
    intro st e hasF s o'
    cases hasF
    · have hstep : collLoop st e false (pk :: rest) =
          collLoop (((st.fresh.2.add (st.fresh.1, vSHclass, pk)).add
            (e, vRDFfirst, st.fresh.1)).add (e, vRDFrest, vRDFnil)) e true rest := by
        simp [collLoop]
      rw [hstep, ih]
      simp only [mem_add, mem_setT, fresh_g]
      simp [Prod.ext_iff, hc, hf, hr]
    · have hstep : collLoop st e true (pk :: rest) =
          collLoop ((((st.fresh.2.add (st.fresh.1, vSHclass, pk)).fresh.2.setT e
              vRDFrest (st.fresh.2.add (st.fresh.1, vSHclass, pk)).fresh.1).add
            ((st.fresh.2.add (st.fresh.1, vSHclass, pk)).fresh.1, vRDFfirst,
              st.fresh.1)).add
            ((st.fresh.2.add (st.fresh.1, vSHclass, pk)).fresh.1, vRDFrest, vRDFnil))
            (st.fresh.2.add (st.fresh.1, vSHclass, pk)).fresh.1 true rest := by
        simp [collLoop]
      rw [hstep, ih]
      simp only [mem_add, mem_setT, fresh_g]
      simp [Prod.ext_iff, hc, hf, hr]

lemma buildOr_mem_other {pred : Node} (hc : pred ≠ vSHclass)
    (hf : pred ≠ vRDFfirst) (hr : pred ≠ vRDFrest) (ho : pred ≠ vSHor)
    (st : GenState) (a : Node) (items : List Node) (s o' : Node) :
    ((s, pred, o') ∈ (buildOr st a items).g ↔ (s, pred, o') ∈ st.g) := by
  unfold buildOr
  rw [mem_add, collLoop_mem_other hc hf hr]
  simp only [fresh_g]
  simp [Prod.ext_iff, ho]

lemma restrAnchor_spec (shape : Node) (st : GenState) (m : PropMap)
    (r : Restriction) {b : Node} {st1 : GenState}
    (h : restrAnchor shape st m r = .ok (b, st1)) :
    b = restrAnchorNode m st r ∧
    ∀ x y (pr : Node), pr ≠ vSHproperty → pr ≠ vSHpath →
      ((x, pr, y) ∈ st1.g ↔ (x, pr, y) ∈ st.g) := by
  rcases hp : r.on_property with _ | q
  · rw [restrAnchor, hp] at h
    simp at h
  · rcases hg : pmGet m q with _ | b0
    · rw [restrAnchor, hp] at h
      simp only [hg, Except.ok.injEq, Prod.mk.injEq] at h
      obtain ⟨hb, hst⟩ := h
      subst hb
      subst hst
      refine ⟨by simp [restrAnchorNode, hp, hg, GenState.fresh], ?_⟩
      intro x y pr h1 h2
      simp only [mem_add, fresh_g]
      simp [Prod.ext_iff, h1, h2]
    · rw [restrAnchor, hp] at h
      simp only [hg, Except.ok.injEq, Prod.mk.injEq] at h
      obtain ⟨hb, hst⟩ := h
      subst hb
      subst hst
      exact ⟨by simp [restrAnchorNode, hp, hg], fun x y pr h1 h2 => Iff.rfl⟩

lemma restrClassPart_mem_other {pred : Node} (hc : pred ≠ vSHclass)
    (hf : pred ≠ vRDFfirst) (hr : pred ≠ vRDFrest) (ho : pred ≠ vSHor)
    (st1 : GenState) (b : Node) (r : Restriction) {st2 : GenState}
    (h : restrClassPart st1 b r = .ok st2) (x y : Node) :
    ((x, pred, y) ∈ st2.g ↔ (x, pred, y) ∈ st1.g) := by
  unfold restrClassPart at h
  by_cases h1 : 1 < r.on_klass.length
  · rw [if_pos h1] at h
    rcases ha : allSome r.on_klass with _ | items
    · rw [ha] at h
      exact absurd h (by simp)
    · rw [ha] at h
      simp only [Except.ok.injEq] at h
      subst h
      exact buildOr_mem_other hc hf hr ho st1 b items x y
  · rw [if_neg h1] at h
    by_cases h2 : (r.on_klass.length == 1) = true
    · rw [if_pos h2] at h
      rcases hh : r.on_klass.headD none with _ | c
      · rw [hh] at h
        exact absurd h (by simp)
      · rw [hh] at h
        simp only [Except.ok.injEq] at h
        subst h
        rw [mem_add]
        simp [Prod.ext_iff, hc]
    · rw [if_neg h2] at h
      simp only [Except.ok.injEq] at h
      subst h
      rfl

lemma mem_addIf {st : GenState} {t t' : Triple} {c : Bool} :
    t ∈ ((if c = true then st.add t' else st)).g ↔
      (t ∈ st.g ∨ (c = true ∧ t = t')) := by
  by_cases h : c = true
  · rw [if_pos h, mem_add]
    tauto
  · rw [if_neg h]
    simp [h]

lemma restrCardPart_mem_min (st2 : GenState) (b : Node) (r : Restriction)
    (x y : Node) :
    ((x, vSHminCount, y) ∈ (restrCardPart st2 b r).g ↔
      ((x, vSHminCount, y) ∈ st2.g ∨
        (x = b ∧ r.min_cardinality = some y ∧ y.truthy = true))) := by
  have hne : vSHminCount ≠ vSHmaxCount := by decide
  unfold restrCardPart
  rcases hmin : r.min_cardinality with _ | v0
  all_goals rcases hmax : r.max_cardinality with _ | w0
  all_goals simp only [id_eq, mem_addIf, mem_add, Prod.ext_iff, Option.some.injEq]
  all_goals aesop

lemma restrCardPart_mem_max (st2 : GenState) (b : Node) (r : Restriction)
    (x y : Node) :
    ((x, vSHmaxCount, y) ∈ (restrCardPart st2 b r).g ↔
      ((x, vSHmaxCount, y) ∈ st2.g ∨
        (x = b ∧ r.max_cardinality = some y ∧ y.truthy = true))) := by
  have hne : vSHmaxCount ≠ vSHminCount := by decide
  unfold restrCardPart
  rcases hmin : r.min_cardinality with _ | v0
  all_goals rcases hmax : r.max_cardinality with _ | w0
  all_goals simp only [id_eq, mem_addIf, mem_add, Prod.ext_iff, Option.some.injEq]
  all_goals aesop

/-- Invert a successful `restrStep`. -/
lemma restrStep_ok_elim {shape : Node} {st : GenState} {m : PropMap}
    {r : Restriction} {st' : GenState} {m' : PropMap}
    (h : restrStep shape (st, m) r = .ok (st', m')) :
    ∃ b st1 st2, restrAnchor shape st m r = .ok (b, st1) ∧
      restrClassPart st1 b r = .ok st2 ∧
      st' = restrCardPart st2 b r ∧ m' = m := by
  unfold restrStep at h
  rcases ha : restrAnchor shape st m r with e | ⟨b, st1⟩
  · simp only [ha] at h
    exact absurd h (by simp)
  · simp only [ha] at h
    rcases hcp : restrClassPart st1 b r with e | st2
    · simp only [hcp] at h
      exact absurd h (by simp)
    · simp only [hcp, Except.ok.injEq, Prod.mk.injEq] at h
      exact ⟨b, st1, st2, rfl, hcp, h.1.symm, h.2.symm⟩

/-! ### C5 -/

/-- C5 counterexample: the source graph contains the
`owl:minQualifiedCardinality` predicate (with value
`"0"^^xsd:nonNegativeInteger`) on the restriction node, generation
succeeds, and yet the output contains no `sh:minCount` triple at all —
`if restriction.min_cardinality:` tests rdflib `Literal` truthiness
(the parsed value), so an explicit zero is conflated with an absent
predicate. -/
theorem min_count_zero_dropped_cex :
    (((.bnode 0 : Node), vOWLminQC,
        (.lit "0" (some (xsdDT "nonNegativeInteger")) : Node)) ∈ exO5.graph) ∧
    (mkRestriction exO5 (.bnode 0)).min_cardinality =
      some (.lit "0" (some (xsdDT "nonNegativeInteger"))) ∧
    (mkRestriction exO5 (.bnode 0)) ∈ restrictions exO5 (.uri "http://o/C") ∧
    (shaclGen exO5 exCfg "h" "2024-01-01" id).isOk = true ∧
    (okGraph (shaclGen exO5 exCfg "h" "2024-01-01" id)).all
      (fun t => t.2.1 != vSHminCount) = true := by
  refine ⟨by decide, by decide, by decide, by decide, by decide⟩

/-- C5 amended: in the restriction pass, a `minCount` (resp. `maxCount`)
triple is emitted on the property anchor iff the restriction's
cardinality value is present *and truthy* (for integer-typed literals:
present and nonzero); an explicit zero is treated like an absent
predicate. -/
theorem restriction_cardinality_emission (shape : Node) (st : GenState)
    (m : PropMap) (r : Restriction) (st' : GenState) (m' : PropMap)
    (h : restrStep shape (st, m) r = .ok (st', m')) (b v : Node) :
    (((b, vSHminCount, v) ∈ st'.g) ↔
      ((b, vSHminCount, v) ∈ st.g ∨
        (b = restrAnchorNode m st r ∧ r.min_cardinality = some v ∧
          v.truthy = true))) ∧
    (((b, vSHmaxCount, v) ∈ st'.g) ↔
      ((b, vSHmaxCount, v) ∈ st.g ∨
        (b = restrAnchorNode m st r ∧ r.max_cardinality = some v ∧
          v.truthy = true))) := by
  obtain ⟨b1, st1, st2, ha, hcp, hst', hm'⟩ := restrStep_ok_elim h
  obtain ⟨hb1, hmem1⟩ := restrAnchor_spec shape st m r ha
  subst hst'
  constructor
  · rw [restrCardPart_mem_min,
      restrClassPart_mem_other (by decide) (by decide) (by decide) (by decide)
        st1 b1 r hcp,
      hmem1 _ _ _ (by decide) (by decide), hb1]
  · rw [restrCardPart_mem_max,
      restrClassPart_mem_other (by decide) (by decide) (by decide) (by decide)
        st1 b1 r hcp,
      hmem1 _ _ _ (by decide) (by decide), hb1]

theorem restriction_cardinality_emission_witness :
    ((((Node.bnode 1 : Node), vSHminCount,
        (Node.lit "1" (some (xsdDT "nonNegativeInteger")) : Node)) ∈ exW5st'.g ↔
      ((((Node.bnode 1 : Node), vSHminCount,
          (Node.lit "1" (some (xsdDT "nonNegativeInteger")) : Node)) ∈ exW5st.g) ∨
        ((Node.bnode 1 : Node) = restrAnchorNode exW5m exW5st exW5r ∧
          exW5r.min_cardinality =
            some (Node.lit "1" (some (xsdDT "nonNegativeInteger"))) ∧
          (Node.lit "1" (some (xsdDT "nonNegativeInteger")) : Node).truthy = true))) ∧
    (((Node.bnode 1 : Node), vSHmaxCount,
        (Node.lit "1" (some (xsdDT "nonNegativeInteger")) : Node)) ∈ exW5st'.g ↔
      ((((Node.bnode 1 : Node), vSHmaxCount,
          (Node.lit "1" (some (xsdDT "nonNegativeInteger")) : Node)) ∈ exW5st.g) ∨
        ((Node.bnode 1 : Node) = restrAnchorNode exW5m exW5st exW5r ∧
          exW5r.max_cardinality =
            some (Node.lit "1" (some (xsdDT "nonNegativeInteger"))) ∧
          (Node.lit "1" (some (xsdDT "nonNegativeInteger")) : Node).truthy = true)))) :=
  restriction_cardinality_emission (Node.uri "http://v/CShape") exW5st exW5m
    exW5r exW5st' exW5m (by rfl) (Node.bnode 1)
    (Node.lit "1" (some (xsdDT "nonNegativeInteger")))

/-! ### C9 -/

/-- C9 counterexample: two runs over the *same* ontology and
configuration (same fixed date and revision marker) that differ only in
the set-enumeration order — both orders being valid enumerations of the
same sets — produce different output graphs: the `sh:or` list of a
property with two range classes is built in iteration order, so the
class-constraint node `_:2` carries `http://o/A` under one order and not
under the other.  In addition, the output embeds the environment: the
`owl:versionInfo` triple changes with the `git rev-parse` result, which
is not a configuration input. -/
theorem generation_order_dependent_cex :
    ((List.reverse [Node.uri "http://o/A", Node.uri "http://o/B"]).Perm
      [Node.uri "http://o/A", Node.uri "http://o/B"]) ∧
    (((Node.bnode 2 : Node), vSHclass, (Node.uri "http://o/A" : Node)) ∈
      okGraph (shaclGen exOnt exCfg "h" "2024-01-01" id)) ∧
    (((Node.bnode 2 : Node), vSHclass, (Node.uri "http://o/A" : Node)) ∉
      okGraph (shaclGen exOnt exCfg "h" "2024-01-01" List.reverse)) ∧
    ((((Node.uri "http://v/" : Node), vOWLversionInfo,
        (Node.lit ":0.0.1: Generated by OntoShacl on commit: aaa" none : Node))
          : Triple) ∈
      okGraph (shaclGen exOnt exCfg "aaa" "2024-01-01" id)) ∧
    ((((Node.uri "http://v/" : Node), vOWLversionInfo,
        (Node.lit ":0.0.1: Generated by OntoShacl on commit: aaa" none : Node))
          : Triple) ∉
      okGraph (shaclGen exOnt exCfg "bbb" "2024-01-01" id)) := by
  refine ⟨?_, by decide, by decide, by decide, by decide⟩
  exact List.Perm.swap _ _ _

/-- C9 amended: generation is a deterministic function of the ontology,
the configuration, the environment inputs (revision marker, current
date), and the set-enumeration order: two runs agreeing on all of these
produce identical output. -/
theorem generation_deterministic_given_order (o : Ontology) (cfg : ShaclCfg)
    (gitHash today : String) (ord1 ord2 : List Node → List Node)
    (h : ∀ xs, ord1 xs = ord2 xs) :
    shaclGen o cfg gitHash today ord1 = shaclGen o cfg gitHash today ord2 := by
  have heq : ord1 = ord2 := funext h
  rw [heq]

theorem generation_deterministic_given_order_witness :
    shaclGen exOnt exCfg "h" "2024-01-01" id =
      shaclGen exOnt exCfg "h" "2024-01-01" (fun xs => xs.reverse.reverse) :=
  generation_deterministic_given_order exOnt exCfg "h" "2024-01-01" id
    (fun xs => xs.reverse.reverse) (fun xs => by simp)

/-! ### Blank-node bounds and state invariants -/

lemma bndBelow_mono {g : List Triple} {c c' : Nat} (h : BndBelow g c)
    (hc : c ≤ c') : BndBelow g c' :=
  fun t ht n hn => lt_of_lt_of_le (h t ht n hn) hc

lemma nodeBnd_mono {x : Node} {c c' : Nat} (h : nodeBnd x c) (hc : c ≤ c') :
    nodeBnd x c' :=
  fun n hn => lt_of_lt_of_le (h n hn) hc

lemma nodeBnd_of_not_bnode {x : Node} (h : x.isBNode = false) (c : Nat) :
    nodeBnd x c := by
  intro n hn
  cases x
  · simp [Node.bnodeIds] at hn
  · simp [Node.isBNode] at h
  · simp [Node.bnodeIds] at hn

lemma bndBelow_triple {s p o' : Node} {c : Nat} (hs : nodeBnd s c)
    (hp : nodeBnd p c) (ho : nodeBnd o' c) :
    ∀ n ∈ tripleBnodeIds (s, p, o'), n < c := by
  intro n hn
  simp only [tripleBnodeIds, List.mem_append] at hn
  rcases hn with (h | h) | h
  · exact hs n h
  · exact hp n h
  · exact ho n h

lemma mem_le_foldr_max {l : List Nat} {n : Nat} (hn : n ∈ l) :
    n + 1 ≤ (l.map (fun m => m + 1)).foldr max 0 := by
  induction l with
  | nil => cases hn
  | cons m l' ih =>
    rcases List.mem_cons.1 hn with rfl | h'
    · simp only [List.map_cons, List.foldr_cons]
      exact le_max_left _ _
    · simp only [List.map_cons, List.foldr_cons]
      exact le_max_of_le_right (ih h')

lemma graphBnodeBound_spec (g : List Triple) : BndBelow g (graphBnodeBound g) := by
  induction g with
  | nil =>
    intro t ht n hn
    cases ht
  | cons a g' ih =>
    intro t ht n hn
    have hstep : graphBnodeBound (a :: g') =
        max ((((tripleBnodeIds a).map (fun n => n + 1)).foldr max 0))
          (graphBnodeBound g') := rfl
    rcases List.mem_cons.1 ht with rfl | ht'
    · have := mem_le_foldr_max hn
      rw [hstep]
      omega
    · have := ih t ht' n hn
      rw [hstep]
      omega

/-! ### RDF list chains -/

lemma chainAt_nil_elim {g : List Triple} {c : Node} {cs : List Node}
    (h : ChainAt g c [] cs) : cs = [] ∧ c = vRDFnil := by
  cases cs with
  | nil => exact ⟨rfl, h⟩
  | cons a l => exact absurd h (by simp [ChainAt])

lemma chainAt_cons_elim {g : List Triple} {c : Node} {k : Node}
    {ks cs : List Node} (h : ChainAt g c (k :: ks) cs) :
    ∃ cs', cs = c :: cs' ∧ c ≠ vRDFnil ∧ c.truthy = true ∧
      objects g c vRDFfirst = [k] ∧
      ∃ d, objects g c vRDFrest = [d] ∧ ChainAt g d ks cs' := by
  cases cs with
  | nil => exact absurd h (by simp [ChainAt])
  | cons c' cs' =>
    obtain ⟨h1, h2, h3, h4, h5⟩ := h
    subst h1
    exact ⟨cs', rfl, h2, h3, h4, h5⟩

lemma chainAt_len {g : List Triple} :
    ∀ {ks cs : List Node} {c : Node}, ChainAt g c ks cs → ks.length = cs.length := by
  intro ks
  induction ks with
  | nil =>
    intro cs c h
    rw [(chainAt_nil_elim h).1]
  | cons k ks' ih =>
    intro cs c h
    obtain ⟨cs', rfl, _, _, _, d, _, htail⟩ := chainAt_cons_elim h
    simp [ih htail]

lemma chainAt_fun {g : List Triple} :
    ∀ {ks cs ks' cs' : List Node} {c : Node},
      ChainAt g c ks cs → ChainAt g c ks' cs' → ks = ks' ∧ cs = cs' := by
  intro ks
  induction ks with
  | nil =>
    intro cs ks' cs' c h h'
    obtain ⟨rfl, rfl⟩ := chainAt_nil_elim h
    cases ks' with
    | nil => exact ⟨rfl, (chainAt_nil_elim h').1.symm⟩
    | cons k' l' =>
      obtain ⟨cs'', rfl, hne, _⟩ := chainAt_cons_elim h'
      exact absurd rfl hne
  | cons k ks0 ih =>
    intro cs ks' cs' c h h'
    obtain ⟨cs0, rfl, hne, _, h4, d, h5, htail⟩ := chainAt_cons_elim h
    cases ks' with
    | nil =>
      obtain ⟨_, rfl⟩ := chainAt_nil_elim h'
      exact absurd rfl hne
    | cons k' l' =>
      obtain ⟨cs1, hcs1, _, _, h4', d', h5', htail'⟩ := chainAt_cons_elim h'
      have hk : k = k' := by
        have := h4.symm.trans h4'
        simpa using this
      have hd : d = d' := by
        have := h5.symm.trans h5'
        simpa using this
      subst hk
      subst hd
      obtain ⟨hks, hcs⟩ := ih htail htail'
      subst hks
      refine ⟨rfl, ?_⟩
      rw [hcs1, hcs]

lemma chainAt_mem_suffix {g : List Triple} :
    ∀ {ks cs : List Node} {c d : Node}, ChainAt g c ks cs → d ∈ cs →
      ∃ ks₂ cs₂, ChainAt g d ks₂ cs₂ ∧ cs₂.length ≤ cs.length ∧
        (d ≠ c → cs₂.length < cs.length) := by
  intro ks
  induction ks with
  | nil =>
    intro cs c d h hd
    rw [(chainAt_nil_elim h).1] at hd
    cases hd
  | cons k ks0 ih =>
    intro cs c d h hd
    obtain ⟨cs0, rfl, hne, htr, h4, e, h5, htail⟩ := chainAt_cons_elim h
    rcases List.mem_cons.1 hd with rfl | hd'
    · refine ⟨k :: ks0, d :: cs0, h, le_refl _, ?_⟩
      intro hdc
      exact absurd rfl hdc
    · obtain ⟨ks₂, cs₂, hch, hle, _⟩ := ih htail hd'
      refine ⟨ks₂, cs₂, hch, ?_, ?_⟩
      · simp
        omega
      · intro _
        simp
        omega

lemma chainAt_nodup {g : List Triple} :
    ∀ {ks cs : List Node} {c : Node}, ChainAt g c ks cs → cs.Nodup := by
  intro ks
  induction ks with
  | nil =>
    intro cs c h
    rw [(chainAt_nil_elim h).1]
    exact List.nodup_nil
  | cons k ks0 ih =>
    intro cs c h
    obtain ⟨cs0, rfl, hne, htr, h4, d, h5, htail⟩ := chainAt_cons_elim h
    refine List.nodup_cons.2 ⟨?_, ih htail⟩
    intro hc
    obtain ⟨ks₂, cs₂, hch, hle, _⟩ := chainAt_mem_suffix htail hc
    obtain ⟨_, hcs⟩ := chainAt_fun h hch
    have : (c :: cs0).length = cs₂.length := by rw [hcs]
    simp at this
    omega

lemma chainAt_rest_triple {g : List Triple} :
    ∀ {ks cs : List Node} {c : Node}, ChainAt g c ks cs →
      ∀ x ∈ cs, ∃ y, (x, vRDFrest, y) ∈ g := by
  intro ks
  induction ks with
  | nil =>
    intro cs c h x hx
    rw [(chainAt_nil_elim h).1] at hx
    cases hx
  | cons k ks0 ih =>
    intro cs c h x hx
    obtain ⟨cs0, rfl, hne, htr, h4, d, h5, htail⟩ := chainAt_cons_elim h
    rcases List.mem_cons.1 hx with rfl | hx'
    · refine ⟨d, mem_objects.1 ?_⟩
      rw [h5]
      simp
    · exact ih htail x hx'

lemma chainAt_length_le {g : List Triple} {ks cs : List Node} {c : Node}
    (h : ChainAt g c ks cs) : ks.length ≤ g.length := by
  rw [chainAt_len h]
  have hnd : cs.Nodup := chainAt_nodup h
  have hsub : ∀ x ∈ cs, x ∈ g.map (fun t => t.1) := by
    intro x hx
    obtain ⟨y, hy⟩ := chainAt_rest_triple h x hx
    exact List.mem_map.2 ⟨(x, vRDFrest, y), hy, rfl⟩
  calc cs.length = cs.toFinset.card := (List.toFinset_card_of_nodup hnd).symm
    _ ≤ (g.map (fun t => t.1)).toFinset.card := by
        apply Finset.card_le_card
        intro x hx
        rw [List.mem_toFinset] at hx ⊢
        exact hsub x hx
    _ ≤ (g.map (fun t => t.1)).length := List.toFinset_card_le _
    _ = g.length := List.length_map _ _

lemma objects_eq_nil_iff {g : List Triple} {s p : Node} :
    objects g s p = [] ↔ ∀ x, (s, p, x) ∉ g := by
  constructor
  · intro h x hx
    have := mem_objects.2 hx
    rw [h] at this
    cases this
  · intro h
    rcases ho : objects g s p with _ | ⟨x, l⟩
    · rfl
    · have : x ∈ objects g s p := by
        rw [ho]
        simp
      exact absurd (mem_objects.1 this) (h x)

lemma objects_eq_singleton {g : List Triple} {s p a : Node}
    (h : ∀ x, ((s, p, x) ∈ g ↔ x = a)) : objects g s p = [a] := by
  have hnd : (objects g s p).Nodup := by
    unfold objects
    exact List.nodup_dedup _
  have hmem : ∀ x, (x ∈ objects g s p ↔ x = a) := by
    intro x
    rw [mem_objects]
    exact h x
  rcases ho : objects g s p with _ | ⟨x, l⟩
  · exfalso
    have := (hmem a).2 rfl
    rw [ho] at this
    cases this
  · rw [ho] at hmem hnd
    have hx : x = a := (hmem x).1 (by simp)
    subst hx
    rcases l with _ | ⟨y, l'⟩
    · rfl
    · exfalso
      have hy : y = x := (hmem y).1 (by simp)
      subst hy
      simp at hnd

lemma rdfItemsAux_of_chain {g : List Triple} (hinv : chainInvP g) :
    ∀ {ks cs : List Node} {c : Node} {fuel : Nat}, ChainAt g c ks cs →
      ks.length < fuel → rdfItemsAux g fuel (some c) = ks := by
  intro ks
  induction ks with
  | nil =>
    intro cs c fuel h hf
    obtain ⟨_, rfl⟩ := chainAt_nil_elim h
    cases fuel with
    | zero => omega
    | succ f =>
      have hfirst : gvalue g vRDFnil vRDFfirst = none := by
        unfold gvalue
        rw [objects_eq_nil_iff.2 ?_]
        · rfl
        · intro x hx
          exact absurd rfl ((hinv _ hx rfl).1)
      have hrest : gvalue g vRDFnil vRDFrest = none := by
        unfold gvalue
        rw [objects_eq_nil_iff.2 ?_]
        · rfl
        · intro x hx
          exact absurd rfl ((hinv _ hx rfl).2)
      rw [rdfItemsAux, if_pos (by decide), hfirst, hrest]
      cases f <;> rfl
  | cons k ks0 ih =>
    intro cs c fuel h hf
    obtain ⟨cs0, rfl, hne, htr, h4, d, h5, htail⟩ := chainAt_cons_elim h
    cases fuel with
    | zero => omega
    | succ f =>
      have hfirst : gvalue g c vRDFfirst = some k := by
        unfold gvalue
        rw [h4]
        rfl
      have hrest : gvalue g c vRDFrest = some d := by
        unfold gvalue
        rw [h5]
        rfl
      rw [rdfItemsAux, if_pos htr, hfirst, hrest]
      have : rdfItemsAux g f (some d) = ks0 := by
        apply ih htail
        simp at hf
        omega
      rw [this]

/-- Read an RDF chain out of the final graph. -/
lemma rdfItems_of_chain {g : List Triple} {ks cs : List Node} {c : Node}
    (hinv : chainInvP g) (h : ChainAt g c ks cs) :
    rdfItems g (some c) = ks := by
  apply rdfItemsAux_of_chain hinv h
  have := chainAt_length_le h
  omega

/-! ### Small state lemmas and step equations -/

lemma fresh_ctr (st : GenState) : st.fresh.2.ctr = st.ctr + 1 := rfl

lemma fresh_fst (st : GenState) : st.fresh.1 = Node.bnode st.ctr := rfl

lemma add_ctr (st : GenState) (t : Triple) : (st.add t).ctr = st.ctr := rfl

lemma add_g (st : GenState) (t : Triple) : (st.add t).g = st.g ++ [t] := rfl

lemma setT_ctr (st : GenState) (s p o' : Node) :
    (st.setT s p o').ctr = st.ctr := rfl

lemma collLoop_nil (st : GenState) (e : Node) (hf : Bool) :
    collLoop st e hf [] = st := rfl

lemma collLoop_cons_false (st : GenState) (e pk : Node) (rest : List Node) :
    collLoop st e false (pk :: rest) =
      collLoop (((st.fresh.2.add (st.fresh.1, vSHclass, pk)).add
        (e, vRDFfirst, st.fresh.1)).add (e, vRDFrest, vRDFnil)) e true rest := by
  simp [collLoop]

lemma collLoop_cons_true (st : GenState) (e pk : Node) (rest : List Node) :
    collLoop st e true (pk :: rest) =
      collLoop ((((st.fresh.2.add (st.fresh.1, vSHclass, pk)).fresh.2.setT e
          vRDFrest (st.fresh.2.add (st.fresh.1, vSHclass, pk)).fresh.1).add
        ((st.fresh.2.add (st.fresh.1, vSHclass, pk)).fresh.1, vRDFfirst,
          st.fresh.1)).add
        ((st.fresh.2.add (st.fresh.1, vSHclass, pk)).fresh.1, vRDFrest, vRDFnil))
        (st.fresh.2.add (st.fresh.1, vSHclass, pk)).fresh.1 true rest := by
  simp [collLoop]

/-! ### collLoop delta characterization -/

lemma collLoop_ctr_le :
    ∀ (items : List Node) (st : GenState) (e : Node) (hf : Bool),
      st.ctr ≤ (collLoop st e hf items).ctr := by
  intro items
  induction items with
  | nil =>
    intro st e hf
    rw [collLoop_nil]
  | cons pk rest ih =>
    intro st e hf
    cases hf
    · rw [collLoop_cons_false]
      have := ih (((st.fresh.2.add (st.fresh.1, vSHclass, pk)).add
        (e, vRDFfirst, st.fresh.1)).add (e, vRDFrest, vRDFnil)) e true
      simp only [add_ctr, fresh_ctr] at this
      omega
    · rw [collLoop_cons_true]
      have := ih ((((st.fresh.2.add (st.fresh.1, vSHclass, pk)).fresh.2.setT e
          vRDFrest (st.fresh.2.add (st.fresh.1, vSHclass, pk)).fresh.1).add
        ((st.fresh.2.add (st.fresh.1, vSHclass, pk)).fresh.1, vRDFfirst,
          st.fresh.1)).add
        ((st.fresh.2.add (st.fresh.1, vSHclass, pk)).fresh.1, vRDFrest, vRDFnil))
        (st.fresh.2.add (st.fresh.1, vSHclass, pk)).fresh.1 true
      simp only [add_ctr, setT_ctr, fresh_ctr] at this
      omega

lemma collLoop_removed :
    ∀ (items : List Node) (st : GenState) (e : Node) (hf : Bool) (t : Triple),
      t ∈ st.g → t ∉ (collLoop st e hf items).g →
      t.2.1 = vRDFrest ∧ (t.1 = e ∨ ∃ n, st.ctr ≤ n ∧ t.1 = .bnode n) := by
  intro items
  induction items with
  | nil =>
    intro st e hf t ht hout
    rw [collLoop_nil] at hout
    exact absurd ht hout
  | cons pk rest ih =>
    intro st e hf t ht hout
    cases hf
    · rw [collLoop_cons_false] at hout
      by_cases hmid : t ∈ (((st.fresh.2.add (st.fresh.1, vSHclass, pk)).add
          (e, vRDFfirst, st.fresh.1)).add (e, vRDFrest, vRDFnil)).g
      · obtain ⟨h1, h2⟩ := ih _ e true t hmid hout
        simp only [add_ctr, fresh_ctr] at h2
        refine ⟨h1, ?_⟩
        rcases h2 with h2 | ⟨n, hn, h2⟩
        · exact Or.inl h2
        · exact Or.inr ⟨n, by omega, h2⟩
      · exfalso
        apply hmid
        simp only [mem_add, fresh_g]
        exact Or.inl (Or.inl (Or.inl ht))
    · rw [collLoop_cons_true] at hout
      by_cases hmid : t ∈ ((((st.fresh.2.add (st.fresh.1, vSHclass, pk)).fresh.2.setT e
          vRDFrest (st.fresh.2.add (st.fresh.1, vSHclass, pk)).fresh.1).add
        ((st.fresh.2.add (st.fresh.1, vSHclass, pk)).fresh.1, vRDFfirst,
          st.fresh.1)).add
        ((st.fresh.2.add (st.fresh.1, vSHclass, pk)).fresh.1, vRDFrest, vRDFnil)).g
      · obtain ⟨h1, h2⟩ := ih _ _ true t hmid hout
        simp only [add_ctr, setT_ctr, fresh_ctr, fresh_fst] at h2
        refine ⟨h1, ?_⟩
        rcases h2 with h2 | ⟨n, hn, h2⟩
        · exact Or.inr ⟨st.ctr + 1, by omega, h2⟩
        · exact Or.inr ⟨n, by omega, h2⟩
      · -- t was removed by the setT in this iteration
        have htk : t ∈ ((st.fresh.2.add (st.fresh.1, vSHclass, pk)).fresh.2).g := by
          simp only [fresh_g, mem_add]
          exact Or.inl ht
        by_cases heq : t.1 = e ∧ t.2.1 = vRDFrest
        · exact ⟨heq.2, Or.inl heq.1⟩
        · exfalso
          apply hmid
          simp only [mem_add, mem_setT]
          exact Or.inl (Or.inl (Or.inl ⟨htk, heq⟩))

lemma collLoop_added :
    ∀ (items : List Node) (st : GenState) (e : Node) (hf : Bool) (t : Triple),
      t ∈ (collLoop st e hf items).g → t ∉ st.g →
      (t.2.1 = vSHclass ∧ (∃ n, st.ctr ≤ n ∧ t.1 = .bnode n) ∧ t.2.2 ∈ items) ∨
      ((t.2.1 = vRDFfirst ∨ t.2.1 = vRDFrest) ∧
        (t.1 = e ∨ ∃ n, st.ctr ≤ n ∧ t.1 = .bnode n)) := by
  intro items
  induction items with
  | nil =>
    intro st e hf t ht hnot
    rw [collLoop_nil] at ht
    exact absurd ht hnot
  | cons pk rest ih =>
    intro st e hf t ht hnot
    cases hf
    · rw [collLoop_cons_false] at ht
      by_cases hmid : t ∈ (((st.fresh.2.add (st.fresh.1, vSHclass, pk)).add
          (e, vRDFfirst, st.fresh.1)).add (e, vRDFrest, vRDFnil)).g
      · simp only [mem_add, fresh_g, fresh_fst] at hmid
        rcases hmid with ((h | h) | h) | h
        · exact absurd h hnot
        · rw [h]
          exact Or.inl ⟨rfl, ⟨st.ctr, le_refl _, rfl⟩, by simp⟩
        · rw [h]
          exact Or.inr ⟨Or.inl rfl, Or.inl rfl⟩
        · rw [h]
          exact Or.inr ⟨Or.inr rfl, Or.inl rfl⟩
      · have := ih _ e true t ht hmid
        simp only [add_ctr, fresh_ctr] at this
        rcases this with ⟨h1, ⟨n, hn, h2⟩, h3⟩ | ⟨h1, h2⟩
        · exact Or.inl ⟨h1, ⟨n, by omega, h2⟩, by simp [h3]⟩
        · rcases h2 with h2 | ⟨n, hn, h2⟩
          · exact Or.inr ⟨h1, Or.inl h2⟩
          · exact Or.inr ⟨h1, Or.inr ⟨n, by omega, h2⟩⟩
    · rw [collLoop_cons_true] at ht
      by_cases hmid : t ∈ ((((st.fresh.2.add (st.fresh.1, vSHclass, pk)).fresh.2.setT e
          vRDFrest (st.fresh.2.add (st.fresh.1, vSHclass, pk)).fresh.1).add
        ((st.fresh.2.add (st.fresh.1, vSHclass, pk)).fresh.1, vRDFfirst,
          st.fresh.1)).add
        ((st.fresh.2.add (st.fresh.1, vSHclass, pk)).fresh.1, vRDFrest, vRDFnil)).g
      · simp only [mem_add, mem_setT, fresh_g, fresh_fst, add_ctr, fresh_ctr] at hmid
        rcases hmid with ((⟨h | h, _⟩ | h) | h) | h
        · exact absurd h hnot
        · rw [h]
          exact Or.inl ⟨rfl, ⟨st.ctr, le_refl _, rfl⟩, by simp⟩
        · rw [h]
          exact Or.inr ⟨Or.inr rfl, Or.inl rfl⟩
        · rw [h]
          exact Or.inr ⟨Or.inl rfl, Or.inr ⟨st.ctr + 1, by omega, rfl⟩⟩
        · rw [h]
          exact Or.inr ⟨Or.inr rfl, Or.inr ⟨st.ctr + 1, by omega, rfl⟩⟩
      · have := ih _ _ true t ht hmid
        simp only [add_ctr, setT_ctr, fresh_ctr, fresh_fst] at this
        rcases this with ⟨h1, ⟨n, hn, h2⟩, h3⟩ | ⟨h1, h2⟩
        · exact Or.inl ⟨h1, ⟨n, by omega, h2⟩, by simp [h3]⟩
        · rcases h2 with h2 | ⟨n, hn, h2⟩
          · exact Or.inr ⟨h1, Or.inr ⟨st.ctr + 1, by omega, h2⟩⟩
          · exact Or.inr ⟨h1, Or.inr ⟨n, by omega, h2⟩⟩

lemma collLoop_keep {items : List Node} {st : GenState} {e : Node} {hf : Bool}
    {t : Triple} (ht : t ∈ st.g) (hp : t.2.1 ≠ vRDFrest) :
    t ∈ (collLoop st e hf items).g := by
  by_contra hnot
  exact hp (collLoop_removed items st e hf t ht hnot).1

lemma bndBelow_add {st : GenState} {t : Triple} {c : Nat}
    (h : BndBelow st.g c) (ht : ∀ n ∈ tripleBnodeIds t, n < c) :
    BndBelow (st.add t).g c := by
  intro u hu n hn
  rw [add_g] at hu
  rcases List.mem_append.1 hu with h' | h'
  · exact h u h' n hn
  · simp at h'
    subst h'
    exact ht n hn

lemma bndBelow_setT {st : GenState} {s p o' : Node} {c : Nat}
    (h : BndBelow st.g c) (hs : nodeBnd s c) (hp : nodeBnd p c)
    (ho : nodeBnd o' c) : BndBelow (st.setT s p o').g c := by
  intro u hu n hn
  rcases mem_setT.1 hu with ⟨h', _⟩ | h'
  · exact h u h' n hn
  · subst h'
    exact bndBelow_triple hs hp ho n hn

lemma nodeBnd_bnode {n c : Nat} (h : n < c) : nodeBnd (Node.bnode n) c := by
  intro m hm
  simp [Node.bnodeIds] at hm
  omega

lemma nodeBnd_uri (s : String) (c : Nat) : nodeBnd (Node.uri s) c := by
  intro m hm
  simp [Node.bnodeIds] at hm

lemma tripleBnodeIds_lt {s p o' : Node} {c : Nat} (hs : nodeBnd s c)
    (hp : nodeBnd p c) (ho : nodeBnd o' c) :
    ∀ n ∈ tripleBnodeIds (s, p, o'), n < c :=
  bndBelow_triple hs hp ho

lemma collLoop_bnd :
    ∀ (items : List Node) (st : GenState) (e : Node) (hf : Bool),
      BndBelow st.g st.ctr → nodeBnd e st.ctr →
      (∀ x ∈ items, nodeBnd x st.ctr) →
      BndBelow (collLoop st e hf items).g (collLoop st e hf items).ctr := by
  intro items
  induction items with
  | nil =>
    intro st e hf h he hi
    rw [collLoop_nil]
    exact h
  | cons pk rest ih =>
    intro st e hf h he hi
    have hpk : nodeBnd pk st.ctr := hi pk (by simp)
    have hrest : ∀ x ∈ rest, nodeBnd x st.ctr := fun x hx => hi x (by simp [hx])
    cases hf
    · rw [collLoop_cons_false]
      apply ih
      · apply bndBelow_add
        · apply bndBelow_add
          · apply bndBelow_add
            · exact bndBelow_mono h (by simp only [add_ctr, fresh_ctr]; omega)
            · exact tripleBnodeIds_lt
                (nodeBnd_bnode (by simp only [add_ctr, fresh_ctr]; omega))
                (nodeBnd_uri _ _)
                (nodeBnd_mono hpk (by simp only [add_ctr, fresh_ctr]; omega))
          · exact tripleBnodeIds_lt
              (nodeBnd_mono he (by simp only [add_ctr, fresh_ctr]; omega))
              (nodeBnd_uri _ _)
              (nodeBnd_bnode (by simp only [add_ctr, fresh_ctr]; omega))
        · exact tripleBnodeIds_lt
            (nodeBnd_mono he (by simp only [add_ctr, fresh_ctr]; omega))
            (nodeBnd_uri _ _) (nodeBnd_uri _ _)
      · simp only [add_ctr, fresh_ctr]
        exact nodeBnd_mono he (by omega)
      · intro x hx
        simp only [add_ctr, fresh_ctr]
        exact nodeBnd_mono (hrest x hx) (by omega)
    · rw [collLoop_cons_true]
      apply ih
      · apply bndBelow_add
        · apply bndBelow_add
          · apply bndBelow_setT
            · apply bndBelow_add
              · exact bndBelow_mono h
                  (by simp only [add_ctr, setT_ctr, fresh_ctr]; omega)
              · exact tripleBnodeIds_lt
                  (nodeBnd_bnode (by simp only [add_ctr, setT_ctr, fresh_ctr]; omega))
                  (nodeBnd_uri _ _)
                  (nodeBnd_mono hpk
                    (by simp only [add_ctr, setT_ctr, fresh_ctr]; omega))
            · exact nodeBnd_mono he
                (by simp only [add_ctr, setT_ctr, fresh_ctr]; omega)
            · exact nodeBnd_uri _ _
            · simp only [fresh_fst, add_ctr, fresh_ctr]
              exact nodeBnd_bnode (by simp only [add_ctr, setT_ctr, fresh_ctr]; omega)
          · exact tripleBnodeIds_lt
              (by simp only [fresh_fst, add_ctr, fresh_ctr]
                  exact nodeBnd_bnode
                    (by simp only [add_ctr, setT_ctr, fresh_ctr]; omega))
              (nodeBnd_uri _ _)
              (by simp only [fresh_fst]
                  exact nodeBnd_bnode
                    (by simp only [add_ctr, setT_ctr, fresh_ctr]; omega))
        · exact tripleBnodeIds_lt
            (by simp only [fresh_fst, add_ctr, fresh_ctr]
                exact nodeBnd_bnode
                  (by simp only [add_ctr, setT_ctr, fresh_ctr]; omega))
            (nodeBnd_uri _ _) (nodeBnd_uri _ _)
      · simp only [add_ctr, setT_ctr, fresh_ctr, fresh_fst]
        exact nodeBnd_bnode (by omega)
      · intro x hx
        simp only [add_ctr, setT_ctr, fresh_ctr]
        exact nodeBnd_mono (hrest x hx) (by omega)

lemma chainInvP_add {g : List Triple} {t : Triple} (h : chainInvP g)
    (ht : t.1 = vRDFnil → t.2.1 ≠ vRDFfirst ∧ t.2.1 ≠ vRDFrest) :
    chainInvP (g ++ [t]) := by
  intro u hu hnil
  rcases List.mem_append.1 hu with h' | h'
  · exact h u h' hnil
  · simp at h'
    subst h'
    exact ht hnil

lemma chainInvP_sub {g g' : List Triple} (h : chainInvP g)
    (hsub : ∀ t ∈ g', t ∈ g) : chainInvP g' :=
  fun u hu hnil => h u (hsub u hu) hnil

lemma bnode_ne_nil (n : Nat) : (Node.bnode n) ≠ vRDFnil := by
  simp [vRDFnil]

lemma chainInvP_addSt {st : GenState} {t : Triple} (h : chainInvP st.g)
    (ht : t.1 = vRDFnil → t.2.1 ≠ vRDFfirst ∧ t.2.1 ≠ vRDFrest) :
    chainInvP (st.add t).g := by
  rw [add_g]
  exact chainInvP_add h ht

lemma chainInvP_setT {st : GenState} {s p o' : Node} (h : chainInvP st.g)
    (hs : s ≠ vRDFnil) : chainInvP (st.setT s p o').g := by
  intro u hu hnil
  rcases mem_setT.1 hu with ⟨h', _⟩ | h'
  · exact h u h' hnil
  · subst h'
    exact absurd hnil hs

lemma collLoop_chainInv :
    ∀ (items : List Node) (st : GenState) (e : Node) (hf : Bool),
      chainInvP st.g → e ≠ vRDFnil →
      chainInvP (collLoop st e hf items).g := by
  intro items
  induction items with
  | nil =>
    intro st e hf h he
    rw [collLoop_nil]
    exact h
  | cons pk rest ih =>
    intro st e hf h he
    cases hf
    · rw [collLoop_cons_false]
      apply ih _ _ _ _ he
      apply chainInvP_addSt
      · apply chainInvP_addSt
        · apply chainInvP_addSt h
          intro hnil
          exact absurd hnil (bnode_ne_nil _)
        · intro hnil
          exact absurd hnil he
      · intro hnil
        exact absurd hnil he
    · rw [collLoop_cons_true]
      apply ih _ _ _ _ (bnode_ne_nil _)
      apply chainInvP_addSt
      · apply chainInvP_addSt
        · apply chainInvP_setT _ he
          apply chainInvP_addSt h
          intro hnil
          exact absurd hnil (bnode_ne_nil _)
        · intro hnil
          exact absurd hnil (bnode_ne_nil _)
      · intro hnil
        exact absurd hnil (bnode_ne_nil _)

/-! ### buildOr delta characterization -/

lemma buildOr_def (st : GenState) (a : Node) (items : List Node) :
    buildOr st a items =
      (collLoop st.fresh.2 st.fresh.1 false items).add (a, vSHor, st.fresh.1) := rfl

lemma buildOr_ctr_le (st : GenState) (a : Node) (items : List Node) :
    st.ctr ≤ (buildOr st a items).ctr := by
  rw [buildOr_def, add_ctr]
  have := collLoop_ctr_le items st.fresh.2 st.fresh.1 false
  rw [fresh_ctr] at this
  omega

lemma buildOr_removed {st : GenState} {a : Node} {items : List Node} {t : Triple}
    (ht : t ∈ st.g) (hout : t ∉ (buildOr st a items).g) :
    t.2.1 = vRDFrest ∧ ∃ n, st.ctr ≤ n ∧ t.1 = .bnode n := by
  rw [buildOr_def] at hout
  have hcoll : t ∉ (collLoop st.fresh.2 st.fresh.1 false items).g := by
    intro hc
    exact hout (mem_add.2 (Or.inl hc))
  have := collLoop_removed items st.fresh.2 st.fresh.1 false t (by rw [fresh_g]; exact ht) hcoll
  rw [fresh_ctr, fresh_fst] at this
  obtain ⟨h1, h2⟩ := this
  refine ⟨h1, ?_⟩
  rcases h2 with h2 | ⟨n, hn, h2⟩
  · exact ⟨st.ctr, le_refl _, h2⟩
  · exact ⟨n, by omega, h2⟩

lemma buildOr_keep {st : GenState} {a : Node} {items : List Node} {t : Triple}
    (ht : t ∈ st.g) (hp : t.2.1 ≠ vRDFrest) : t ∈ (buildOr st a items).g := by
  by_contra hnot
  exact hp (buildOr_removed ht hnot).1

lemma buildOr_added {st : GenState} {a : Node} {items : List Node} {t : Triple}
    (ht : t ∈ (buildOr st a items).g) (hnot : t ∉ st.g) :
    (t.2.1 = vSHclass ∧ (∃ n, st.ctr ≤ n ∧ t.1 = .bnode n) ∧ t.2.2 ∈ items) ∨
    ((t.2.1 = vRDFfirst ∨ t.2.1 = vRDFrest) ∧ ∃ n, st.ctr ≤ n ∧ t.1 = .bnode n) ∨
    (t.1 = a ∧ t.2.1 = vSHor ∧ ∃ n, st.ctr ≤ n ∧ t.2.2 = .bnode n) := by
  rw [buildOr_def] at ht
  rcases mem_add.1 ht with hc | hc
  · by_cases hbase : t ∈ st.fresh.2.g
    · rw [fresh_g] at hbase
      exact absurd hbase hnot
    · have := collLoop_added items st.fresh.2 st.fresh.1 false t hc hbase
      rw [fresh_ctr, fresh_fst] at this
      rcases this with ⟨h1, ⟨n, hn, h2⟩, h3⟩ | ⟨h1, h2⟩
      · exact Or.inl ⟨h1, ⟨n, by omega, h2⟩, h3⟩
      · rcases h2 with h2 | ⟨n, hn, h2⟩
        · exact Or.inr (Or.inl ⟨h1, ⟨st.ctr, le_refl _, h2⟩⟩)
        · exact Or.inr (Or.inl ⟨h1, ⟨n, by omega, h2⟩⟩)
  · subst hc
    exact Or.inr (Or.inr ⟨rfl, rfl, ⟨st.ctr, le_refl _, rfl⟩⟩)

lemma buildOr_bnd {st : GenState} {a : Node} {items : List Node}
    (h : BndBelow st.g st.ctr) (ha : nodeBnd a st.ctr)
    (hi : ∀ x ∈ items, nodeBnd x st.ctr) :
    BndBelow (buildOr st a items).g (buildOr st a items).ctr := by
  rw [buildOr_def]
  have hcoll := collLoop_bnd items st.fresh.2 st.fresh.1 false
    (by rw [fresh_g, fresh_ctr]; exact bndBelow_mono h (by omega))
    (by rw [fresh_ctr, fresh_fst]; exact nodeBnd_bnode (by omega))
    (fun x hx => by rw [fresh_ctr]; exact nodeBnd_mono (hi x hx) (by omega))
  apply bndBelow_add hcoll
  have hctr := collLoop_ctr_le items st.fresh.2 st.fresh.1 false
  rw [fresh_ctr] at hctr
  apply tripleBnodeIds_lt
  · exact nodeBnd_mono ha (by omega)
  · exact nodeBnd_uri _ _
  · show nodeBnd (Node.bnode st.ctr) ((collLoop st.fresh.2 st.fresh.1 false items).ctr)
    exact nodeBnd_bnode (by omega)

lemma buildOr_chainInv {st : GenState} {a : Node} {items : List Node}
    (h : chainInvP st.g) : chainInvP (buildOr st a items).g := by
  rw [buildOr_def]
  apply chainInvP_addSt
  · exact collLoop_chainInv items st.fresh.2 st.fresh.1 false
      (by rw [fresh_g]; exact h) (by rw [fresh_fst]; exact bnode_ne_nil _)
  · intro _
    exact ⟨show vSHor ≠ vRDFfirst by decide, show vSHor ≠ vRDFrest by decide⟩

/-! ### classesB helpers -/

lemma classesB_cases (o : Ontology) (a b : Option Node) :
    classesB o a b = ontClasses o ∨
    ∃ p, classesB o a b =
      (objects o.graph p vRDFSrange).filter (fun k => (ontClasses o).contains k) := by
  cases a with
  | none =>
    cases b with
    | none => exact Or.inl rfl
    | some r =>
      by_cases hr : r.truthy = true
      · exact Or.inr ⟨r, classesB_inRange o r hr⟩
      · left
        have hrw : classesB o none (some r) =
            if r.truthy then
              (objects o.graph r vRDFSrange).filter
                (fun k => (ontClasses o).contains k)
            else ontClasses o := rfl
        rw [hrw, if_neg hr]
  | some d =>
    by_cases hd : d.truthy = true
    · right
      refine ⟨d, ?_⟩
      have hrw : classesB o (some d) b =
          if d.truthy then
            (objects o.graph d vRDFSrange).filter
              (fun k => (ontClasses o).contains k)
          else classesB o none b := rfl
      rw [hrw, if_pos hd]
    · have hrw : classesB o (some d) b =
          if d.truthy then
            (objects o.graph d vRDFSrange).filter
              (fun k => (ontClasses o).contains k)
          else classesB o none b := rfl
      rw [hrw, if_neg hd]
      cases b with
      | none => exact Or.inl rfl
      | some r =>
        by_cases hr : r.truthy = true
        · exact Or.inr ⟨r, classesB_inRange o r hr⟩
        · left
          have hrw2 : classesB o none (some r) =
              if r.truthy then
                (objects o.graph r vRDFSrange).filter
                  (fun k => (ontClasses o).contains k)
              else ontClasses o := rfl
          rw [hrw2, if_neg hr]

lemma mem_classesB_sub {o : Ontology} {a b : Option Node} {x : Node}
    (h : x ∈ classesB o a b) : x ∈ ontClasses o := by
  rcases classesB_cases o a b with hc | ⟨p, hc⟩
  · rw [hc] at h
    exact h
  · rw [hc] at h
    rw [List.mem_filter] at h
    exact contains_iff_mem.1 h.2

lemma mem_classesB_not_bnode {o : Ontology} {a b : Option Node} {x : Node}
    (h : x ∈ classesB o a b) : x.isBNode = false :=
  (mem_ontClasses.1 (mem_classesB_sub h)).2.1

/-! ### PropMap lemmas -/

lemma pmGet_cons {kv : Node × Node} {m : PropMap} {x : Node} :
    pmGet (kv :: m) x = if kv.1 = x then some kv.2 else pmGet m x := by
  unfold pmGet
  rw [List.find?_cons]
  by_cases h : kv.1 = x
  · have hb : (kv.1 == x) = true := by rw [beq_iff_eq]; exact h
    rw [hb, if_pos h]
  · have hb : (kv.1 == x) = false := by
      rw [Bool.eq_false_iff]
      intro hc
      exact h (beq_iff_eq.1 hc)
    rw [hb, if_neg h]

lemma pmGet_none_iff {m : PropMap} {k : Node} :
    pmGet m k = none ↔ ∀ kv ∈ m, kv.1 ≠ k := by
  induction m with
  | nil => simp [pmGet]
  | cons kv m' ih =>
    rw [pmGet_cons]
    by_cases h : kv.1 = k
    · rw [if_pos h]
      simp [h]
    · rw [if_neg h]
      rw [ih]
      constructor
      · intro ha kv' hkv'
        rcases List.mem_cons.1 hkv' with rfl | h'
        · exact h
        · exact ha kv' h'
      · intro ha kv' hkv'
        exact ha kv' (by simp [hkv'])

lemma pmGet_append_ne {m : PropMap} {k v x : Node} (hx : x ≠ k) :
    pmGet (m ++ [(k, v)]) x = pmGet m x := by
  induction m with
  | nil =>
    simp only [List.nil_append, pmGet_cons]
    rw [if_neg (by intro h; exact hx h.symm)]
  | cons kv m' ih =>
    rw [List.cons_append, pmGet_cons, pmGet_cons, ih]

lemma pmSet_append {m : PropMap} {k v : Node} (h : pmGet m k = none) :
    pmSet m k v = m ++ [(k, v)] := by
  have hany : m.any (fun kv => kv.1 == k) = false := by
    rw [Bool.eq_false_iff]
    intro htrue
    rw [List.any_eq_true] at htrue
    obtain ⟨kv, hkv, hb⟩ := htrue
    rw [beq_iff_eq] at hb
    exact (pmGet_none_iff.1 h) kv hkv hb
  unfold pmSet
  rw [hany]
  simp

lemma pmGet_map_ne {m : PropMap} {k v x : Node} (hx : x ≠ k) :
    pmGet (m.map (fun kv => if kv.1 == k then (k, v) else kv)) x = pmGet m x := by
  induction m with
  | nil => rfl
  | cons kv m' ih =>
    simp only [List.map_cons]
    by_cases h : kv.1 = k
    · rw [show (if (kv.1 == k) then (k, v) else kv) = (k, v) from by
        rw [if_pos (by rw [beq_iff_eq]; exact h)]]
      rw [pmGet_cons, pmGet_cons]
      rw [if_neg (fun hc => hx hc.symm),
        if_neg (by rw [h]; exact fun hc => hx hc.symm)]
      exact ih
    · rw [show (if (kv.1 == k) then (k, v) else kv) = kv from by
        rw [if_neg (by rw [beq_iff_eq]; exact h)]]
      rw [pmGet_cons, pmGet_cons]
      by_cases hk : kv.1 = x
      · rw [if_pos hk, if_pos hk]
      · rw [if_neg hk, if_neg hk]
        exact ih

lemma pmGet_pmSet_ne {m : PropMap} {k v x : Node} (hx : x ≠ k) :
    pmGet (pmSet m k v) x = pmGet m x := by
  unfold pmSet
  by_cases hany : m.any (fun kv => kv.1 == k) = true
  · rw [if_pos hany]
    exact pmGet_map_ne hx
  · rw [if_neg hany]
    exact pmGet_append_ne hx

lemma pmGet_pmSet_same {m : PropMap} {k v : Node} (h : pmGet m k = none) :
    pmGet (pmSet m k v) k = some v := by
  rw [pmSet_append h]
  induction m with
  | nil => simp [pmGet_cons]
  | cons kv m' ih =>
    rw [List.cons_append, pmGet_cons]
    have hk : kv.1 ≠ k := by
      rw [pmGet_cons] at h
      by_cases hc : kv.1 = k
      · rw [if_pos hc] at h
        cases h
      · exact hc
    rw [if_neg hk]
    apply ih
    rw [pmGet_cons] at h
    rw [if_neg hk] at h
    exact h

lemma mapBelow_append {m : PropMap} {k v : Node} {c : Nat} (h : MapBelow m c)
    (hv : ∃ n, v = Node.bnode n ∧ n < c) : MapBelow (m ++ [(k, v)]) c := by
  intro kv hkv
  rcases List.mem_append.1 hkv with h' | h'
  · exact h kv h'
  · simp at h'
    rw [h']
    exact hv

lemma mapBelow_mono {m : PropMap} {c c' : Nat} (h : MapBelow m c) (hc : c ≤ c') :
    MapBelow m c' := by
  intro kv hkv
  obtain ⟨n, h1, h2⟩ := h kv hkv
  exact ⟨n, h1, by omega⟩

lemma valNodup_append {m : PropMap} {k v : Node} {c : Nat} (h : ValNodup m)
    (hbelow : MapBelow m c) (hv : ∃ n, v = Node.bnode n ∧ c ≤ n) :
    ValNodup (m ++ [(k, v)]) := by
  unfold ValNodup at h ⊢
  rw [List.map_append]
  simp only [List.map_cons, List.map_nil]
  rw [List.nodup_append]
  refine ⟨h, List.nodup_singleton _, ?_⟩
  intro x hx hx'
  simp at hx'
  subst hx'
  rw [List.mem_map] at hx
  obtain ⟨kv, hkv, hkv2⟩ := hx
  obtain ⟨n, h1, h2⟩ := hbelow kv hkv
  obtain ⟨n', h1', h2'⟩ := hv
  rw [← hkv2, h1] at h1'
  cases h1'
  omega

lemma pmGet_mem_values {m : PropMap} {q bq : Node} (h : pmGet m q = some bq) :
    bq ∈ m.map (fun kv => kv.2) := by
  induction m with
  | nil => cases h
  | cons kv m' ih =>
    rw [pmGet_cons] at h
    simp only [List.map_cons]
    by_cases h2 : kv.1 = q
    · rw [if_pos h2] at h
      cases h
      exact List.mem_cons_self _ _
    · rw [if_neg h2] at h
      exact List.mem_cons_of_mem _ (ih h)

lemma pmGet_values_ne {m : PropMap} (h : ValNodup m) {p q bp bq : Node}
    (hp : pmGet m p = some bp) (hq : pmGet m q = some bq) (hne : p ≠ q) :
    bp ≠ bq := by
  induction m with
  | nil => cases hp
  | cons kv m' ih =>
    rw [pmGet_cons] at hp hq
    unfold ValNodup at h
    simp only [List.map_cons, List.nodup_cons] at h
    by_cases h1 : kv.1 = p
    · rw [if_pos h1] at hp
      rw [if_neg (by rw [h1]; exact hne)] at hq
      cases hp
      intro hc
      apply h.1
      rw [hc]
      exact pmGet_mem_values hq
    · rw [if_neg h1] at hp
      by_cases h2 : kv.1 = q
      · rw [if_pos h2] at hq
        cases hq
        intro hc
        apply h.1
        rw [← hc]
        exact pmGet_mem_values hp
      · rw [if_neg h2] at hq
        exact ih h.2 hp hq

/-! ### domainRangeStep characterization -/

lemma p1New_mono {c c' : Nat} {shape : Node} {qs qs' : List Node} {t : Triple}
    (h : P1New c' shape qs' t) (hc : c ≤ c') (hqs : ∀ x ∈ qs', x ∈ qs) :
    P1New c shape qs t := by
  rcases h with ⟨h1, h2, n, hn, h3⟩ | ⟨⟨n, hn, h1⟩, h2, h3⟩
  · exact Or.inl ⟨h1, h2, n, by omega, h3⟩
  · exact Or.inr ⟨⟨n, by omega, h1⟩, h2, fun hp => hqs _ (h3 hp)⟩

lemma dRS_skip {o : Ontology} {ord : List Node → List Node} {shape : Node}
    {st : GenState} {m : PropMap} {prop : Node}
    (h : (classesB o none (some prop)).length < 1) :
    domainRangeStep o ord shape (st, m) prop = (st, m) := by
  unfold domainRangeStep
  rw [if_pos h]

lemma dRS_single {o : Ontology} {ord : List Node → List Node} {shape : Node}
    {st : GenState} {m : PropMap} {prop : Node}
    (h1 : ¬((classesB o none (some prop)).length < 1))
    (h2 : ¬(1 < (classesB o none (some prop)).length)) :
    domainRangeStep o ord shape (st, m) prop =
      (((st.fresh.2.add (shape, vSHproperty, st.fresh.1)).add
        (st.fresh.1, vSHpath, prop)).add
        (st.fresh.1, vSHclass,
          (ord (classesB o none (some prop))).headD (Node.uri "")),
       pmSet m prop st.fresh.1) := by
  unfold domainRangeStep
  rw [if_neg h1, if_neg h2]

lemma dRS_multi {o : Ontology} {ord : List Node → List Node} {shape : Node}
    {st : GenState} {m : PropMap} {prop : Node}
    (h2 : 1 < (classesB o none (some prop)).length) :
    domainRangeStep o ord shape (st, m) prop =
      (buildOr ((st.fresh.2.add (shape, vSHproperty, st.fresh.1)).add
          (st.fresh.1, vSHpath, prop)) st.fresh.1
          (ord (classesB o none (some prop))),
       pmSet m prop st.fresh.1) := by
  unfold domainRangeStep
  rw [if_neg (by omega), if_pos h2]

lemma dRS_ctr_le (o : Ontology) (ord : List Node → List Node) (shape : Node)
    (st : GenState) (m : PropMap) (prop : Node) :
    st.ctr ≤ (domainRangeStep o ord shape (st, m) prop).1.ctr := by
  by_cases h1 : (classesB o none (some prop)).length < 1
  · rw [dRS_skip h1]
  · by_cases h2 : 1 < (classesB o none (some prop)).length
    · rw [dRS_multi h2]
      have := buildOr_ctr_le ((st.fresh.2.add (shape, vSHproperty, st.fresh.1)).add
        (st.fresh.1, vSHpath, prop)) st.fresh.1
        (ord (classesB o none (some prop)))
      simp only [add_ctr, fresh_ctr] at this ⊢
      omega
    · rw [dRS_single h1 h2]
      simp only [add_ctr, fresh_ctr]
      omega

lemma dRS_removed {o : Ontology} {ord : List Node → List Node} {shape : Node}
    {st : GenState} {m : PropMap} {prop : Node} {t : Triple}
    (ht : t ∈ st.g) (hout : t ∉ (domainRangeStep o ord shape (st, m) prop).1.g) :
    t.2.1 = vRDFrest ∧ ∃ n, st.ctr ≤ n ∧ t.1 = .bnode n := by
  by_cases h1 : (classesB o none (some prop)).length < 1
  · rw [dRS_skip h1] at hout
    exact absurd ht hout
  · by_cases h2 : 1 < (classesB o none (some prop)).length
    · rw [dRS_multi h2] at hout
      have hin : t ∈ ((st.fresh.2.add (shape, vSHproperty, st.fresh.1)).add
          (st.fresh.1, vSHpath, prop)).g := by
        simp only [mem_add, fresh_g]
        exact Or.inl (Or.inl ht)
      have := buildOr_removed hin hout
      simp only [add_ctr, fresh_ctr] at this
      obtain ⟨ha, n, hn, hb⟩ := this
      exact ⟨ha, n, by omega, hb⟩
    · rw [dRS_single h1 h2] at hout
      exfalso
      apply hout
      simp only [mem_add, fresh_g]
      exact Or.inl (Or.inl (Or.inl ht))

lemma dRS_keep {o : Ontology} {ord : List Node → List Node} {shape : Node}
    {st : GenState} {m : PropMap} {prop : Node} {t : Triple}
    (ht : t ∈ st.g) (hp : t.2.1 ≠ vRDFrest) :
    t ∈ (domainRangeStep o ord shape (st, m) prop).1.g := by
  by_contra hnot
  exact hp (dRS_removed ht hnot).1

lemma dRS_added {o : Ontology} {ord : List Node → List Node} {shape : Node}
    {st : GenState} {m : PropMap} {prop : Node} {t : Triple}
    (ht : t ∈ (domainRangeStep o ord shape (st, m) prop).1.g) (hnot : t ∉ st.g) :
    P1New st.ctr shape [prop] t := by
  by_cases h1 : (classesB o none (some prop)).length < 1
  · rw [dRS_skip h1] at ht
    exact absurd ht hnot
  · by_cases h2 : 1 < (classesB o none (some prop)).length
    · rw [dRS_multi h2] at ht
      by_cases hmid : t ∈ ((st.fresh.2.add (shape, vSHproperty, st.fresh.1)).add
          (st.fresh.1, vSHpath, prop)).g
      · simp only [mem_add, fresh_g, fresh_fst] at hmid
        rcases hmid with (h | h) | h
        · exact absurd h hnot
        · rw [h]
          exact Or.inl ⟨rfl, rfl, st.ctr, le_refl _, rfl⟩
        · rw [h]
          refine Or.inr ⟨⟨st.ctr, le_refl _, rfl⟩, Or.inl rfl, ?_⟩
          intro _
          simp
      · have := buildOr_added ht hmid
        simp only [add_ctr, fresh_ctr, fresh_fst] at this
        rcases this with ⟨hc, ⟨n, hn, hb⟩, _⟩ | ⟨hfr, n, hn, hb⟩ | ⟨hb, hor, n, hn, hobj⟩
        · refine Or.inr ⟨⟨n, by omega, hb⟩, Or.inr (Or.inl hc), ?_⟩
          intro hpath
          rw [hpath] at hc
          exact absurd hc (by decide)
        · refine Or.inr ⟨⟨n, by omega, hb⟩, ?_, ?_⟩
          · rcases hfr with h | h
            · exact Or.inr (Or.inr (Or.inr (Or.inl h)))
            · exact Or.inr (Or.inr (Or.inr (Or.inr h)))
          · intro hpath
            rcases hfr with h | h <;> (rw [hpath] at h; exact absurd h (by decide))
        · refine Or.inr ⟨⟨st.ctr, le_refl _, hb⟩, Or.inr (Or.inr (Or.inl hor)), ?_⟩
          intro hpath
          rw [hpath] at hor
          exact absurd hor (by decide)
    · rw [dRS_single h1 h2] at ht
      simp only [mem_add, fresh_g, fresh_fst] at ht
      rcases ht with ((h | h) | h) | h
      · exact absurd h hnot
      · rw [h]
        exact Or.inl ⟨rfl, rfl, st.ctr, le_refl _, rfl⟩
      · rw [h]
        refine Or.inr ⟨⟨st.ctr, le_refl _, rfl⟩, Or.inl rfl, ?_⟩
        intro _
        simp
      · rw [h]
        refine Or.inr ⟨⟨st.ctr, le_refl _, rfl⟩, Or.inr (Or.inl rfl), ?_⟩
        intro hpath
        exact absurd (show vSHclass = vSHpath from hpath) (by decide)

lemma pmGet_map_same {m : PropMap} {k v : Node}
    (h : m.any (fun kv => kv.1 == k) = true) :
    pmGet (m.map (fun kv => if kv.1 == k then (k, v) else kv)) k = some v := by
  induction m with
  | nil => cases h
  | cons kv m' ih =>
    simp only [List.any_cons, Bool.or_eq_true] at h
    simp only [List.map_cons]
    by_cases hk : kv.1 = k
    · rw [if_pos (beq_iff_eq.2 hk), pmGet_cons, if_pos rfl]
    · rw [if_neg (by rw [beq_iff_eq]; exact hk), pmGet_cons, if_neg hk]
      apply ih
      rcases h with h | h
      · exact absurd (beq_iff_eq.1 h) hk
      · exact h

lemma pmGet_pmSet (m : PropMap) (k v : Node) :
    pmGet (pmSet m k v) k = some v := by
  unfold pmSet
  by_cases hany : m.any (fun kv => kv.1 == k) = true
  · rw [if_pos hany]
    exact pmGet_map_same hany
  · rw [if_neg hany]
    have hnone : pmGet m k = none := by
      rw [pmGet_none_iff]
      intro kv hkv
      by_contra hc
      exact hany (List.any_eq_true.2 ⟨kv, hkv, beq_iff_eq.2 (by tauto)⟩)
    have := pmGet_pmSet_same (v := v) hnone
    unfold pmSet at this
    rw [if_neg hany] at this
    exact this

/-! ### pass1 fold lemmas -/

lemma pass1_nil (o : Ontology) (ord : List Node → List Node) (shape : Node)
    (acc : GenState × PropMap) : pass1 o ord shape [] acc = acc := rfl

lemma pass1_cons (o : Ontology) (ord : List Node → List Node) (shape q : Node)
    (rest : List Node) (acc : GenState × PropMap) :
    pass1 o ord shape (q :: rest) acc =
      pass1 o ord shape rest (domainRangeStep o ord shape acc q) := rfl

lemma pass1_append (o : Ontology) (ord : List Node → List Node) (shape : Node) :
    ∀ (l1 l2 : List Node) (acc : GenState × PropMap),
      pass1 o ord shape (l1 ++ l2) acc =
        pass1 o ord shape l2 (pass1 o ord shape l1 acc) := by
  intro l1
  induction l1 with
  | nil => intro l2 acc; rfl
  | cons q l1' ih =>
    intro l2 acc
    rw [List.cons_append, pass1_cons, pass1_cons, ih]

lemma pass1_ctr_le (o : Ontology) (ord : List Node → List Node) (shape : Node) :
    ∀ (qs : List Node) (st : GenState) (m : PropMap),
      st.ctr ≤ (pass1 o ord shape qs (st, m)).1.ctr := by
  intro qs
  induction qs with
  | nil => intro st m; exact le_refl _
  | cons q rest ih =>
    intro st m
    rcases hq : domainRangeStep o ord shape (st, m) q with ⟨st', m'⟩
    rw [pass1_cons, hq]
    have h1 := dRS_ctr_le o ord shape st m q
    rw [hq] at h1
    exact le_trans h1 (ih st' m')

lemma pass1_removed (o : Ontology) (ord : List Node → List Node) (shape : Node) :
    ∀ (qs : List Node) (st : GenState) (m : PropMap) (t : Triple),
      t ∈ st.g → t ∉ (pass1 o ord shape qs (st, m)).1.g →
      t.2.1 = vRDFrest ∧ ∃ n, st.ctr ≤ n ∧ t.1 = .bnode n := by
  intro qs
  induction qs with
  | nil =>
    intro st m t ht hout
    exact absurd ht hout
  | cons q rest ih =>
    intro st m t ht hout
    rcases hq : domainRangeStep o ord shape (st, m) q with ⟨st', m'⟩
    rw [pass1_cons, hq] at hout
    by_cases hmid : t ∈ st'.g
    · obtain ⟨h1, n, hn, h2⟩ := ih st' m' t hmid hout
      have hctr := dRS_ctr_le o ord shape st m q
      rw [hq] at hctr
      have hctr' : st.ctr ≤ st'.ctr := hctr
      exact ⟨h1, n, by omega, h2⟩
    · exact @dRS_removed o ord shape st m q t ht (by rw [hq]; exact hmid)

lemma pass1_keep {o : Ontology} {ord : List Node → List Node} {shape : Node}
    {qs : List Node} {st : GenState} {m : PropMap} {t : Triple}
    (ht : t ∈ st.g) (hp : t.2.1 ≠ vRDFrest) :
    t ∈ (pass1 o ord shape qs (st, m)).1.g := by
  by_contra hnot
  exact hp (pass1_removed o ord shape qs st m t ht hnot).1

lemma pass1_added (o : Ontology) (ord : List Node → List Node) (shape : Node) :
    ∀ (qs : List Node) (st : GenState) (m : PropMap) (t : Triple),
      t ∈ (pass1 o ord shape qs (st, m)).1.g → t ∉ st.g →
      P1New st.ctr shape qs t := by
  intro qs
  induction qs with
  | nil =>
    intro st m t ht hnot
    exact absurd ht hnot
  | cons q rest ih =>
    intro st m t ht hnot
    rcases hq : domainRangeStep o ord shape (st, m) q with ⟨st', m'⟩
    rw [pass1_cons, hq] at ht
    have hctr := dRS_ctr_le o ord shape st m q
    rw [hq] at hctr
    by_cases hmid : t ∈ st'.g
    · have := @dRS_added o ord shape st m q t (by rw [hq]; exact hmid) hnot
      exact p1New_mono this (le_refl _) (by intro x hx; simp at hx; simp [hx])
    · have := ih st' m' t ht hmid
      exact p1New_mono this hctr (by intro x hx; exact List.mem_cons_of_mem _ hx)

lemma dRS_map_stable {o : Ontology} {ord : List Node → List Node} {shape : Node}
    {st : GenState} {m : PropMap} {prop x : Node} (hx : x ≠ prop) :
    pmGet (domainRangeStep o ord shape (st, m) prop).2 x = pmGet m x := by
  by_cases h1 : (classesB o none (some prop)).length < 1
  · rw [dRS_skip h1]
  · by_cases h2 : 1 < (classesB o none (some prop)).length
    · rw [dRS_multi h2]
      exact pmGet_pmSet_ne hx
    · rw [dRS_single h1 h2]
      exact pmGet_pmSet_ne hx

lemma pass1_map_stable (o : Ontology) (ord : List Node → List Node)
    (shape : Node) :
    ∀ (qs : List Node) (st : GenState) (m : PropMap) (x : Node),
      (∀ q ∈ qs, x ≠ q) →
      pmGet (pass1 o ord shape qs (st, m)).2 x = pmGet m x := by
  intro qs
  induction qs with
  | nil => intro st m x _; rfl
  | cons q rest ih =>
    intro st m x hx
    rcases hq : domainRangeStep o ord shape (st, m) q with ⟨st', m'⟩
    rw [pass1_cons, hq]
    rw [ih st' m' x (fun p hp => hx p (List.mem_cons_of_mem _ hp))]
    have := @dRS_map_stable o ord shape st m q x (hx q (List.mem_cons_self _ _))
    rw [hq] at this
    exact this

lemma headD_nodeBnd {o : Ontology} {ord : List Node → List Node} {prop : Node}
    (hord : ∀ xs, (ord xs).Perm xs) (c : Nat) :
    nodeBnd ((ord (classesB o none (some prop))).headD (Node.uri "")) c := by
  rcases hh : ord (classesB o none (some prop)) with _ | ⟨a, l⟩
  · exact nodeBnd_uri _ _
  · have ha : a ∈ classesB o none (some prop) := by
      apply (hord (classesB o none (some prop))).mem_iff.1
      rw [hh]
      simp
    simp only [List.headD_cons]
    exact nodeBnd_of_not_bnode (mem_classesB_not_bnode ha) c

lemma dRS_inv {o : Ontology} {ord : List Node → List Node} {shape : Node}
    {st : GenState} {m : PropMap} {prop : Node}
    (hord : ∀ xs, (ord xs).Perm xs)
    (hsh : shape.isBNode = false) (hpr : prop.isBNode = false)
    (hbnd : BndBelow st.g st.ctr) (hch : chainInvP st.g)
    (hmb : MapBelow m st.ctr) (hvn : ValNodup m)
    (hnone : pmGet m prop = none) :
    BndBelow (domainRangeStep o ord shape (st, m) prop).1.g
        (domainRangeStep o ord shape (st, m) prop).1.ctr ∧
    chainInvP (domainRangeStep o ord shape (st, m) prop).1.g ∧
    MapBelow (domainRangeStep o ord shape (st, m) prop).2
        (domainRangeStep o ord shape (st, m) prop).1.ctr ∧
    ValNodup (domainRangeStep o ord shape (st, m) prop).2 := by
  have hshn : ∀ c, nodeBnd shape c := fun c => nodeBnd_of_not_bnode hsh c
  have hpropn : ∀ c, nodeBnd prop c := fun c => nodeBnd_of_not_bnode hpr c
  by_cases h1 : (classesB o none (some prop)).length < 1
  · rw [dRS_skip h1]
    exact ⟨hbnd, hch, hmb, hvn⟩
  · have hb2 : BndBelow ((st.fresh.2.add (shape, vSHproperty, st.fresh.1)).add
        (st.fresh.1, vSHpath, prop)).g (st.ctr + 1) := by
      apply bndBelow_add
      · apply bndBelow_add
        · rw [fresh_g]
          exact bndBelow_mono hbnd (by omega)
        · exact tripleBnodeIds_lt (hshn _) (nodeBnd_uri _ _)
            (nodeBnd_bnode (Nat.lt_succ_self st.ctr))
      · exact tripleBnodeIds_lt (nodeBnd_bnode (Nat.lt_succ_self st.ctr))
          (nodeBnd_uri _ _) (hpropn _)
    have hch2 : chainInvP ((st.fresh.2.add (shape, vSHproperty, st.fresh.1)).add
        (st.fresh.1, vSHpath, prop)).g := by
      apply chainInvP_addSt
      · apply chainInvP_addSt
        · rw [fresh_g]
          exact hch
        · intro _
          exact ⟨show vSHproperty ≠ vRDFfirst by decide,
            show vSHproperty ≠ vRDFrest by decide⟩
      · intro _
        exact ⟨show vSHpath ≠ vRDFfirst by decide,
          show vSHpath ≠ vRDFrest by decide⟩
    have hitems : ∀ x ∈ ord (classesB o none (some prop)), ∀ c, nodeBnd x c := by
      intro x hx c
      have hx' : x ∈ classesB o none (some prop) :=
        (hord (classesB o none (some prop))).mem_iff.1 hx
      exact nodeBnd_of_not_bnode (mem_classesB_not_bnode hx') _
    by_cases h2 : 1 < (classesB o none (some prop)).length
    · rw [dRS_multi h2]
      have hout : st.ctr + 1 ≤ (buildOr ((st.fresh.2.add
          (shape, vSHproperty, st.fresh.1)).add (st.fresh.1, vSHpath, prop))
          st.fresh.1 (ord (classesB o none (some prop)))).ctr :=
        buildOr_ctr_le ((st.fresh.2.add (shape, vSHproperty, st.fresh.1)).add
          (st.fresh.1, vSHpath, prop)) st.fresh.1
          (ord (classesB o none (some prop)))
      refine ⟨?_, ?_, ?_, ?_⟩
      · exact buildOr_bnd hb2 (nodeBnd_bnode (Nat.lt_succ_self st.ctr))
          (fun x hx => hitems x hx _)
      · exact buildOr_chainInv hch2
      · show MapBelow (pmSet m prop st.fresh.1)
          (buildOr ((st.fresh.2.add (shape, vSHproperty, st.fresh.1)).add
            (st.fresh.1, vSHpath, prop)) st.fresh.1
            (ord (classesB o none (some prop)))).ctr
        rw [pmSet_append hnone]
        apply mapBelow_append
        · exact mapBelow_mono hmb (by omega)
        · exact ⟨st.ctr, rfl, by omega⟩
      · show ValNodup (pmSet m prop st.fresh.1)
        rw [pmSet_append hnone]
        exact valNodup_append hvn hmb ⟨st.ctr, rfl, le_refl _⟩
    · rw [dRS_single h1 h2]
      refine ⟨?_, ?_, ?_, ?_⟩
      · apply bndBelow_add hb2
        exact tripleBnodeIds_lt (nodeBnd_bnode (Nat.lt_succ_self st.ctr))
          (nodeBnd_uri _ _) (headD_nodeBnd hord _)
      · apply chainInvP_addSt hch2
        intro _
        exact ⟨show vSHclass ≠ vRDFfirst by decide,
          show vSHclass ≠ vRDFrest by decide⟩
      · show MapBelow (pmSet m prop st.fresh.1) (st.ctr + 1)
        rw [pmSet_append hnone]
        apply mapBelow_append
        · exact mapBelow_mono hmb (by omega)
        · exact ⟨st.ctr, rfl, Nat.lt_succ_self st.ctr⟩
      · show ValNodup (pmSet m prop st.fresh.1)
        rw [pmSet_append hnone]
        exact valNodup_append hvn hmb ⟨st.ctr, rfl, le_refl _⟩

lemma pass1_inv (o : Ontology) (ord : List Node → List Node) (shape : Node)
    (hord : ∀ xs, (ord xs).Perm xs) (hsh : shape.isBNode = false) :
    ∀ (qs : List Node) (st : GenState) (m : PropMap),
      BndBelow st.g st.ctr → chainInvP st.g →
      MapBelow m st.ctr → ValNodup m →
      (∀ q ∈ qs, pmGet m q = none) → qs.Nodup →
      (∀ q ∈ qs, q.isBNode = false) →
      BndBelow (pass1 o ord shape qs (st, m)).1.g
          (pass1 o ord shape qs (st, m)).1.ctr ∧
      chainInvP (pass1 o ord shape qs (st, m)).1.g ∧
      MapBelow (pass1 o ord shape qs (st, m)).2
          (pass1 o ord shape qs (st, m)).1.ctr ∧
      ValNodup (pass1 o ord shape qs (st, m)).2 := by
  intro qs
  induction qs with
  | nil =>
    intro st m hbnd hch hmb hvn _ _ _
    exact ⟨hbnd, hch, hmb, hvn⟩
  | cons q rest ih =>
    intro st m hbnd hch hmb hvn hget hnd hnb
    rcases hq : domainRangeStep o ord shape (st, m) q with ⟨st', m'⟩
    rw [pass1_cons, hq]
    have hstep := @dRS_inv o ord shape st m q hord hsh
      (hnb q (List.mem_cons_self _ _)) hbnd hch hmb hvn
      (hget q (List.mem_cons_self _ _))
    rw [hq] at hstep
    obtain ⟨h1, h2, h3, h4⟩ := hstep
    apply ih st' m' h1 h2 h3 h4
    · intro p hp
      have hne : p ≠ q := by
        intro hc
        subst hc
        exact (List.nodup_cons.1 hnd).1 hp
      have := @dRS_map_stable o ord shape st m q p hne
      rw [hq] at this
      rw [this]
      exact hget p (List.mem_cons_of_mem _ hp)
    · exact (List.nodup_cons.1 hnd).2
    · intro p hp
      exact hnb p (List.mem_cons_of_mem _ hp)

lemma pass1_frozen_low {o : Ontology} {ord : List Node → List Node}
    {shape : Node} {qs : List Node} {st : GenState} {m : PropMap} {t : Triple}
    (hsh : shape.isBNode = false)
    (hn : ∃ n, n < st.ctr ∧ t.1 = .bnode n) :
    (t ∈ (pass1 o ord shape qs (st, m)).1.g ↔ t ∈ st.g) := by
  obtain ⟨n, hlt, hsub⟩ := hn
  constructor
  · intro ht
    by_contra hnot
    rcases pass1_added o ord shape qs st m t ht hnot with
      ⟨_, h2, _⟩ | ⟨⟨k, hk, h1⟩, _, _⟩
    · rw [hsub] at h2
      rw [← h2] at hsh
      simp [Node.isBNode] at hsh
    · rw [hsub] at h1
      cases h1
      omega
  · intro ht
    by_contra hnot
    obtain ⟨_, k, hk, h2⟩ := pass1_removed o ord shape qs st m t ht hnot
    rw [hsub] at h2
    cases h2
    omega

/-! ### Chain segments: first/rest paths with an open end -/

lemma bnode_truthy (n : Nat) : (Node.bnode n).truthy = true := rfl

lemma chainAt_of_seg_nil {g : List Triple} :
    ∀ {ks cs : List Node} {c : Node}, ChainSeg g vRDFnil c ks cs →
      ChainAt g c ks cs := by
  intro ks
  induction ks with
  | nil =>
    intro cs c h
    cases cs with
    | nil => exact h
    | cons a l => exact absurd h (by simp [ChainSeg])
  | cons k ks' ih =>
    intro cs c h
    cases cs with
    | nil => exact absurd h (by simp [ChainSeg])
    | cons c' cs' =>
      obtain ⟨h1, h2, h3, h4, d, h5, h6⟩ := h
      exact ⟨h1, h2, h3, h4, d, h5, ih h6⟩

lemma chainSeg_snoc {g : List Triple} {stop : Node} :
    ∀ {ks cs : List Node} {c : Node} {k d : Node},
      ChainSeg g stop c ks cs → stop ≠ vRDFnil → stop.truthy = true →
      objects g stop vRDFfirst = [k] → objects g stop vRDFrest = [d] →
      ChainSeg g d c (ks ++ [k]) (cs ++ [stop]) := by
  intro ks
  induction ks with
  | nil =>
    intro cs c k d h hne htr hf hr
    cases cs with
    | nil =>
      rw [show c = stop from h]
      exact ⟨rfl, hne, htr, hf, d, hr, rfl⟩
    | cons a l => exact absurd h (by simp [ChainSeg])
  | cons k0 ks' ih =>
    intro cs c k d h hne htr hf hr
    cases cs with
    | nil => exact absurd h (by simp [ChainSeg])
    | cons c' cs' =>
      obtain ⟨h1, h2, h3, h4, e, h5, h6⟩ := h
      exact ⟨h1, h2, h3, h4, e, h5, ih h6 hne htr hf hr⟩

lemma objects_singleton_trans {g g' : List Triple} {s p v : Node}
    (hobj : objects g s p = [v])
    (hiff : ∀ x, ((s, p, x) ∈ g' ↔ (s, p, x) ∈ g)) :
    objects g' s p = [v] := by
  apply objects_eq_singleton
  intro x
  rw [hiff x]
  constructor
  · intro hx
    have := mem_objects.2 hx
    rw [hobj] at this
    simpa using this
  · intro hx
    subst hx
    apply mem_objects.1
    rw [hobj]
    simp

lemma chainSeg_congr {g g' : List Triple} {stop : Node} :
    ∀ {ks cs : List Node} {c : Node}, ChainSeg g stop c ks cs →
      (∀ x ∈ cs, ∀ y, (((x, vRDFfirst, y) ∈ g' ↔ (x, vRDFfirst, y) ∈ g) ∧
        ((x, vRDFrest, y) ∈ g' ↔ (x, vRDFrest, y) ∈ g))) →
      ChainSeg g' stop c ks cs := by
  intro ks
  induction ks with
  | nil =>
    intro cs c h _
    cases cs with
    | nil => exact h
    | cons a l => exact absurd h (by simp [ChainSeg])
  | cons k ks' ih =>
    intro cs c h hiff
    cases cs with
    | nil => exact absurd h (by simp [ChainSeg])
    | cons c' cs' =>
      obtain ⟨h1, h2, h3, h4, d, h5, h6⟩ := h
      subst h1
      refine ⟨rfl, h2, h3, ?_, d, ?_, ?_⟩
      · exact objects_singleton_trans h4
          (fun y => (hiff c' (List.mem_cons_self _ _) y).1)
      · exact objects_singleton_trans h5
          (fun y => (hiff c' (List.mem_cons_self _ _) y).2)
      · exact ih h6 (fun x hx y => hiff x (List.mem_cons_of_mem _ hx) y)

lemma chainAt_congr {g g' : List Triple} {ks cs : List Node} {c : Node}
    (h : ChainAt g c ks cs)
    (hiff : ∀ x ∈ cs, ∀ y, (((x, vRDFfirst, y) ∈ g' ↔ (x, vRDFfirst, y) ∈ g) ∧
      ((x, vRDFrest, y) ∈ g' ↔ (x, vRDFrest, y) ∈ g))) :
    ChainAt g' c ks cs := by
  have hseg : ChainSeg g vRDFnil c ks cs := by
    clear hiff
    induction ks generalizing cs c with
    | nil =>
      obtain ⟨rfl, rfl⟩ := chainAt_nil_elim h
      exact rfl
    | cons k ks' ih =>
      obtain ⟨cs', rfl, h2, h3, h4, d, h5, h6⟩ := chainAt_cons_elim h
      exact ⟨rfl, h2, h3, h4, d, h5, ih h6⟩
  exact chainAt_of_seg_nil (chainSeg_congr hseg hiff)

lemma bndBelow_no_subject {g : List Triple} {c n : Nat}
    (h : BndBelow g c) (hn : c ≤ n) :
    ∀ p x, (Node.bnode n, p, x) ∉ g := by
  intro p x hx
  have := h _ hx n (by simp [tripleBnodeIds, Node.bnodeIds])
  omega

/-- State facts after one `hasFirst = true` iteration of the collection
loop: the previous end node is rewired to the fresh chain node, which
carries the fresh constraint node as `rdf:first` and `rdf:nil` as
`rdf:rest`. -/
lemma trueStep_state (st S : GenState) (nE : Nat) (pk : Node)
    (hS : S = (((st.fresh.2.add (st.fresh.1, vSHclass, pk)).fresh.2.setT
        (Node.bnode nE) vRDFrest
        (st.fresh.2.add (st.fresh.1, vSHclass, pk)).fresh.1).add
      ((st.fresh.2.add (st.fresh.1, vSHclass, pk)).fresh.1, vRDFfirst,
        st.fresh.1)).add
      ((st.fresh.2.add (st.fresh.1, vSHclass, pk)).fresh.1, vRDFrest, vRDFnil))
    (hsub : ∀ n, st.ctr ≤ n → ∀ p x, (Node.bnode n, p, x) ∉ st.g)
    (hlt : nE < st.ctr) :
    S.ctr = st.ctr + 2 ∧
    (∀ n, S.ctr ≤ n → ∀ p x, (Node.bnode n, p, x) ∉ S.g) ∧
    objects S.g (Node.bnode (st.ctr + 1)) vRDFfirst = [Node.bnode st.ctr] ∧
    objects S.g (Node.bnode (st.ctr + 1)) vRDFrest = [vRDFnil] ∧
    (Node.bnode st.ctr, vSHclass, pk) ∈ S.g ∧
    (∀ x, ((Node.bnode nE, vRDFfirst, x) ∈ S.g ↔
      (Node.bnode nE, vRDFfirst, x) ∈ st.g)) ∧
    (∀ x, ((Node.bnode nE, vRDFrest, x) ∈ S.g ↔
      x = Node.bnode (st.ctr + 1))) := by
  have hmem : ∀ t : Triple, t ∈ S.g ↔
      (((t ∈ st.g ∨ t = (Node.bnode st.ctr, vSHclass, pk)) ∧
        ¬(t.1 = Node.bnode nE ∧ t.2.1 = vRDFrest)) ∨
      t = (Node.bnode nE, vRDFrest, Node.bnode (st.ctr + 1)) ∨
      t = (Node.bnode (st.ctr + 1), vRDFfirst, Node.bnode st.ctr) ∨
      t = (Node.bnode (st.ctr + 1), vRDFrest, vRDFnil)) := by
    intro t
    rw [hS]
    simp only [mem_add, mem_setT, fresh_g, fresh_fst, add_ctr, fresh_ctr]
    tauto
  refine ⟨by rw [hS]; rfl, ?_, ?_, ?_, ?_, ?_, ?_⟩
  · intro n hn p x hx
    rw [hS] at hn
    have hn' : st.ctr + 2 ≤ n := hn
    rw [hmem] at hx
    rcases hx with ⟨h | h, _⟩ | h | h | h
    · exact hsub n (by omega) p x h
    · simp only [Prod.mk.injEq, Node.bnode.injEq] at h
      exact absurd h.1 (by omega)
    · simp only [Prod.mk.injEq, Node.bnode.injEq] at h
      exact absurd h.1 (by omega)
    · simp only [Prod.mk.injEq, Node.bnode.injEq] at h
      exact absurd h.1 (by omega)
    · simp only [Prod.mk.injEq, Node.bnode.injEq] at h
      exact absurd h.1 (by omega)
  · apply objects_eq_singleton
    intro x
    rw [hmem]
    constructor
    · rintro (⟨h | h, _⟩ | h | h | h)
      · exact absurd h (hsub (st.ctr + 1) (by omega) _ _)
      · simp only [Prod.mk.injEq, Node.bnode.injEq] at h
        exact absurd h.1 (by omega)
      · simp only [Prod.mk.injEq, Node.bnode.injEq] at h
        exact absurd h.1 (by omega)
      · simp only [Prod.mk.injEq, Node.bnode.injEq] at h
        exact h.2.2
      · simp only [Prod.mk.injEq, Node.bnode.injEq] at h
        exact absurd h.2.1 (by decide)
    · intro hx
      subst hx
      exact Or.inr (Or.inr (Or.inl rfl))
  · apply objects_eq_singleton
    intro x
    rw [hmem]
    constructor
    · rintro (⟨h | h, _⟩ | h | h | h)
      · exact absurd h (hsub (st.ctr + 1) (by omega) _ _)
      · simp only [Prod.mk.injEq, Node.bnode.injEq] at h
        exact absurd h.1 (by omega)
      · simp only [Prod.mk.injEq, Node.bnode.injEq] at h
        exact absurd h.1 (by omega)
      · simp only [Prod.mk.injEq, Node.bnode.injEq] at h
        exact absurd h.2.1 (by decide)
      · simp only [Prod.mk.injEq, Node.bnode.injEq] at h
        exact h.2.2
    · intro hx
      subst hx
      exact Or.inr (Or.inr (Or.inr rfl))
  · rw [hmem]
    refine Or.inl ⟨Or.inr rfl, ?_⟩
    intro hc
    simp only [Node.bnode.injEq] at hc
    omega
  · intro x
    rw [hmem]
    constructor
    · rintro (⟨h | h, _⟩ | h | h | h)
      · exact h
      · simp only [Prod.mk.injEq, Node.bnode.injEq] at h
        exact absurd h.1 (by omega)
      · simp only [Prod.mk.injEq, Node.bnode.injEq] at h
        exact absurd h.2.1 (by decide)
      · simp only [Prod.mk.injEq, Node.bnode.injEq] at h
        exact absurd h.1 (by omega)
      · simp only [Prod.mk.injEq, Node.bnode.injEq] at h
        exact absurd h.1 (by omega)
    · intro h
      refine Or.inl ⟨Or.inl h, ?_⟩
      intro hc
      exact absurd (show vRDFfirst = vRDFrest from hc.2) (by decide)
  · intro x
    rw [hmem]
    constructor
    · rintro (⟨_, hnot⟩ | h | h | h)
      · exact absurd ⟨rfl, rfl⟩ hnot
      · simp only [Prod.mk.injEq, Node.bnode.injEq] at h
        exact h.2.2
      · simp only [Prod.mk.injEq, Node.bnode.injEq] at h
        exact absurd h.1 (by omega)
      · simp only [Prod.mk.injEq, Node.bnode.injEq] at h
        exact absurd h.1 (by omega)
    · intro hx
      subst hx
      exact Or.inr (Or.inl rfl)

lemma collLoop_frozen_low (items : List Node) (st : GenState) (e : Node)
    (hfb : Bool) {m : Nat} (hm : m < st.ctr) (he : Node.bnode m ≠ e)
    (p x : Node) :
    ((Node.bnode m, p, x) ∈ (collLoop st e hfb items).g ↔
      (Node.bnode m, p, x) ∈ st.g) := by
  constructor
  · intro hx
    by_cases hin : (Node.bnode m, p, x) ∈ st.g
    · exact hin
    · exfalso
      rcases collLoop_added items st e hfb _ hx hin with
        ⟨_, ⟨n, hn, hs⟩, _⟩ | ⟨_, hs | ⟨n, hn, hs⟩⟩
      · simp only [Node.bnode.injEq] at hs
        omega
      · exact he hs
      · simp only [Node.bnode.injEq] at hs
        omega
  · intro hx
    by_contra hnot
    rcases collLoop_removed items st e hfb _ hx hnot with ⟨_, hs | ⟨n, hn, hs⟩⟩
    · exact he hs
    · simp only [Node.bnode.injEq] at hs
      omega

lemma collLoop_true_builds :
    ∀ (items : List Node) (st : GenState) (nE : Nat) (kE : Node),
      (∀ n, st.ctr ≤ n → ∀ p x, (Node.bnode n, p, x) ∉ st.g) → nE < st.ctr →
      objects st.g (Node.bnode nE) vRDFfirst = [kE] →
      objects st.g (Node.bnode nE) vRDFrest = [vRDFnil] →
      ∃ ks cs,
        ChainAt (collLoop st (Node.bnode nE) true items).g
          (Node.bnode nE) (kE :: ks) (Node.bnode nE :: cs) ∧
        List.Forall₂
          (fun k x =>
            (k, vSHclass, x) ∈ (collLoop st (Node.bnode nE) true items).g)
          ks items ∧
        (∀ d ∈ cs, ∃ n, st.ctr ≤ n ∧
          n < (collLoop st (Node.bnode nE) true items).ctr ∧
          d = Node.bnode n) := by
  intro items
  induction items with
  | nil =>
    intro st nE kE hsub hlt hf hr
    refine ⟨[], [], ?_, List.Forall₂.nil, by simp⟩
    rw [collLoop_nil]
    exact ⟨rfl, bnode_ne_nil nE, rfl, hf, vRDFnil, hr, rfl⟩
  | cons pk rest ih =>
    intro st nE kE hsub hlt hf hr
    rw [collLoop_cons_true,
      show (st.fresh.2.add (st.fresh.1, vSHclass, pk)).fresh.1 =
        Node.bnode (st.ctr + 1) from rfl,
      show st.fresh.1 = Node.bnode st.ctr from rfl]
    obtain ⟨hctr3, hsub3, hf3, hr3, hcls3, hfE3, hrE3⟩ :=
      trueStep_state st
        ((((st.fresh.2.add (Node.bnode st.ctr, vSHclass, pk)).fresh.2.setT
            (Node.bnode nE) vRDFrest (Node.bnode (st.ctr + 1))).add
          (Node.bnode (st.ctr + 1), vRDFfirst, Node.bnode st.ctr)).add
          (Node.bnode (st.ctr + 1), vRDFrest, vRDFnil))
        nE pk rfl hsub hlt
    obtain ⟨ks, cs, hchain, hcorr, hbnds⟩ :=
      ih _ (st.ctr + 1) (Node.bnode st.ctr) hsub3 (by omega) hf3 hr3
    have houtctr := collLoop_ctr_le rest
      ((((st.fresh.2.add (Node.bnode st.ctr, vSHclass, pk)).fresh.2.setT
          (Node.bnode nE) vRDFrest (Node.bnode (st.ctr + 1))).add
        (Node.bnode (st.ctr + 1), vRDFfirst, Node.bnode st.ctr)).add
        (Node.bnode (st.ctr + 1), vRDFrest, vRDFnil))
      (Node.bnode (st.ctr + 1)) true
    have hneE : Node.bnode nE ≠ Node.bnode (st.ctr + 1) := by
      intro hc
      simp only [Node.bnode.injEq] at hc
      omega
    have hfS : objects (((((st.fresh.2.add
        (Node.bnode st.ctr, vSHclass, pk)).fresh.2.setT
          (Node.bnode nE) vRDFrest (Node.bnode (st.ctr + 1))).add
        (Node.bnode (st.ctr + 1), vRDFfirst, Node.bnode st.ctr)).add
        (Node.bnode (st.ctr + 1), vRDFrest, vRDFnil))).g
        (Node.bnode nE) vRDFfirst = [kE] :=
      objects_singleton_trans hf hfE3
    have hrS := objects_eq_singleton hrE3
    refine ⟨Node.bnode st.ctr :: ks, Node.bnode (st.ctr + 1) :: cs, ?_, ?_, ?_⟩
    · refine ⟨rfl, bnode_ne_nil nE, rfl, ?_, Node.bnode (st.ctr + 1), ?_, hchain⟩
      · exact objects_singleton_trans hfS
          (fun x => collLoop_frozen_low rest _ _ true (by omega) hneE _ x)
      · exact objects_singleton_trans hrS
          (fun x => collLoop_frozen_low rest _ _ true (by omega) hneE _ x)
    · refine List.Forall₂.cons ?_ hcorr
      exact collLoop_keep hcls3 (show vSHclass ≠ vRDFrest by decide)
    · intro d hd
      rcases List.mem_cons.1 hd with rfl | hd'
      · refine ⟨st.ctr + 1, by omega, ?_, rfl⟩
        have : (((((st.fresh.2.add (Node.bnode st.ctr, vSHclass, pk)).fresh.2.setT
            (Node.bnode nE) vRDFrest (Node.bnode (st.ctr + 1))).add
          (Node.bnode (st.ctr + 1), vRDFfirst, Node.bnode st.ctr)).add
          (Node.bnode (st.ctr + 1), vRDFrest, vRDFnil))).ctr = st.ctr + 2 := rfl
        omega
      · obtain ⟨n, hn1, hn2, hn3⟩ := hbnds d hd'
        have : (((((st.fresh.2.add (Node.bnode st.ctr, vSHclass, pk)).fresh.2.setT
            (Node.bnode nE) vRDFrest (Node.bnode (st.ctr + 1))).add
          (Node.bnode (st.ctr + 1), vRDFfirst, Node.bnode st.ctr)).add
          (Node.bnode (st.ctr + 1), vRDFrest, vRDFnil))).ctr = st.ctr + 2 := rfl
        exact ⟨n, by omega, hn2, hn3⟩

/-- State facts after the first (`hasFirst = false`) iteration of the
collection loop inside `buildOr`: the collection root carries the first
constraint node as `rdf:first` and `rdf:nil` as `rdf:rest`. -/
lemma falseStep_state (st S : GenState) (pk : Node)
    (hS : S = ((st.fresh.2.fresh.2.add (st.fresh.2.fresh.1, vSHclass, pk)).add
      (st.fresh.1, vRDFfirst, st.fresh.2.fresh.1)).add
      (st.fresh.1, vRDFrest, vRDFnil))
    (hbnd : BndBelow st.g st.ctr) :
    (∀ n, S.ctr ≤ n → ∀ p x, (Node.bnode n, p, x) ∉ S.g) ∧
    objects S.g (Node.bnode st.ctr) vRDFfirst = [Node.bnode (st.ctr + 1)] ∧
    objects S.g (Node.bnode st.ctr) vRDFrest = [vRDFnil] ∧
    (Node.bnode (st.ctr + 1), vSHclass, pk) ∈ S.g := by
  have hmem : ∀ t : Triple, t ∈ S.g ↔
      (t ∈ st.g ∨ t = (Node.bnode (st.ctr + 1), vSHclass, pk) ∨
        t = (Node.bnode st.ctr, vRDFfirst, Node.bnode (st.ctr + 1)) ∨
        t = (Node.bnode st.ctr, vRDFrest, vRDFnil)) := by
    intro t
    rw [hS]
    simp only [mem_add, fresh_g, fresh_fst, fresh_ctr]
    tauto
  refine ⟨?_, ?_, ?_, ?_⟩
  · intro n hn p x hx
    rw [hS] at hn
    have hn' : st.ctr + 2 ≤ n := hn
    rw [hmem] at hx
    rcases hx with h | h | h | h
    · exact bndBelow_no_subject hbnd (by omega) p x h
    · simp only [Prod.mk.injEq, Node.bnode.injEq] at h
      exact absurd h.1 (by omega)
    · simp only [Prod.mk.injEq, Node.bnode.injEq] at h
      exact absurd h.1 (by omega)
    · simp only [Prod.mk.injEq, Node.bnode.injEq] at h
      exact absurd h.1 (by omega)
  · apply objects_eq_singleton
    intro x
    rw [hmem]
    constructor
    · rintro (h | h | h | h)
      · exact absurd h (bndBelow_no_subject hbnd (le_refl _) _ _)
      · simp only [Prod.mk.injEq, Node.bnode.injEq] at h
        exact absurd h.1 (by omega)
      · simp only [Prod.mk.injEq, Node.bnode.injEq] at h
        exact h.2.2
      · simp only [Prod.mk.injEq, Node.bnode.injEq] at h
        exact absurd h.2.1 (by decide)
    · intro hx
      subst hx
      exact Or.inr (Or.inr (Or.inl rfl))
  · apply objects_eq_singleton
    intro x
    rw [hmem]
    constructor
    · rintro (h | h | h | h)
      · exact absurd h (bndBelow_no_subject hbnd (le_refl _) _ _)
      · simp only [Prod.mk.injEq, Node.bnode.injEq] at h
        exact absurd h.1 (by omega)
      · simp only [Prod.mk.injEq, Node.bnode.injEq] at h
        exact absurd h.2.1 (by decide)
      · simp only [Prod.mk.injEq, Node.bnode.injEq] at h
        exact h.2.2
    · intro hx
      subst hx
      exact Or.inr (Or.inr (Or.inr rfl))
  · rw [hmem]
    exact Or.inr (Or.inl rfl)

lemma buildOr_chain {st : GenState} {a : Node} {items : List Node}
    (hbnd : BndBelow st.g st.ctr) (hne : items ≠ []) :
    ∃ ks cs,
      ChainAt (buildOr st a items).g (Node.bnode st.ctr) ks cs ∧
      List.Forall₂ (fun k x => (k, vSHclass, x) ∈ (buildOr st a items).g)
        ks items ∧
      (∀ d ∈ cs, ∃ n, n < (buildOr st a items).ctr ∧ d = Node.bnode n) := by
  rcases items with _ | ⟨pk, rest⟩
  · exact absurd rfl hne
  show ∃ ks cs,
    ChainAt ((collLoop st.fresh.2 st.fresh.1 false (pk :: rest)).add
        (a, vSHor, st.fresh.1)).g (Node.bnode st.ctr) ks cs ∧
    List.Forall₂ (fun k x => (k, vSHclass, x) ∈
        ((collLoop st.fresh.2 st.fresh.1 false (pk :: rest)).add
          (a, vSHor, st.fresh.1)).g) ks (pk :: rest) ∧
    (∀ d ∈ cs, ∃ n, n < ((collLoop st.fresh.2 st.fresh.1 false (pk :: rest)).add
        (a, vSHor, st.fresh.1)).ctr ∧ d = Node.bnode n)
  rw [collLoop_cons_false,
    show st.fresh.2.fresh.1 = Node.bnode (st.ctr + 1) from rfl,
    show st.fresh.1 = Node.bnode st.ctr from rfl]
  obtain ⟨hsub3, hf3, hr3, hcls3⟩ :=
    falseStep_state st
      (((st.fresh.2.fresh.2.add (Node.bnode (st.ctr + 1), vSHclass, pk)).add
        (Node.bnode st.ctr, vRDFfirst, Node.bnode (st.ctr + 1))).add
        (Node.bnode st.ctr, vRDFrest, vRDFnil))
      pk rfl hbnd
  have hctr3 : (((st.fresh.2.fresh.2.add
      (Node.bnode (st.ctr + 1), vSHclass, pk)).add
      (Node.bnode st.ctr, vRDFfirst, Node.bnode (st.ctr + 1))).add
      (Node.bnode st.ctr, vRDFrest, vRDFnil)).ctr = st.ctr + 2 := rfl
  obtain ⟨ks, cs, hchain, hcorr, hbnds⟩ :=
    collLoop_true_builds rest _ st.ctr (Node.bnode (st.ctr + 1)) hsub3
      (by omega) hf3 hr3
  have haddiff : ∀ (x y pr : Node), pr = vRDFfirst ∨ pr = vRDFrest →
      (((x, pr, y) ∈ ((collLoop
          (((st.fresh.2.fresh.2.add
            (Node.bnode (st.ctr + 1), vSHclass, pk)).add
            (Node.bnode st.ctr, vRDFfirst, Node.bnode (st.ctr + 1))).add
            (Node.bnode st.ctr, vRDFrest, vRDFnil))
          (Node.bnode st.ctr) true rest).add
        (a, vSHor, Node.bnode st.ctr)).g) ↔
      ((x, pr, y) ∈ (collLoop
          (((st.fresh.2.fresh.2.add
            (Node.bnode (st.ctr + 1), vSHclass, pk)).add
            (Node.bnode st.ctr, vRDFfirst, Node.bnode (st.ctr + 1))).add
            (Node.bnode st.ctr, vRDFrest, vRDFnil))
          (Node.bnode st.ctr) true rest).g)) := by
    intro x y pr hpr
    rw [mem_add]
    constructor
    · rintro (h | h)
      · exact h
      · exfalso
        have hpr2 : pr = vSHor := congrArg (fun t => t.2.1) h
        rcases hpr with rfl | rfl
        · exact absurd hpr2 (by decide)
        · exact absurd hpr2 (by decide)
    · exact Or.inl
  have houtc := collLoop_ctr_le rest
    (((st.fresh.2.fresh.2.add
      (Node.bnode (st.ctr + 1), vSHclass, pk)).add
      (Node.bnode st.ctr, vRDFfirst, Node.bnode (st.ctr + 1))).add
      (Node.bnode st.ctr, vRDFrest, vRDFnil))
    (Node.bnode st.ctr) true
  refine ⟨Node.bnode (st.ctr + 1) :: ks, Node.bnode st.ctr :: cs, ?_, ?_, ?_⟩
  · exact chainAt_congr hchain
      (fun x hx y => ⟨haddiff x y _ (Or.inl rfl), haddiff x y _ (Or.inr rfl)⟩)
  · refine List.Forall₂.cons ?_ (List.Forall₂.imp
      (fun k x h => mem_add.2 (Or.inl h)) hcorr)
    exact mem_add.2 (Or.inl (collLoop_keep hcls3
      (show vSHclass ≠ vRDFrest by decide)))
  · intro d hd
    rcases List.mem_cons.1 hd with rfl | hd'
    · refine ⟨st.ctr, ?_, rfl⟩
      rw [add_ctr]
      omega
    · obtain ⟨n, _, hn2, hn3⟩ := hbnds d hd'
      refine ⟨n, ?_, hn3⟩
      rw [add_ctr]
      exact hn2

/-! ### Bounds on restriction fields -/

lemma gvalue_some_mem {g : List Triple} {s p x : Node}
    (h : gvalue g s p = some x) : (s, p, x) ∈ g := by
  unfold gvalue at h
  apply mem_objects.1
  rcases ho : objects g s p with _ | ⟨a, l⟩
  · rw [ho] at h
    cases h
  · rw [ho] at h
    simp only [List.head?_cons, Option.some.injEq] at h
    rw [h]
    simp

lemma bndBelow_obj {g : List Triple} {c : Nat} (h : BndBelow g c)
    {s p x : Node} (hx : (s, p, x) ∈ g) : nodeBnd x c := by
  intro n hn
  apply h _ hx n
  simp only [tripleBnodeIds, List.mem_append]
  exact Or.inr hn

lemma rdfItemsAux_mem {g : List Triple} :
    ∀ (fuel : Nat) (start : Option Node) (x : Node),
      x ∈ rdfItemsAux g fuel start → ∃ s, (s, vRDFfirst, x) ∈ g := by
  intro fuel
  induction fuel with
  | zero =>
    intro start x hx
    cases start <;> cases hx
  | succ f ih =>
    intro start x hx
    cases start with
    | none => cases hx
    | some node =>
      rw [rdfItemsAux] at hx
      by_cases ht : node.truthy = true
      · rw [if_pos ht] at hx
        rcases hv : gvalue g node vRDFfirst with _ | item
        · rw [hv] at hx
          exact ih _ x hx
        · rw [hv] at hx
          rcases List.mem_cons.1 hx with rfl | hx'
          · exact ⟨node, gvalue_some_mem hv⟩
          · exact ih _ x hx'
      · rw [if_neg ht] at hx
        cases hx

lemma restrBnd_mono {r : Restriction} {c c' : Nat} (h : RestrBnd r c)
    (hc : c ≤ c') : RestrBnd r c' := by
  obtain ⟨h1, h2, h3, h4⟩ := h
  exact ⟨fun x hx => nodeBnd_mono (h1 x hx) hc,
    fun ox hox x hx => nodeBnd_mono (h2 ox hox x hx) hc,
    fun x hx => nodeBnd_mono (h3 x hx) hc,
    fun x hx => nodeBnd_mono (h4 x hx) hc⟩

lemma mkRestriction_bnd (o : Ontology) (u : Node) :
    RestrBnd (mkRestriction o u) (graphBnodeBound o.graph) := by
  have hspec := graphBnodeBound_spec o.graph
  refine ⟨?_, ?_, ?_, ?_⟩
  · intro x hx
    exact bndBelow_obj hspec (gvalue_some_mem hx)
  · intro ox hox x hx
    subst hx
    have honk : (mkRestriction o u).on_klass =
        match gvalue o.graph u vOWLonClass with
        | some (.bnode b) =>
          (rdfItems o.graph (gvalue o.graph (.bnode b) vOWLunionOf)).map some
        | v => [v] := rfl
    rw [honk] at hox
    rcases hv : gvalue o.graph u vOWLonClass with _ | v
    · rw [hv] at hox
      simp at hox
    · rcases v with s | n | ⟨s, dt⟩
      · rw [hv] at hox
        simp at hox
        rw [hox]
        exact bndBelow_obj hspec (gvalue_some_mem hv)
      · rw [hv] at hox
        simp only [List.mem_map, Option.some.injEq] at hox
        obtain ⟨y, hy, hyx⟩ := hox
        obtain ⟨s, hs⟩ := rdfItemsAux_mem _ _ _ hy
        rw [← hyx]
        exact bndBelow_obj hspec hs
      · rw [hv] at hox
        simp at hox
        rw [hox]
        exact bndBelow_obj hspec (gvalue_some_mem hv)
  · intro x hx
    exact bndBelow_obj hspec (gvalue_some_mem hx)
  · intro x hx
    exact bndBelow_obj hspec (gvalue_some_mem hx)

/-! ### Restriction-pass delta characterization -/

lemma anchorOf_mono {c c' : Nat} {m : PropMap} {rs rs' : List Restriction}
    {s : Node} (h : AnchorOf c' m rs' s) (hc : c ≤ c')
    (hrs : ∀ r ∈ rs', r ∈ rs) : AnchorOf c m rs s := by
  rcases h with ⟨n, hn, hs⟩ | ⟨r, hr, q, hq, hg⟩
  · exact Or.inl ⟨n, by omega, hs⟩
  · exact Or.inr ⟨r, hrs r hr, q, hq, hg⟩

lemma p2New_mono {c c' : Nat} {shape : Node} {m : PropMap}
    {rs rs' : List Restriction} {t : Triple} (h : P2New c' shape m rs' t)
    (hc : c ≤ c') (hrs : ∀ r ∈ rs', r ∈ rs) : P2New c shape m rs t := by
  rcases h with ⟨h1, h2, n, hn, h3⟩ | ⟨h1, ⟨n, hn, h2⟩, ⟨r, hr, h3⟩, h4⟩ |
    ⟨h1, n, hn, h2⟩ | ⟨h1, h2⟩
  · exact Or.inl ⟨h1, h2, n, by omega, h3⟩
  · exact Or.inr (Or.inl ⟨h1, ⟨n, by omega, h2⟩, ⟨r, hrs r hr, h3⟩, h4⟩)
  · exact Or.inr (Or.inr (Or.inl ⟨h1, n, by omega, h2⟩))
  · exact Or.inr (Or.inr (Or.inr ⟨h1, anchorOf_mono h2 hc hrs⟩))

lemma allSome_mem : ∀ {l : List (Option Node)} {xs : List Node},
    allSome l = some xs → ∀ x ∈ xs, some x ∈ l := by
  intro l
  induction l with
  | nil =>
    intro xs h x hx
    cases h
    cases hx
  | cons o0 l' ih =>
    intro xs h x hx
    rcases o0 with _ | y
    · cases h
    · rw [allSome] at h
      rcases ha : allSome l' with _ | ys
      · rw [ha] at h
        cases h
      · rw [ha] at h
        simp only [Option.some.injEq] at h
        subst h
        rcases List.mem_cons.1 hx with rfl | hx'
        · exact List.mem_cons_self _ _
        · exact List.mem_cons_of_mem _ (ih ha x hx')

lemma restrAnchor_elim {shape : Node} {st : GenState} {m : PropMap}
    {r : Restriction} {b : Node} {st1 : GenState}
    (h : restrAnchor shape st m r = .ok (b, st1)) :
    st.ctr ≤ st1.ctr ∧ AnchorOf st.ctr m [r] b ∧
    (∀ t ∈ st1.g, t ∉ st.g →
      ((t.2.1 = vSHproperty ∧ t.1 = shape ∧
          ∃ n, st.ctr ≤ n ∧ t.2.2 = .bnode n) ∨
        (t.2.1 = vSHpath ∧ (∃ n, st.ctr ≤ n ∧ t.1 = .bnode n) ∧
          r.on_property = some t.2.2 ∧ pmGet m t.2.2 = none))) ∧
    (∀ t ∈ st.g, t ∈ st1.g) := by
  rcases hp : r.on_property with _ | q
  · rw [restrAnchor, hp] at h
    simp at h
  · rcases hg : pmGet m q with _ | b0
    · rw [restrAnchor, hp] at h
      simp only [hg, Except.ok.injEq, Prod.mk.injEq] at h
      obtain ⟨hb, hst⟩ := h
      subst hb
      subst hst
      refine ⟨by simp only [add_ctr, fresh_ctr]; omega,
        Or.inl ⟨st.ctr, le_refl _, rfl⟩, ?_, ?_⟩
      · intro t ht hnot
        simp only [mem_add, fresh_g, fresh_fst] at ht
        rcases ht with (ht | ht) | ht
        · exact absurd ht hnot
        · subst ht
          exact Or.inl ⟨rfl, rfl, st.ctr, le_refl _, rfl⟩
        · subst ht
          exact Or.inr ⟨rfl, ⟨st.ctr, le_refl _, rfl⟩, rfl, hg⟩
      · intro t ht
        simp only [mem_add, fresh_g]
        exact Or.inl (Or.inl ht)
    · rw [restrAnchor, hp] at h
      simp only [hg, Except.ok.injEq, Prod.mk.injEq] at h
      obtain ⟨hb, hst⟩ := h
      subst hb
      subst hst
      refine ⟨le_refl _, Or.inr ⟨r, List.mem_cons_self _ _, q, hp, hg⟩, ?_, ?_⟩
      · intro t ht hnot
        exact absurd ht hnot
      · intro t ht
        exact ht

lemma restrClassPart_elim {st1 : GenState} {b : Node} {r : Restriction}
    {st2 : GenState} (h : restrClassPart st1 b r = .ok st2) :
    st1.ctr ≤ st2.ctr ∧
    (∀ t ∈ st2.g, t ∉ st1.g →
      ((t.2.1 = vSHclass ∧ (t.1 = b ∨ ∃ n, st1.ctr ≤ n ∧ t.1 = .bnode n)) ∨
        ((t.2.1 = vRDFfirst ∨ t.2.1 = vRDFrest) ∧
          ∃ n, st1.ctr ≤ n ∧ t.1 = .bnode n) ∨
        (t.2.1 = vSHor ∧ t.1 = b))) ∧
    (∀ t ∈ st1.g, t ∉ st2.g →
      t.2.1 = vRDFrest ∧ ∃ n, st1.ctr ≤ n ∧ t.1 = .bnode n) := by
  unfold restrClassPart at h
  by_cases h1 : 1 < r.on_klass.length
  · rw [if_pos h1] at h
    rcases ha : allSome r.on_klass with _ | items
    · rw [ha] at h
      cases h
    · rw [ha] at h
      simp only [Except.ok.injEq] at h
      subst h
      refine ⟨buildOr_ctr_le _ _ _, ?_, ?_⟩
      · intro t ht hnot
        rcases buildOr_added ht hnot with
          ⟨hc, hn, _⟩ | ⟨hfr, hn⟩ | ⟨hb, hor, _⟩
        · exact Or.inl ⟨hc, Or.inr hn⟩
        · exact Or.inr (Or.inl ⟨hfr, hn⟩)
        · exact Or.inr (Or.inr ⟨hor, hb⟩)
      · intro t ht hnot
        exact buildOr_removed ht hnot
  · rw [if_neg h1] at h
    by_cases h2 : (r.on_klass.length == 1) = true
    · rw [if_pos h2] at h
      rcases hh : r.on_klass.headD none with _ | c
      · rw [hh] at h
        cases h
      · rw [hh] at h
        simp only [Except.ok.injEq] at h
        subst h
        refine ⟨le_refl _, ?_, ?_⟩
        · intro t ht hnot
          rcases mem_add.1 ht with ht' | ht'
          · exact absurd ht' hnot
          · subst ht'
            exact Or.inl ⟨rfl, Or.inl rfl⟩
        · intro t ht hnot
          exact absurd (mem_add.2 (Or.inl ht)) hnot
    · rw [if_neg h2] at h
      simp only [Except.ok.injEq] at h
      subst h
      exact ⟨le_refl _, fun t ht hnot => absurd ht hnot,
        fun t ht hnot => absurd ht hnot⟩

lemma restrCardPart_eq (st2 : GenState) (b : Node) (r : Restriction) :
    restrCardPart st2 b r =
      cardAdd (cardAdd st2 b vSHminCount r.min_cardinality) b vSHmaxCount
        r.max_cardinality := by
  unfold restrCardPart cardAdd
  rcases r.min_cardinality with _ | v <;> rcases r.max_cardinality with _ | w <;> rfl

lemma cardAdd_ctr (st : GenState) (b pred : Node) (o : Option Node) :
    (cardAdd st b pred o).ctr = st.ctr := by
  rcases o with _ | v
  · rfl
  · show (if v.truthy = true then st.add (b, pred, v) else st).ctr = st.ctr
    split <;> rfl

lemma cardAdd_keep {st : GenState} {b pred : Node} {o : Option Node}
    {t : Triple} (ht : t ∈ st.g) : t ∈ (cardAdd st b pred o).g := by
  rcases o with _ | v
  · exact ht
  · show t ∈ (if v.truthy = true then st.add (b, pred, v) else st).g
    split
    · exact mem_add.2 (Or.inl ht)
    · exact ht

lemma cardAdd_added {st : GenState} {b pred : Node} {o : Option Node}
    {t : Triple} (ht : t ∈ (cardAdd st b pred o).g) :
    t ∈ st.g ∨ (t.1 = b ∧ t.2.1 = pred) := by
  rcases o with _ | v
  · exact Or.inl ht
  · have ht2 : t ∈ (if v.truthy = true then st.add (b, pred, v) else st).g := ht
    revert ht2
    split
    · intro ht2
      rcases mem_add.1 ht2 with h | h
      · exact Or.inl h
      · subst h
        exact Or.inr ⟨rfl, rfl⟩
    · intro ht2
      exact Or.inl ht2

lemma restrCardPart_ctr (st2 : GenState) (b : Node) (r : Restriction) :
    (restrCardPart st2 b r).ctr = st2.ctr := by
  rw [restrCardPart_eq, cardAdd_ctr, cardAdd_ctr]

lemma restrCardPart_keep {st2 : GenState} {b : Node} {r : Restriction}
    {t : Triple} (ht : t ∈ st2.g) : t ∈ (restrCardPart st2 b r).g := by
  rw [restrCardPart_eq]
  exact cardAdd_keep (cardAdd_keep ht)

lemma restrCardPart_added {st2 : GenState} {b : Node} {r : Restriction}
    {t : Triple} (ht : t ∈ (restrCardPart st2 b r).g) :
    t ∈ st2.g ∨ (t.1 = b ∧ (t.2.1 = vSHminCount ∨ t.2.1 = vSHmaxCount)) := by
  rw [restrCardPart_eq] at ht
  rcases cardAdd_added ht with h | ⟨h1, h2⟩
  · rcases cardAdd_added h with h' | ⟨h1, h2⟩
    · exact Or.inl h'
    · exact Or.inr ⟨h1, Or.inl h2⟩
  · exact Or.inr ⟨h1, Or.inr h2⟩

lemma pmGet_mem_kv {m : PropMap} {q b : Node} (h : pmGet m q = some b) :
    ∃ kv ∈ m, kv.2 = b := by
  unfold pmGet at h
  rcases hf : m.find? (fun kv => kv.1 == q) with _ | kv
  · rw [hf] at h
    cases h
  · rw [hf] at h
    simp only [Option.some.injEq] at h
    exact ⟨kv, List.mem_of_find?_eq_some hf, h⟩

lemma headD_none_mem {l : List (Option Node)} {c : Node}
    (h : l.headD none = some c) : some c ∈ l := by
  cases l with
  | nil => cases h
  | cons a l' =>
    simp only [List.headD_cons] at h
    rw [h]
    exact List.mem_cons_self _ _

lemma restrStep_elim {shape : Node} {st : GenState} {m : PropMap}
    {r : Restriction} {st' : GenState} {m' : PropMap}
    (h : restrStep shape (st, m) r = .ok (st', m')) :
    m' = m ∧ st.ctr ≤ st'.ctr ∧
    (∀ t ∈ st'.g, t ∉ st.g → P2New st.ctr shape m [r] t) ∧
    (∀ t ∈ st.g, t ∉ st'.g →
      t.2.1 = vRDFrest ∧ ∃ n, st.ctr ≤ n ∧ t.1 = .bnode n) := by
  obtain ⟨b, st1, st2, ha, hcp, hst', hm'⟩ := restrStep_ok_elim h
  obtain ⟨hc1, hanch, hadd1, hkeep1⟩ := restrAnchor_elim ha
  obtain ⟨hc2, hadd2, hrem2⟩ := restrClassPart_elim hcp
  subst hst'
  refine ⟨hm', ?_, ?_, ?_⟩
  · rw [restrCardPart_ctr]
    omega
  · intro t ht hnot
    rcases restrCardPart_added ht with ht2 | ⟨hb, hmm⟩
    · by_cases hin1 : t ∈ st1.g
      · rcases hadd1 t hin1 hnot with h1 | h1
        · exact Or.inl h1
        · exact Or.inr (Or.inl ⟨h1.1, h1.2.1,
            ⟨r, List.mem_cons_self _ _, h1.2.2.1⟩, h1.2.2.2⟩)
      · rcases hadd2 t ht2 hin1 with ⟨hc, hb⟩ | ⟨hfr, n, hn, hbn⟩ | ⟨hor, hb⟩
        · refine Or.inr (Or.inr (Or.inr ⟨Or.inl hc, ?_⟩))
          rcases hb with rfl | ⟨n, hn, hbn⟩
          · exact hanch
          · exact Or.inl ⟨n, by omega, hbn⟩
        · exact Or.inr (Or.inr (Or.inl ⟨hfr, n, by omega, hbn⟩))
        · exact Or.inr (Or.inr (Or.inr ⟨Or.inr (Or.inl hor),
            by rw [hb]; exact hanch⟩))
    · rcases hmm with hm1 | hm1
      · exact Or.inr (Or.inr (Or.inr ⟨Or.inr (Or.inr (Or.inl hm1)),
          by rw [hb]; exact hanch⟩))
      · exact Or.inr (Or.inr (Or.inr ⟨Or.inr (Or.inr (Or.inr hm1)),
          by rw [hb]; exact hanch⟩))
  · intro t ht hnot
    have hin1 : t ∈ st1.g := hkeep1 t ht
    have hin2 : t ∉ st2.g := by
      intro hc
      exact hnot (restrCardPart_keep hc)
    obtain ⟨h1, n, hn, h2⟩ := hrem2 t hin1 hin2
    exact ⟨h1, n, by omega, h2⟩

lemma restrStep_inv {shape : Node} {st : GenState} {m : PropMap}
    {r : Restriction} {st' : GenState} {m' : PropMap}
    (h : restrStep shape (st, m) r = .ok (st', m'))
    (hsh : shape.isBNode = false)
    (hbnd : BndBelow st.g st.ctr) (hch : chainInvP st.g)
    (hmb : MapBelow m st.ctr) (hrb : RestrBnd r st.ctr) :
    BndBelow st'.g st'.ctr ∧ chainInvP st'.g := by
  obtain ⟨b, st1, st2, ha, hcp, hst', hm'⟩ := restrStep_ok_elim h
  subst hst'
  have hstage1 : BndBelow st1.g st1.ctr ∧ chainInvP st1.g ∧
      nodeBnd b st1.ctr ∧ st.ctr ≤ st1.ctr := by
    rcases hp : r.on_property with _ | q
    · rw [restrAnchor, hp] at ha
      simp at ha
    · rcases hg : pmGet m q with _ | b0
      · rw [restrAnchor, hp] at ha
        simp only [hg, Except.ok.injEq, Prod.mk.injEq] at ha
        obtain ⟨hb, hst⟩ := ha
        subst hb
        subst hst
        refine ⟨?_, ?_, ?_, ?_⟩
        · apply bndBelow_add
          · apply bndBelow_add
            · rw [fresh_g]
              exact bndBelow_mono hbnd (by simp only [add_ctr, fresh_ctr]; omega)
            · exact tripleBnodeIds_lt (nodeBnd_of_not_bnode hsh _)
                (nodeBnd_uri _ _)
                (nodeBnd_bnode (show st.ctr < st.ctr + 1 by omega))
          · exact tripleBnodeIds_lt
              (nodeBnd_bnode (show st.ctr < st.ctr + 1 by omega))
              (nodeBnd_uri _ _)
              (nodeBnd_mono (hrb.1 q hp)
                (by simp only [add_ctr, fresh_ctr]; omega))
        · apply chainInvP_addSt
          · apply chainInvP_addSt
            · rw [fresh_g]
              exact hch
            · intro _
              exact ⟨show vSHproperty ≠ vRDFfirst by decide,
                show vSHproperty ≠ vRDFrest by decide⟩
          · intro _
            exact ⟨show vSHpath ≠ vRDFfirst by decide,
              show vSHpath ≠ vRDFrest by decide⟩
        · exact nodeBnd_bnode (show st.ctr < st.ctr + 1 by omega)
        · simp only [add_ctr, fresh_ctr]
          omega
      · rw [restrAnchor, hp] at ha
        simp only [hg, Except.ok.injEq, Prod.mk.injEq] at ha
        obtain ⟨hb, hst⟩ := ha
        subst hb
        subst hst
        obtain ⟨kv, hkvm, hkv2⟩ := pmGet_mem_kv hg
        obtain ⟨n, hbn, hnlt⟩ := hmb kv hkvm
        refine ⟨hbnd, hch, ?_, le_refl _⟩
        rw [← hkv2, hbn]
        exact nodeBnd_bnode hnlt
  obtain ⟨hbnd1, hch1, hbb, hc1⟩ := hstage1
  have hstage2 : BndBelow st2.g st2.ctr ∧ chainInvP st2.g ∧ st1.ctr ≤ st2.ctr := by
    unfold restrClassPart at hcp
    by_cases h1 : 1 < r.on_klass.length
    · rw [if_pos h1] at hcp
      rcases hall : allSome r.on_klass with _ | items
      · rw [hall] at hcp
        cases hcp
      · rw [hall] at hcp
        simp only [Except.ok.injEq] at hcp
        subst hcp
        refine ⟨buildOr_bnd hbnd1 hbb ?_, buildOr_chainInv hch1,
          buildOr_ctr_le _ _ _⟩
        intro x hx
        exact nodeBnd_mono (hrb.2.1 (some x) (allSome_mem hall x hx) x rfl) hc1
    · rw [if_neg h1] at hcp
      by_cases h2 : (r.on_klass.length == 1) = true
      · rw [if_pos h2] at hcp
        rcases hh : r.on_klass.headD none with _ | c
        · rw [hh] at hcp
          cases hcp
        · rw [hh] at hcp
          simp only [Except.ok.injEq] at hcp
          subst hcp
          refine ⟨?_, ?_, le_refl _⟩
          · apply bndBelow_add hbnd1
            exact tripleBnodeIds_lt hbb (nodeBnd_uri _ _)
              (nodeBnd_mono (hrb.2.1 (some c) (headD_none_mem hh) c rfl) hc1)
          · apply chainInvP_addSt hch1
            intro _
            exact ⟨show vSHclass ≠ vRDFfirst by decide,
              show vSHclass ≠ vRDFrest by decide⟩
      · rw [if_neg h2] at hcp
        simp only [Except.ok.injEq] at hcp
        subst hcp
        exact ⟨hbnd1, hch1, le_refl _⟩
  obtain ⟨hbnd2, hch2, hc2⟩ := hstage2
  constructor
  · rw [restrCardPart_eq]
    have hmin : BndBelow (cardAdd st2 b vSHminCount r.min_cardinality).g st2.ctr := by
      rcases hmc : r.min_cardinality with _ | v
      · exact hbnd2
      · show BndBelow (if v.truthy = true then
            st2.add (b, vSHminCount, v) else st2).g st2.ctr
        split
        · apply bndBelow_add hbnd2
          exact tripleBnodeIds_lt (nodeBnd_mono hbb hc2) (nodeBnd_uri _ _)
            (nodeBnd_mono (hrb.2.2.1 v hmc) (by omega))
        · exact hbnd2
    have hres : BndBelow (cardAdd (cardAdd st2 b vSHminCount
        r.min_cardinality) b vSHmaxCount r.max_cardinality).g st2.ctr := by
      rcases hmc : r.max_cardinality with _ | v
      · exact hmin
      · show BndBelow (if v.truthy = true then
            (cardAdd st2 b vSHminCount r.min_cardinality).add
              (b, vSHmaxCount, v)
          else cardAdd st2 b vSHminCount r.min_cardinality).g st2.ctr
        split
        · apply bndBelow_add hmin
          exact tripleBnodeIds_lt (nodeBnd_mono hbb hc2) (nodeBnd_uri _ _)
            (nodeBnd_mono (hrb.2.2.2 v hmc) (by omega))
        · exact hmin
    have hctr : (cardAdd (cardAdd st2 b vSHminCount r.min_cardinality) b
        vSHmaxCount r.max_cardinality).ctr = st2.ctr := by
      rw [cardAdd_ctr, cardAdd_ctr]
    rw [hctr]
    exact hres
  · have hmin : chainInvP (cardAdd st2 b vSHminCount r.min_cardinality).g := by
      rcases hmc : r.min_cardinality with _ | v
      · exact hch2
      · show chainInvP (if v.truthy = true then
            st2.add (b, vSHminCount, v) else st2).g
        split
        · apply chainInvP_addSt hch2
          intro _
          exact ⟨show vSHminCount ≠ vRDFfirst by decide,
            show vSHminCount ≠ vRDFrest by decide⟩
        · exact hch2
    rw [restrCardPart_eq]
    rcases hmc : r.max_cardinality with _ | v
    · exact hmin
    · show chainInvP (if v.truthy = true then
          (cardAdd st2 b vSHminCount r.min_cardinality).add (b, vSHmaxCount, v)
        else cardAdd st2 b vSHminCount r.min_cardinality).g
      split
      · apply chainInvP_addSt hmin
        intro _
        exact ⟨show vSHmaxCount ≠ vRDFfirst by decide,
          show vSHmaxCount ≠ vRDFrest by decide⟩
      · exact hmin

lemma pass2_nil (shape : Node) (st : GenState) (m : PropMap) :
    pass2 shape [] st m = .ok st := rfl

lemma pass2_cons (shape : Node) (r : Restriction) (rest : List Restriction)
    (st : GenState) (m : PropMap) :
    pass2 shape (r :: rest) st m =
      match restrStep shape (st, m) r with
      | .error e => .error e
      | .ok acc => pass2 shape rest acc.1 acc.2 := rfl

lemma pass2_append (shape : Node) :
    ∀ (l1 l2 : List Restriction) (st : GenState) (m : PropMap),
      pass2 shape (l1 ++ l2) st m =
        match pass2 shape l1 st m with
        | .error e => .error e
        | .ok st1 => pass2 shape l2 st1 m := by
  intro l1
  induction l1 with
  | nil => intro l2 st m; rfl
  | cons r l1' ih =>
    intro l2 st m
    rw [List.cons_append, pass2_cons, pass2_cons]
    rcases hstep : restrStep shape (st, m) r with e | acc
    · rfl
    · obtain ⟨st1, m1⟩ := acc
      obtain ⟨hm, _, _, _⟩ := restrStep_elim hstep
      simp only []
      rw [ih l2 st1 m1, hm]

lemma pass2_elim (shape : Node) :
    ∀ (rs : List Restriction) (st : GenState) (m : PropMap) (stF : GenState),
      pass2 shape rs st m = .ok stF →
      st.ctr ≤ stF.ctr ∧
      (∀ t ∈ stF.g, t ∉ st.g → P2New st.ctr shape m rs t) ∧
      (∀ t ∈ st.g, t ∉ stF.g →
        t.2.1 = vRDFrest ∧ ∃ n, st.ctr ≤ n ∧ t.1 = .bnode n) := by
  intro rs
  induction rs with
  | nil =>
    intro st m stF h
    rw [pass2_nil] at h
    cases h
    exact ⟨le_refl _, fun t ht hnot => absurd ht hnot,
      fun t ht hnot => absurd ht hnot⟩
  | cons r rest ih =>
    intro st m stF h
    rw [pass2_cons] at h
    rcases hstep : restrStep shape (st, m) r with e | ⟨st1, m1⟩
    · rw [hstep] at h
      cases h
    · rw [hstep] at h
      simp only [] at h
      obtain ⟨hm1, hc1, hadd1, hrem1⟩ := restrStep_elim hstep
      rw [hm1] at h
      obtain ⟨hc2, hadd2, hrem2⟩ := ih st1 m stF h
      refine ⟨by omega, ?_, ?_⟩
      · intro t ht hnot
        by_cases hin1 : t ∈ st1.g
        · exact p2New_mono (hadd1 t hin1 hnot) (le_refl _)
            (by intro x hx; rcases List.mem_cons.1 hx with rfl | hx'
                · exact List.mem_cons_self _ _
                · cases hx')
        · exact p2New_mono (hadd2 t ht hin1) hc1
            (fun x hx => List.mem_cons_of_mem _ hx)
      · intro t ht hnot
        by_cases hin1 : t ∈ st1.g
        · obtain ⟨h1, n, hn, h2⟩ := hrem2 t hin1 hnot
          exact ⟨h1, n, by omega, h2⟩
        · exact hrem1 t ht hin1

lemma pass2_keep {shape : Node} {rs : List Restriction} {st : GenState}
    {m : PropMap} {stF : GenState} {t : Triple}
    (h : pass2 shape rs st m = .ok stF) (ht : t ∈ st.g)
    (hp : t.2.1 ≠ vRDFrest) : t ∈ stF.g := by
  by_contra hnot
  exact hp ((pass2_elim shape rs st m stF h).2.2 t ht hnot).1

lemma pass2_inv (shape : Node) (hsh : shape.isBNode = false) :
    ∀ (rs : List Restriction) (st : GenState) (m : PropMap) (stF : GenState),
      pass2 shape rs st m = .ok stF →
      BndBelow st.g st.ctr → chainInvP st.g → MapBelow m st.ctr →
      (∀ r ∈ rs, RestrBnd r st.ctr) →
      BndBelow stF.g stF.ctr ∧ chainInvP stF.g := by
  intro rs
  induction rs with
  | nil =>
    intro st m stF h hbnd hch _ _
    rw [pass2_nil] at h
    cases h
    exact ⟨hbnd, hch⟩
  | cons r rest ih =>
    intro st m stF h hbnd hch hmb hrb
    rw [pass2_cons] at h
    rcases hstep : restrStep shape (st, m) r with e | ⟨st1, m1⟩
    · rw [hstep] at h
      cases h
    · rw [hstep] at h
      simp only [] at h
      obtain ⟨hm1, hc1, _, _⟩ := restrStep_elim hstep
      rw [hm1] at h
      obtain ⟨hbnd1, hch1⟩ := restrStep_inv hstep hsh hbnd hch hmb
        (hrb r (List.mem_cons_self _ _))
      exact ih st1 m stF h hbnd1 hch1 (mapBelow_mono hmb hc1)
        (fun r' hr' => restrBnd_mono (hrb r' (List.mem_cons_of_mem _ hr')) hc1)

lemma triple_pred_ne {s o' p q : Node} (hpq : p ≠ q)
    (h : ((s, p, o') : Triple).2.1 = q) : False := hpq h

lemma pass2_frozen_fr {shape : Node} {rs : List Restriction} {st : GenState}
    {m : PropMap} {stF : GenState} (h : pass2 shape rs st m = .ok stF)
    {nlow : Nat} (hn : nlow < st.ctr) {pr : Node}
    (hpr : pr = vRDFfirst ∨ pr = vRDFrest) (x : Node) :
    ((Node.bnode nlow, pr, x) ∈ stF.g ↔ (Node.bnode nlow, pr, x) ∈ st.g) := by
  obtain ⟨_, hadd, hrem⟩ := pass2_elim shape rs st m stF h
  constructor
  · intro hx
    by_cases hin : (Node.bnode nlow, pr, x) ∈ st.g
    · exact hin
    · exfalso
      rcases hadd _ hx hin with ⟨h1, _⟩ | ⟨h1, _⟩ | ⟨_, n, hn2, h2⟩ | ⟨h1, _⟩
      · rcases hpr with rfl | rfl <;> exact triple_pred_ne (by decide) h1
      · rcases hpr with rfl | rfl <;> exact triple_pred_ne (by decide) h1
      · simp only [Node.bnode.injEq] at h2
        omega
      · rcases hpr with rfl | rfl <;>
          (rcases h1 with h1 | h1 | h1 | h1 <;>
            exact triple_pred_ne (by decide) h1)
  · intro hx
    by_contra hnot
    obtain ⟨_, n, hn2, h2⟩ := hrem _ hx hnot
    simp only [Node.bnode.injEq] at h2
    omega

/-! ### addNodeShape and the class loop -/

lemma pred_ne_of_eq {t : Triple} {p q : Node} (h : t.2.1 = p) (hpq : p ≠ q) :
    t.2.1 ≠ q := by
  rw [h]
  exact hpq

lemma addNodeShape_elim {o : Ontology} {ord : List Node → List Node}
    {ns : String} {klass : Node} {st stF : GenState}
    (h : addNodeShape o ord ns klass st = .ok stF) :
    ∃ props,
      properties o (some klass) none = .ok props ∧
      pass2 (computeShapeUri ns klass)
        ((ord (restrictionUris o klass)).map (mkRestriction o))
        (pass1 o ord (computeShapeUri ns klass) (ord props)
          (((st.add (computeShapeUri ns klass, vRDFtype, vSHNodeShape)).add
            (computeShapeUri ns klass, vRDFSisDefinedBy, .uri o.ident)).add
            (computeShapeUri ns klass, vSHtargetClass, klass),
           ([] : PropMap))).1
        (pass1 o ord (computeShapeUri ns klass) (ord props)
          (((st.add (computeShapeUri ns klass, vRDFtype, vSHNodeShape)).add
            (computeShapeUri ns klass, vRDFSisDefinedBy, .uri o.ident)).add
            (computeShapeUri ns klass, vSHtargetClass, klass),
           ([] : PropMap))).2 = .ok stF := by
  unfold addNodeShape at h
  rcases hp : properties o (some klass) none with e | props
  · rw [hp] at h
    cases h
  · rw [hp] at h
    simp only [] at h
    refine ⟨props, rfl, ?_⟩
    rcases h2 : pass2 (computeShapeUri ns klass)
        ((ord (restrictionUris o klass)).map (mkRestriction o))
        (pass1 o ord (computeShapeUri ns klass) (ord props)
          (((st.add (computeShapeUri ns klass, vRDFtype, vSHNodeShape)).add
            (computeShapeUri ns klass, vRDFSisDefinedBy, .uri o.ident)).add
            (computeShapeUri ns klass, vSHtargetClass, klass),
           ([] : PropMap))).1
        (pass1 o ord (computeShapeUri ns klass) (ord props)
          (((st.add (computeShapeUri ns klass, vRDFtype, vSHNodeShape)).add
            (computeShapeUri ns klass, vRDFSisDefinedBy, .uri o.ident)).add
            (computeShapeUri ns klass, vSHtargetClass, klass),
           ([] : PropMap))).2 with e | st3
    · rw [h2] at h
      cases h
    · rw [h2] at h
      simp only [Except.ok.injEq] at h
      rw [h]

lemma computeShapeUri_not_bnode (ns : String) (klass : Node) :
    (computeShapeUri ns klass).isBNode = false := rfl

lemma addNodeShape_keep {o : Ontology} {ord : List Node → List Node}
    {ns : String} {klass : Node} {st stF : GenState} {t : Triple}
    (h : addNodeShape o ord ns klass st = .ok stF)
    (ht : t ∈ st.g) (hp : t.2.1 ≠ vRDFrest) : t ∈ stF.g := by
  obtain ⟨props, hprops, h2⟩ := addNodeShape_elim h
  apply pass2_keep h2 ?_ hp
  apply pass1_keep ?_ hp
  simp only [mem_add]
  exact Or.inl (Or.inl (Or.inl ht))

lemma addNodeShape_head {o : Ontology} {ord : List Node → List Node}
    {ns : String} {klass : Node} {st stF : GenState}
    (h : addNodeShape o ord ns klass st = .ok stF) :
    (computeShapeUri ns klass, vRDFtype, vSHNodeShape) ∈ stF.g ∧
    (computeShapeUri ns klass, vRDFSisDefinedBy, .uri o.ident) ∈ stF.g ∧
    (computeShapeUri ns klass, vSHtargetClass, klass) ∈ stF.g := by
  obtain ⟨props, hprops, h2⟩ := addNodeShape_elim h
  have hmem : ∀ t : Triple, t.2.1 ≠ vRDFrest →
      t ∈ (((st.add (computeShapeUri ns klass, vRDFtype, vSHNodeShape)).add
        (computeShapeUri ns klass, vRDFSisDefinedBy, .uri o.ident)).add
        (computeShapeUri ns klass, vSHtargetClass, klass)).g → t ∈ stF.g := by
    intro t hp ht
    exact pass2_keep h2 (pass1_keep ht hp) hp
  refine ⟨?_, ?_, ?_⟩
  · exact hmem _ (show vRDFtype ≠ vRDFrest by decide) (by simp [mem_add])
  · exact hmem _ (show vRDFSisDefinedBy ≠ vRDFrest by decide)
      (by simp [mem_add])
  · exact hmem _ (show vSHtargetClass ≠ vRDFrest by decide)
      (by simp [mem_add])

lemma addNodeShape_added {o : Ontology} {ord : List Node → List Node}
    {ns : String} {klass : Node} {st stF : GenState} {t : Triple}
    (h : addNodeShape o ord ns klass st = .ok stF)
    (ht : t ∈ stF.g) (hnot : t ∉ st.g) :
    t = (computeShapeUri ns klass, vRDFtype, vSHNodeShape) ∨
    t = (computeShapeUri ns klass, vRDFSisDefinedBy, .uri o.ident) ∨
    t = (computeShapeUri ns klass, vSHtargetClass, klass) ∨
    (t.2.1 ≠ vRDFtype ∧ t.2.1 ≠ vSHtargetClass ∧
      t.2.1 ≠ vRDFSisDefinedBy) := by
  obtain ⟨props, hprops, h2⟩ := addNodeShape_elim h
  obtain ⟨_, hadd2, _⟩ := pass2_elim _ _ _ _ _ h2
  by_cases hin1 : t ∈ (pass1 o ord (computeShapeUri ns klass) (ord props)
      (((st.add (computeShapeUri ns klass, vRDFtype, vSHNodeShape)).add
        (computeShapeUri ns klass, vRDFSisDefinedBy, .uri o.ident)).add
        (computeShapeUri ns klass, vSHtargetClass, klass),
       ([] : PropMap))).1.g
  · by_cases hin0 : t ∈ (((st.add
        (computeShapeUri ns klass, vRDFtype, vSHNodeShape)).add
        (computeShapeUri ns klass, vRDFSisDefinedBy, .uri o.ident)).add
        (computeShapeUri ns klass, vSHtargetClass, klass)).g
    · simp only [mem_add] at hin0
      rcases hin0 with ((h0 | h0) | h0) | h0
      · exact absurd h0 hnot
      · exact Or.inl h0
      · exact Or.inr (Or.inl h0)
      · exact Or.inr (Or.inr (Or.inl h0))
    · rcases pass1_added o ord _ _ _ _ t hin1 hin0 with
        ⟨h1, _, _⟩ | ⟨_, h1, _⟩
      · exact Or.inr (Or.inr (Or.inr ⟨pred_ne_of_eq h1 (by decide),
          pred_ne_of_eq h1 (by decide), pred_ne_of_eq h1 (by decide)⟩))
      · rcases h1 with h1 | h1 | h1 | h1 | h1
        all_goals exact Or.inr (Or.inr (Or.inr ⟨pred_ne_of_eq h1 (by decide),
          pred_ne_of_eq h1 (by decide), pred_ne_of_eq h1 (by decide)⟩))
  · rcases hadd2 t ht hin1 with
      ⟨h1, _⟩ | ⟨h1, _⟩ | ⟨h1, _⟩ | ⟨h1, _⟩
    · exact Or.inr (Or.inr (Or.inr ⟨pred_ne_of_eq h1 (by decide),
        pred_ne_of_eq h1 (by decide), pred_ne_of_eq h1 (by decide)⟩))
    · exact Or.inr (Or.inr (Or.inr ⟨pred_ne_of_eq h1 (by decide),
        pred_ne_of_eq h1 (by decide), pred_ne_of_eq h1 (by decide)⟩))
    · rcases h1 with h1 | h1
      all_goals exact Or.inr (Or.inr (Or.inr ⟨pred_ne_of_eq h1 (by decide),
        pred_ne_of_eq h1 (by decide), pred_ne_of_eq h1 (by decide)⟩))
    · rcases h1 with h1 | h1 | h1 | h1
      all_goals exact Or.inr (Or.inr (Or.inr ⟨pred_ne_of_eq h1 (by decide),
        pred_ne_of_eq h1 (by decide), pred_ne_of_eq h1 (by decide)⟩))

lemma genLoop_nil (o : Ontology) (ord : List Node → List Node) (ns : String)
    (st : GenState) : genLoop o ord ns [] st = .ok st := rfl

lemma genLoop_cons (o : Ontology) (ord : List Node → List Node) (ns : String)
    (k : Node) (rest : List Node) (st : GenState) :
    genLoop o ord ns (k :: rest) st =
      match addNodeShape o ord ns k st with
      | .error e => .error e
      | .ok st1 => genLoop o ord ns rest st1 := rfl

lemma genLoop_keep {o : Ontology} {ord : List Node → List Node} {ns : String} :
    ∀ {ks : List Node} {st stF : GenState} {t : Triple},
      genLoop o ord ns ks st = .ok stF → t ∈ st.g → t.2.1 ≠ vRDFrest →
      t ∈ stF.g := by
  intro ks
  induction ks with
  | nil =>
    intro st stF t h ht hp
    rw [genLoop_nil] at h
    cases h
    exact ht
  | cons k rest ih =>
    intro st stF t h ht hp
    rw [genLoop_cons] at h
    rcases hstep : addNodeShape o ord ns k st with e | st1
    · rw [hstep] at h
      cases h
    · rw [hstep] at h
      simp only [] at h
      exact ih h (addNodeShape_keep hstep ht hp) hp

lemma genLoop_head {o : Ontology} {ord : List Node → List Node} {ns : String} :
    ∀ {ks : List Node} {st stF : GenState} {K : Node},
      genLoop o ord ns ks st = .ok stF → K ∈ ks →
      (computeShapeUri ns K, vRDFtype, vSHNodeShape) ∈ stF.g ∧
      (computeShapeUri ns K, vSHtargetClass, K) ∈ stF.g := by
  intro ks
  induction ks with
  | nil =>
    intro st stF K h hK
    cases hK
  | cons k rest ih =>
    intro st stF K h hK
    rw [genLoop_cons] at h
    rcases hstep : addNodeShape o ord ns k st with e | st1
    · rw [hstep] at h
      cases h
    · rw [hstep] at h
      simp only [] at h
      rcases List.mem_cons.1 hK with rfl | hK'
      · obtain ⟨h1, _, h3⟩ := addNodeShape_head hstep
        exact ⟨genLoop_keep h h1 (show vRDFtype ≠ vRDFrest by decide),
          genLoop_keep h h3 (show vSHtargetClass ≠ vRDFrest by decide)⟩
      · exact ih h hK'

lemma genLoop_tc {o : Ontology} {ord : List Node → List Node} {ns : String} :
    ∀ {ks : List Node} {st stF : GenState},
      genLoop o ord ns ks st = .ok stF →
      (∀ s c, (s, vSHtargetClass, c) ∈ st.g → s = computeShapeUri ns c) →
      (∀ s c, (s, vSHtargetClass, c) ∈ stF.g → s = computeShapeUri ns c) := by
  intro ks
  induction ks with
  | nil =>
    intro st stF h hinv
    rw [genLoop_nil] at h
    cases h
    exact hinv
  | cons k rest ih =>
    intro st stF h hinv
    rw [genLoop_cons] at h
    rcases hstep : addNodeShape o ord ns k st with e | st1
    · rw [hstep] at h
      cases h
    · rw [hstep] at h
      simp only [] at h
      apply ih h
      intro s c hsc
      by_cases hin : (s, vSHtargetClass, c) ∈ st.g
      · exact hinv s c hin
      · rcases addNodeShape_added hstep hsc hin with h1 | h1 | h1 | h1
        · exact absurd (show vSHtargetClass = vRDFtype from
            congrArg (fun t : Triple => t.2.1) h1) (by decide)
        · exact absurd (show vSHtargetClass = vRDFSisDefinedBy from
            congrArg (fun t : Triple => t.2.1) h1) (by decide)
        · have hs : s = computeShapeUri ns k :=
            congrArg (fun t : Triple => t.1) h1
          have hc : c = k := congrArg (fun t : Triple => t.2.2) h1
          rw [hs, hc]
        · exact absurd rfl h1.2.1

lemma metaTriples_pred (o : Ontology) (cfg : ShaclCfg)
    (gitHash today : String) :
    ∀ t ∈ metaTriples o cfg gitHash today,
      t.2.1 = vRDFtype ∨ t.2.1 = vOWLversionIRI ∨ t.2.1 = vOWLversionInfo ∨
      t.2.1 = vSDOcreator ∨ t.2.1 = vSDOdateCreated ∨
      t.2.1 = vSDOdateModified ∨ t.2.1 = vSDOdescription ∨
      t.2.1 = vSDOname ∨ t.2.1 = vSDOpublisher := by
  intro t ht
  unfold metaTriples at ht
  rw [List.mem_append] at ht
  rcases ht with h | h
  · simp only [List.mem_cons, List.not_mem_nil, or_false] at h
    rcases h with rfl | rfl | rfl | rfl | rfl | rfl | rfl | rfl <;> simp
  · rcases hp : cfg.publisher with _ | pb
    · rw [hp] at h
      cases h
    · rw [hp] at h
      have h2 : t ∈ (if pb.truthy = true then
          [((Node.uri cfg.namespaceStr : Node), vSDOpublisher, pb)]
        else []) := h
      revert h2
      split
      · intro h2
        simp only [List.mem_singleton] at h2
        subst h2
        simp
      · intro h2
        cases h2

lemma shaclGen_elim {o : Ontology} {cfg : ShaclCfg} {gitHash today : String}
    {ord : List Node → List Node} {G : List Triple}
    (h : shaclGen o cfg gitHash today ord = .ok G) :
    ∃ stF, genLoop o ord cfg.namespaceStr (ord (ontClasses o))
        { ctr := graphBnodeBound o.graph,
          g := metaTriples o cfg gitHash today } = .ok stF ∧ G = stF.g := by
  unfold shaclGen at h
  rcases hg : genLoop o ord cfg.namespaceStr (ord (ontClasses o))
      { ctr := graphBnodeBound o.graph,
        g := metaTriples o cfg gitHash today } with e | stF
  · rw [hg] at h
    cases h
  · rw [hg] at h
    simp only [Except.ok.injEq] at h
    exact ⟨stF, rfl, h.symm⟩

lemma metaTriples_no_tc (o : Ontology) (cfg : ShaclCfg)
    (gitHash today : String) (s c : Node) :
    (s, vSHtargetClass, c) ∉ metaTriples o cfg gitHash today := by
  intro hmem
  rcases metaTriples_pred o cfg gitHash today _ hmem with
    h | h | h | h | h | h | h | h | h
  all_goals exact triple_pred_ne (by decide) h

/-- C1: for every class C of the ontology, the generated graph contains
a NodeShape whose `sh:targetClass` is C, its subject is the
deterministically computed shape URI (fragment-based or
path-segment-based naming resolved against the output namespace), and
that subject is the *only* node carrying `sh:targetClass C` — so there
is exactly one such NodeShape.  Proven for every set-enumeration order
the generator might see. -/
theorem nodeshape_per_class (o : Ontology) (cfg : ShaclCfg)
    (gitHash today : String) (ord : List Node → List Node) (G : List Triple)
    (hord : ∀ xs, (ord xs).Perm xs)
    (hrun : shaclGen o cfg gitHash today ord = .ok G) :
    ∀ C ∈ ontClasses o,
      (computeShapeUri cfg.namespaceStr C, vRDFtype, vSHNodeShape) ∈ G ∧
      (computeShapeUri cfg.namespaceStr C, vSHtargetClass, C) ∈ G ∧
      (∀ s, (s, vSHtargetClass, C) ∈ G →
        s = computeShapeUri cfg.namespaceStr C) ∧
      computeShapeUri cfg.namespaceStr C =
        .uri (cfg.namespaceStr ++ shapeNameOf C) := by
  intro C hC
  obtain ⟨stF, hloop, hG⟩ := shaclGen_elim hrun
  subst hG
  have hCmem : C ∈ ord (ontClasses o) := (hord (ontClasses o)).mem_iff.2 hC
  obtain ⟨h1, h2⟩ := genLoop_head hloop hCmem
  refine ⟨h1, h2, ?_, rfl⟩
  intro s hs
  exact genLoop_tc hloop
    (fun s' c' hmem => absurd hmem (metaTriples_no_tc o cfg gitHash today s' c'))
    s C hs

theorem nodeshape_per_class_witness :
    (∀ xs : List Node, ((id : List Node → List Node) xs).Perm xs) ∧
    shaclGen exOnt exCfg "h" "2024-01-01" id =
      .ok (okGraph (shaclGen exOnt exCfg "h" "2024-01-01" id)) ∧
    (Node.uri "http://o/C") ∈ ontClasses exOnt ∧
    ((computeShapeUri "http://v/" (.uri "http://o/C"), vRDFtype, vSHNodeShape)
        ∈ okGraph (shaclGen exOnt exCfg "h" "2024-01-01" id) ∧
      (computeShapeUri "http://v/" (.uri "http://o/C"), vSHtargetClass,
        (.uri "http://o/C" : Node))
        ∈ okGraph (shaclGen exOnt exCfg "h" "2024-01-01" id) ∧
      (∀ s, (s, vSHtargetClass, (.uri "http://o/C" : Node)) ∈
          okGraph (shaclGen exOnt exCfg "h" "2024-01-01" id) →
        s = computeShapeUri "http://v/" (.uri "http://o/C")) ∧
      computeShapeUri "http://v/" (.uri "http://o/C") =
        .uri ("http://v/" ++ shapeNameOf (.uri "http://o/C"))) :=
  ⟨fun xs => List.Perm.refl xs, by rfl, by decide,
    nodeshape_per_class exOnt exCfg "h" "2024-01-01" id
      (okGraph (shaclGen exOnt exCfg "h" "2024-01-01" id))
      (fun xs => List.Perm.refl xs) (by rfl)
      (.uri "http://o/C") (by decide)⟩

/-! ### Frozen-membership helpers for the per-property analysis -/

lemma pass1_path_frozen {o : Ontology} {ord : List Node → List Node}
    {shape : Node} {qs : List Node} {st : GenState} {m : PropMap}
    {p s : Node} (hnp : p ∉ qs) :
    ((s, vSHpath, p) ∈ (pass1 o ord shape qs (st, m)).1.g ↔
      (s, vSHpath, p) ∈ st.g) := by
  constructor
  · intro hx
    by_cases hin : (s, vSHpath, p) ∈ st.g
    · exact hin
    · exfalso
      rcases pass1_added o ord shape qs st m _ hx hin with
        ⟨h1, _, _⟩ | ⟨_, _, h3⟩
      · exact triple_pred_ne (by decide) h1
      · exact hnp (h3 rfl)
  · intro hx
    by_contra hnot
    obtain ⟨h1, _⟩ := pass1_removed o ord shape qs st m _ hx hnot
    exact triple_pred_ne (by decide) h1

lemma pass2_path_frozen {shape : Node} {rs : List Restriction}
    {st : GenState} {m : PropMap} {stF : GenState} {p s : Node}
    (h : pass2 shape rs st m = .ok stF)
    (hnr : ∀ r ∈ rs, r.on_property ≠ some p) :
    ((s, vSHpath, p) ∈ stF.g ↔ (s, vSHpath, p) ∈ st.g) := by
  obtain ⟨_, hadd, hrem⟩ := pass2_elim shape rs st m stF h
  constructor
  · intro hx
    by_cases hin : (s, vSHpath, p) ∈ st.g
    · exact hin
    · exfalso
      rcases hadd _ hx hin with
        ⟨h1, _⟩ | ⟨_, _, ⟨r, hr, h3⟩, _⟩ | ⟨h1, _⟩ | ⟨h1, _⟩
      · exact triple_pred_ne (by decide) h1
      · exact hnr r hr h3
      · rcases h1 with h1 | h1 <;> exact triple_pred_ne (by decide) h1
      · rcases h1 with h1 | h1 | h1 | h1 <;>
          exact triple_pred_ne (by decide) h1
  · intro hx
    by_contra hnot
    obtain ⟨h1, _⟩ := hrem _ hx hnot
    exact triple_pred_ne (by decide) h1

lemma pass2_path_frozen_hit {shape : Node} {rs : List Restriction}
    {st : GenState} {m : PropMap} {stF : GenState} {p s b0 : Node}
    (h : pass2 shape rs st m = .ok stF)
    (hhit : pmGet m p = some b0) :
    ((s, vSHpath, p) ∈ stF.g ↔ (s, vSHpath, p) ∈ st.g) := by
  obtain ⟨_, hadd, hrem⟩ := pass2_elim shape rs st m stF h
  constructor
  · intro hx
    by_cases hin : (s, vSHpath, p) ∈ st.g
    · exact hin
    · exfalso
      rcases hadd _ hx hin with
        ⟨h1, _⟩ | ⟨_, _, _, h4⟩ | ⟨h1, _⟩ | ⟨h1, _⟩
      · exact triple_pred_ne (by decide) h1
      · have h4' : pmGet m p = none := h4
        rw [hhit] at h4'
        cases h4'
      · rcases h1 with h1 | h1 <;> exact triple_pred_ne (by decide) h1
      · rcases h1 with h1 | h1 | h1 | h1 <;>
          exact triple_pred_ne (by decide) h1
  · intro hx
    by_contra hnot
    obtain ⟨h1, _⟩ := hrem _ hx hnot
    exact triple_pred_ne (by decide) h1

lemma pass2_class_or_frozen {shape : Node} {rs : List Restriction}
    {st : GenState} {m : PropMap} {stF : GenState}
    (h : pass2 shape rs st m = .ok stF) {nb : Nat} (hnb : nb < st.ctr)
    (hanchor : ∀ r ∈ rs, ∀ q, r.on_property = some q →
      pmGet m q ≠ some (Node.bnode nb))
    {pr : Node} (hpr : pr = vSHclass ∨ pr = vSHor) (x : Node) :
    ((Node.bnode nb, pr, x) ∈ stF.g ↔ (Node.bnode nb, pr, x) ∈ st.g) := by
  obtain ⟨_, hadd, hrem⟩ := pass2_elim shape rs st m stF h
  constructor
  · intro hx
    by_cases hin : (Node.bnode nb, pr, x) ∈ st.g
    · exact hin
    · exfalso
      rcases hadd _ hx hin with
        ⟨h1, _⟩ | ⟨h1, _⟩ | ⟨h1, _⟩ | ⟨_, hao⟩
      · rcases hpr with rfl | rfl <;> exact triple_pred_ne (by decide) h1
      · rcases hpr with rfl | rfl <;> exact triple_pred_ne (by decide) h1
      · rcases hpr with rfl | rfl <;>
          (rcases h1 with h1 | h1 <;> exact triple_pred_ne (by decide) h1)
      · rcases hao with ⟨n, hn, hbn⟩ | ⟨r, hr, q, hq, hg⟩
        · have : nb = n := by
            have := congrArg (fun t : Triple => t.1) (rfl :
              ((Node.bnode nb, pr, x) : Triple) = (Node.bnode nb, pr, x))
            simp only [Node.bnode.injEq] at hbn
            exact hbn
          omega
        · exact hanchor r hr q hq hg
  · intro hx
    by_contra hnot
    obtain ⟨h1, _⟩ := hrem _ hx hnot
    rcases hpr with rfl | rfl <;> exact triple_pred_ne (by decide) h1

lemma head_adds_other {st : GenState} {shape klass obj : Node} {t : Triple}
    (hne1 : t.2.1 ≠ vRDFtype) (hne2 : t.2.1 ≠ vRDFSisDefinedBy)
    (hne3 : t.2.1 ≠ vSHtargetClass) :
    (t ∈ (((st.add (shape, vRDFtype, vSHNodeShape)).add
      (shape, vRDFSisDefinedBy, obj)).add
      (shape, vSHtargetClass, klass)).g ↔ t ∈ st.g) := by
  simp only [mem_add]
  constructor
  · rintro (((h | h) | h) | h)
    · exact h
    · exact absurd (congrArg (fun u : Triple => u.2.1) h) hne1
    · exact absurd (congrArg (fun u : Triple => u.2.1) h) hne2
    · exact absurd (congrArg (fun u : Triple => u.2.1) h) hne3
  · intro h
    exact Or.inl (Or.inl (Or.inl h))

lemma properties_ok_elim {o : Ontology} {a b : Option Node}
    {props : List Node} (h : properties o a b = .ok props) :
    props.Nodup ∧ ∀ q ∈ props, q.isBNode = false := by
  have hconc : ∀ (pr obj : Node),
      ((subjects o.graph pr obj).filter
        (fun p => !p.isBNode && strStartsWith p.str o.ident)).Nodup ∧
      ∀ q ∈ (subjects o.graph pr obj).filter
        (fun p => !p.isBNode && strStartsWith p.str o.ident),
        q.isBNode = false := by
    intro pr obj
    constructor
    · exact List.Nodup.filter _ (List.nodup_dedup _)
    · intro q hq
      rw [List.mem_filter] at hq
      have h2 := hq.2
      simp only [Bool.and_eq_true, Bool.not_eq_true'] at h2
      exact h2.1
  unfold properties at h
  by_cases h1 : (otruthy a && otruthy b) = true
  · rw [if_pos h1] at h
    cases h
  · rw [if_neg h1] at h
    by_cases h2 : (!(otruthy a || otruthy b)) = true
    · rw [if_pos h2] at h
      cases h
    · rw [if_neg h2] at h
      by_cases h3 : otruthy a = true
      · rw [if_pos h3] at h
        rcases a with _ | av
        · simp [otruthy] at h3
        · simp only [] at h
          by_cases h4 : (ontClasses o).contains av = true
          · rw [if_pos h4] at h
            simp only [Except.ok.injEq] at h
            subst h
            exact hconc _ _
          · rw [if_neg h4] at h
            cases h
      · rw [if_neg h3] at h
        rcases b with _ | bv
        · simp only [otruthy, Bool.or_false, Bool.not_eq_true] at h2 h3
          rw [h3] at h2
          simp at h2
        · simp only [] at h
          by_cases h4 : (ontClasses o).contains bv = true
          · rw [if_pos h4] at h
            simp only [Except.ok.injEq] at h
            subst h
            exact hconc _ _
          · rw [if_neg h4] at h
            cases h

/-- C3: behaviour of the domain/range pass of `add_nodeshape` for a
property `p` with domain `klass`, assuming no restriction of `klass`
also targets `p`.  If `classes(in_range_of=p)` is empty, no `sh:path`
triple for `p` is emitted at all; if it is a singleton `[R]`, a property
anchor is created carrying exactly one `sh:class` triple (with value
`R`) and no `sh:or` triple, and it is the only new `sh:path` anchor for
`p`; if it has more than one element, the anchor carries exactly one
`sh:or` triple and no `sh:class` triple, and the `sh:or` object is an
RDF collection whose items carry one `sh:class` constraint per range
class, in iteration order. -/
theorem domain_range_pass_spec (o : Ontology) (ord : List Node → List Node)
    (ns : String) (klass : Node) (st0 stF : GenState) (props : List Node)
    (p : Node)
    (hord : ∀ xs, (ord xs).Perm xs)
    (hkl : klass.isBNode = false)
    (hbnd : BndBelow st0.g st0.ctr) (hch : chainInvP st0.g)
    (hsrc : graphBnodeBound o.graph ≤ st0.ctr)
    (hrun : addNodeShape o ord ns klass st0 = .ok stF)
    (hprops : properties o (some klass) none = .ok props)
    (hp : p ∈ props)
    (hnores : ∀ u ∈ restrictionUris o klass,
      (mkRestriction o u).on_property ≠ some p) :
    ((classesB o none (some p)).length < 1 →
      ∀ s, ((s, vSHpath, p) ∈ stF.g ↔ (s, vSHpath, p) ∈ st0.g)) ∧
    (∀ R, classesB o none (some p) = [R] →
      ∃ bk, (computeShapeUri ns klass, vSHproperty, bk) ∈ stF.g ∧
        (bk, vSHpath, p) ∈ stF.g ∧ (bk, vSHclass, R) ∈ stF.g ∧
        (∀ x, (bk, vSHclass, x) ∈ stF.g → x = R) ∧
        (∀ y, (bk, vSHor, y) ∉ stF.g) ∧
        (∀ s, (s, vSHpath, p) ∈ stF.g → (s, vSHpath, p) ∉ st0.g → s = bk)) ∧
    (1 < (classesB o none (some p)).length →
      ∃ bk root ks cs,
        (computeShapeUri ns klass, vSHproperty, bk) ∈ stF.g ∧
        (bk, vSHpath, p) ∈ stF.g ∧ (bk, vSHor, root) ∈ stF.g ∧
        (∀ y, (bk, vSHor, y) ∈ stF.g → y = root) ∧
        (∀ y, (bk, vSHclass, y) ∉ stF.g) ∧
        ChainAt stF.g root ks cs ∧
        rdfItems stF.g (some root) = ks ∧
        List.Forall₂ (fun k x => (k, vSHclass, x) ∈ stF.g) ks
          (ord (classesB o none (some p))) ∧
        ks.length = (classesB o none (some p)).length ∧
        (∀ s, (s, vSHpath, p) ∈ stF.g → (s, vSHpath, p) ∉ st0.g → s = bk)) := by
  obtain ⟨props2, hprops2, hpipe⟩ := addNodeShape_elim hrun
  rw [hprops] at hprops2
  simp only [Except.ok.injEq] at hprops2
  subst hprops2
  obtain ⟨hpnd, hpnb⟩ := properties_ok_elim hprops
  -- facts about the three-triple head state, then forget its structure
  have hctr1 : (((st0.add (computeShapeUri ns klass, vRDFtype,
      vSHNodeShape)).add (computeShapeUri ns klass, vRDFSisDefinedBy,
      .uri o.ident)).add
      (computeShapeUri ns klass, vSHtargetClass, klass)).ctr = st0.ctr := rfl
  have hbnd1 : BndBelow (((st0.add (computeShapeUri ns klass, vRDFtype,
      vSHNodeShape)).add (computeShapeUri ns klass, vRDFSisDefinedBy,
      .uri o.ident)).add
      (computeShapeUri ns klass, vSHtargetClass, klass)).g st0.ctr := by
    apply bndBelow_add
    · apply bndBelow_add
      · apply bndBelow_add hbnd
        exact tripleBnodeIds_lt
          (nodeBnd_of_not_bnode (computeShapeUri_not_bnode ns klass) _)
          (nodeBnd_of_not_bnode (show vRDFtype.isBNode = false from rfl) _)
          (nodeBnd_of_not_bnode (show vSHNodeShape.isBNode = false from rfl) _)
      · exact tripleBnodeIds_lt
          (nodeBnd_of_not_bnode (computeShapeUri_not_bnode ns klass) _)
          (nodeBnd_of_not_bnode
            (show vRDFSisDefinedBy.isBNode = false from rfl) _)
          (nodeBnd_uri _ _)
    · exact tripleBnodeIds_lt
        (nodeBnd_of_not_bnode (computeShapeUri_not_bnode ns klass) _)
        (nodeBnd_of_not_bnode (show vSHtargetClass.isBNode = false from rfl) _)
        (nodeBnd_of_not_bnode hkl _)
  have hch1 : chainInvP (((st0.add (computeShapeUri ns klass, vRDFtype,
      vSHNodeShape)).add (computeShapeUri ns klass, vRDFSisDefinedBy,
      .uri o.ident)).add
      (computeShapeUri ns klass, vSHtargetClass, klass)).g := by
    apply chainInvP_addSt
    · apply chainInvP_addSt
      · apply chainInvP_addSt hch
        intro _
        exact ⟨show vRDFtype ≠ vRDFfirst by decide,
          show vRDFtype ≠ vRDFrest by decide⟩
      · intro _
        exact ⟨show vRDFSisDefinedBy ≠ vRDFfirst by decide,
          show vRDFSisDefinedBy ≠ vRDFrest by decide⟩
    · intro _
      exact ⟨show vSHtargetClass ≠ vRDFfirst by decide,
        show vSHtargetClass ≠ vRDFrest by decide⟩
  have hpath1 : ∀ s : Node, ((s, vSHpath, p) ∈
      (((st0.add (computeShapeUri ns klass, vRDFtype, vSHNodeShape)).add
        (computeShapeUri ns klass, vRDFSisDefinedBy, .uri o.ident)).add
        (computeShapeUri ns klass, vSHtargetClass, klass)).g ↔
      (s, vSHpath, p) ∈ st0.g) := by
    intro s
    exact head_adds_other (show vSHpath ≠ vRDFtype by decide)
      (show vSHpath ≠ vRDFSisDefinedBy by decide)
      (show vSHpath ≠ vSHtargetClass by decide)
  revert hpipe hctr1 hbnd1 hch1 hpath1
  generalize ((st0.add (computeShapeUri ns klass, vRDFtype,
      vSHNodeShape)).add (computeShapeUri ns klass, vRDFSisDefinedBy,
      .uri o.ident)).add
      (computeShapeUri ns klass, vSHtargetClass, klass) = st1
  intro hpipe hctr1 hbnd1 hch1 hpath1
  -- split the iteration order around p
  have hpord : p ∈ ord props := (hord props).mem_iff.2 hp
  obtain ⟨l1, l2, hsplit⟩ := List.append_of_mem hpord
  have hordnd : (ord props).Nodup := (hord props).symm.nodup hpnd
  rw [hsplit] at hordnd
  obtain ⟨hl1nd, hpl2nd, hdisj⟩ := List.nodup_append.1 hordnd
  have hpnl2 : p ∉ l2 := (List.nodup_cons.1 hpl2nd).1
  have hl2nd : l2.Nodup := (List.nodup_cons.1 hpl2nd).2
  have hpnl1 : p ∉ l1 := fun hc => hdisj hc (List.mem_cons_self _ _)
  have hl1nb : ∀ q ∈ l1, q.isBNode = false := by
    intro q hq
    apply hpnb q
    apply (hord props).mem_iff.1
    rw [hsplit]
    exact List.mem_append.2 (Or.inl hq)
  have hl2nb : ∀ q ∈ l2, q.isBNode = false := by
    intro q hq
    apply hpnb q
    apply (hord props).mem_iff.1
    rw [hsplit]
    exact List.mem_append.2 (Or.inr (List.mem_cons_of_mem _ hq))
  have hpnb' : p.isBNode = false := hpnb p hp
  -- decompose the pipeline
  rw [hsplit, pass1_append, pass1_cons] at hpipe
  rcases hA : pass1 o ord (computeShapeUri ns klass) l1
      (st1, ([] : PropMap)) with ⟨stA, mA⟩
  rw [hA] at hpipe
  -- invariants at A
  have hinvA := pass1_inv o ord (computeShapeUri ns klass) hord
    (computeShapeUri_not_bnode ns klass) l1 st1 []
    (by rw [hctr1]; exact hbnd1) hch1
    (fun kv hkv => absurd hkv (List.not_mem_nil kv))
    List.nodup_nil
    (fun q _ => rfl) hl1nd hl1nb
  rw [hA] at hinvA
  obtain ⟨hbndA0, hchA0, hmbA0, hvnA0⟩ := hinvA
  have hbndA : BndBelow stA.g stA.ctr := hbndA0
  have hchA : chainInvP stA.g := hchA0
  have hmbA : MapBelow mA stA.ctr := hmbA0
  have hvnA : ValNodup mA := hvnA0
  have hctrA : st1.ctr ≤ stA.ctr := by
    have := pass1_ctr_le o ord (computeShapeUri ns klass) l1 st1 []
    rw [hA] at this
    exact this
  have hmAnone : ∀ q, q ∉ l1 → pmGet mA q = none := by
    intro q hq
    have := pass1_map_stable o ord (computeShapeUri ns klass) l1 st1 [] q
      (fun x hx => by intro hc; subst hc; exact hq hx)
    rw [hA] at this
    exact this
  rcases hB : domainRangeStep o ord (computeShapeUri ns klass) (stA, mA) p
      with ⟨stB, mB⟩
  rw [hB] at hpipe
  have hinvB := @dRS_inv o ord (computeShapeUri ns klass) stA mA p hord
    (computeShapeUri_not_bnode ns klass) hpnb' hbndA hchA hmbA hvnA
    (hmAnone p hpnl1)
  rw [hB] at hinvB
  obtain ⟨hbndB0, hchB0, hmbB0, hvnB0⟩ := hinvB
  have hbndB : BndBelow stB.g stB.ctr := hbndB0
  have hchB : chainInvP stB.g := hchB0
  have hmbB : MapBelow mB stB.ctr := hmbB0
  have hvnB : ValNodup mB := hvnB0
  have hctrB : stA.ctr ≤ stB.ctr := by
    have := dRS_ctr_le o ord (computeShapeUri ns klass) stA mA p
    rw [hB] at this
    exact this
  have hmBnone : ∀ q ∈ l2, pmGet mB q = none := by
    intro q hq
    have hqp : q ≠ p := fun hc => hpnl2 (hc ▸ hq)
    have h1 := @dRS_map_stable o ord (computeShapeUri ns klass) stA mA p q hqp
    rw [hB] at h1
    rw [h1]
    exact hmAnone q (fun hc => hdisj hc (List.mem_cons_of_mem _ hq))
  rcases hC : pass1 o ord (computeShapeUri ns klass) l2 (stB, mB)
      with ⟨stC, mC⟩
  rw [hC] at hpipe
  have hpass2 : pass2 (computeShapeUri ns klass)
      ((ord (restrictionUris o klass)).map (mkRestriction o)) stC mC =
      .ok stF := hpipe
  have hinvC := pass1_inv o ord (computeShapeUri ns klass) hord
    (computeShapeUri_not_bnode ns klass) l2 stB mB hbndB hchB hmbB hvnB
    hmBnone hl2nd hl2nb
  rw [hC] at hinvC
  obtain ⟨hbndC0, hchC0, hmbC0, hvnC0⟩ := hinvC
  have hbndC : BndBelow stC.g stC.ctr := hbndC0
  have hchC : chainInvP stC.g := hchC0
  have hmbC : MapBelow mC stC.ctr := hmbC0
  have hvnC : ValNodup mC := hvnC0
  have hctrC : stB.ctr ≤ stC.ctr := by
    have := pass1_ctr_le o ord (computeShapeUri ns klass) l2 stB mB
    rw [hC] at this
    exact this
  -- no processed restriction targets p
  have hnores' : ∀ r ∈ (ord (restrictionUris o klass)).map (mkRestriction o),
      r.on_property ≠ some p := by
    intro r hr
    rw [List.mem_map] at hr
    obtain ⟨u, hu, rfl⟩ := hr
    exact hnores u ((hord (restrictionUris o klass)).mem_iff.1 hu)
  have hrestrb : ∀ r ∈ (ord (restrictionUris o klass)).map (mkRestriction o),
      RestrBnd r stC.ctr := by
    intro r hr
    rw [List.mem_map] at hr
    obtain ⟨u, hu, rfl⟩ := hr
    apply restrBnd_mono (mkRestriction_bnd o u)
    rw [← hctr1] at hsrc
    omega
  -- the final path-triple transfer, shared by all three cases
  have hpathC : ∀ s : Node,
      ((s, vSHpath, p) ∈ stF.g ↔ (s, vSHpath, p) ∈ stC.g) := by
    intro s
    exact pass2_path_frozen hpass2 hnores'
  have hpathl2 : ∀ s : Node,
      ((s, vSHpath, p) ∈ stC.g ↔ (s, vSHpath, p) ∈ stB.g) := by
    intro s
    have := @pass1_path_frozen o ord (computeShapeUri ns klass) l2 stB mB p s
      hpnl2
    rw [hC] at this
    exact this
  have hpathl1 : ∀ s : Node,
      ((s, vSHpath, p) ∈ stA.g ↔ (s, vSHpath, p) ∈ st0.g) := by
    intro s
    have := @pass1_path_frozen o ord (computeShapeUri ns klass) l1 st1
      ([] : PropMap) p s hpnl1
    rw [hA] at this
    exact (this.trans (hpath1 s))
  -- shared facts for the two non-skip cases
  have hmBval : ¬((classesB o none (some p)).length < 1) →
      mB = pmSet mA p stA.fresh.1 ∧ stA.ctr < stB.ctr := by
    intro h1
    by_cases h2 : 1 < (classesB o none (some p)).length
    · have hm := @dRS_multi o ord (computeShapeUri ns klass) stA mA p h2
      rw [hB] at hm
      simp only [Prod.mk.injEq] at hm
      refine ⟨hm.2, ?_⟩
      have hble := buildOr_ctr_le ((stA.fresh.2.add (computeShapeUri ns klass,
        vSHproperty, stA.fresh.1)).add (stA.fresh.1, vSHpath, p))
        stA.fresh.1 (ord (classesB o none (some p)))
      have hc2 : ((stA.fresh.2.add (computeShapeUri ns klass,
        vSHproperty, stA.fresh.1)).add (stA.fresh.1, vSHpath, p)).ctr =
        stA.ctr + 1 := rfl
      rw [hm.1]
      omega
    · have hm := @dRS_single o ord (computeShapeUri ns klass) stA mA p h1 h2
      rw [hB] at hm
      simp only [Prod.mk.injEq] at hm
      refine ⟨hm.2, ?_⟩
      rw [hm.1]
      exact Nat.lt_succ_self _
  have hmCp : ¬((classesB o none (some p)).length < 1) →
      pmGet mC p = some (Node.bnode stA.ctr) := by
    intro h1
    have h1' := pass1_map_stable o ord (computeShapeUri ns klass) l2 stB mB p
      (fun q hq hc => hpnl2 (hc ▸ hq))
    rw [hC] at h1'
    have h2' : pmGet mC p = pmGet mB p := h1'
    rw [h2', (hmBval h1).1, pmGet_pmSet]
    rfl
  have hfrl2 : ∀ t : Triple, (∃ n, n < stB.ctr ∧ t.1 = Node.bnode n) →
      (t ∈ stC.g ↔ t ∈ stB.g) := by
    intro t hn
    have := @pass1_frozen_low o ord (computeShapeUri ns klass) l2 stB mB t
      (computeShapeUri_not_bnode ns klass) hn
    rw [hC] at this
    exact this
  have hfrp2 : ¬((classesB o none (some p)).length < 1) → ∀ pr : Node,
      pr = vSHclass ∨ pr = vSHor → ∀ x,
      ((Node.bnode stA.ctr, pr, x) ∈ stF.g ↔
        (Node.bnode stA.ctr, pr, x) ∈ stC.g) := by
    intro h1 pr hpr x
    have hlt := (hmBval h1).2
    apply pass2_class_or_frozen hpass2 (by omega) ?_ hpr x
    intro r hr q hq hgq
    have hqp : q ≠ p := by
      intro hc
      subst hc
      exact hnores' r hr hq
    exact (pmGet_values_ne hvnC hgq (hmCp h1) hqp) rfl
  have hkeepBF : ∀ t : Triple, t ∈ stB.g → t.2.1 ≠ vRDFrest → t ∈ stF.g := by
    intro t ht hpred
    apply pass2_keep hpass2 ?_ hpred
    have := @pass1_keep o ord (computeShapeUri ns klass) l2 stB mB t ht hpred
    rw [hC] at this
    exact this
  refine ⟨?_, ?_, ?_⟩
  -- case (i): no range class, the step is skipped
  · intro hlen s
    have hskip := @dRS_skip o ord (computeShapeUri ns klass) stA mA p hlen
    rw [hB] at hskip
    simp only [Prod.mk.injEq] at hskip
    obtain ⟨hsA, _⟩ := hskip
    rw [hpathC s, hpathl2 s, hsA]
    exact hpathl1 s
  -- case (ii): a single range class
  · intro R hpks
    have hlen1 : (classesB o none (some p)).length = 1 := by
      rw [hpks]
      rfl
    have h1 : ¬((classesB o none (some p)).length < 1) := by omega
    have h2 : ¬(1 < (classesB o none (some p)).length) := by omega
    have hsingle := @dRS_single o ord (computeShapeUri ns klass) stA mA p h1 h2
    rw [hB] at hsingle
    simp only [Prod.mk.injEq] at hsingle
    obtain ⟨hstB, _⟩ := hsingle
    have hordR : ord (classesB o none (some p)) = [R] := by
      rw [hpks]
      exact List.perm_singleton.1 (hord [R])
    rw [hordR] at hstB
    simp only [List.headD_cons] at hstB
    rw [show stA.fresh.1 = Node.bnode stA.ctr from rfl] at hstB
    have hmemB : ∀ t : Triple, t ∈ stB.g ↔
        (t ∈ stA.g ∨
          t = (computeShapeUri ns klass, vSHproperty, Node.bnode stA.ctr) ∨
          t = (Node.bnode stA.ctr, vSHpath, p) ∨
          t = (Node.bnode stA.ctr, vSHclass, R)) := by
      intro t
      rw [hstB]
      simp only [mem_add, fresh_g]
      tauto
    have hpropB : (computeShapeUri ns klass, vSHproperty,
        Node.bnode stA.ctr) ∈ stB.g := (hmemB _).2 (Or.inr (Or.inl rfl))
    have hpathB : (Node.bnode stA.ctr, vSHpath, p) ∈ stB.g :=
      (hmemB _).2 (Or.inr (Or.inr (Or.inl rfl)))
    have hclsB : (Node.bnode stA.ctr, vSHclass, R) ∈ stB.g :=
      (hmemB _).2 (Or.inr (Or.inr (Or.inr rfl)))
    have hclsuB : ∀ x, (Node.bnode stA.ctr, vSHclass, x) ∈ stB.g → x = R := by
      intro x hx
      rcases (hmemB _).1 hx with h | h | h | h
      · exact absurd h (bndBelow_no_subject hbndA (le_refl _) _ _)
      · exact absurd (show vSHclass = vSHproperty from
          congrArg (fun u : Triple => u.2.1) h) (by decide)
      · exact absurd (show vSHclass = vSHpath from
          congrArg (fun u : Triple => u.2.1) h) (by decide)
      · exact congrArg (fun u : Triple => u.2.2) h
    have horB : ∀ y, (Node.bnode stA.ctr, vSHor, y) ∉ stB.g := by
      intro y hy
      rcases (hmemB _).1 hy with h | h | h | h
      · exact bndBelow_no_subject hbndA (le_refl _) _ _ h
      · exact absurd (show vSHor = vSHproperty from
          congrArg (fun u : Triple => u.2.1) h) (by decide)
      · exact absurd (show vSHor = vSHpath from
          congrArg (fun u : Triple => u.2.1) h) (by decide)
      · exact absurd (show vSHor = vSHclass from
          congrArg (fun u : Triple => u.2.1) h) (by decide)
    have hpathuB : ∀ s, (s, vSHpath, p) ∈ stB.g →
        s = Node.bnode stA.ctr ∨ (s, vSHpath, p) ∈ stA.g := by
      intro s hs
      rcases (hmemB _).1 hs with h | h | h | h
      · exact Or.inr h
      · exact absurd (show vSHpath = vSHproperty from
          congrArg (fun u : Triple => u.2.1) h) (by decide)
      · exact Or.inl (congrArg (fun u : Triple => u.1) h)
      · exact absurd (show vSHpath = vSHclass from
          congrArg (fun u : Triple => u.2.1) h) (by decide)
    refine ⟨Node.bnode stA.ctr,
      hkeepBF _ hpropB (show vSHproperty ≠ vRDFrest by decide),
      hkeepBF _ hpathB (show vSHpath ≠ vRDFrest by decide),
      hkeepBF _ hclsB (show vSHclass ≠ vRDFrest by decide), ?_, ?_, ?_⟩
    · intro x hx
      apply hclsuB x
      apply (hfrl2 _ ⟨stA.ctr, (hmBval h1).2, rfl⟩).1
      exact (hfrp2 h1 _ (Or.inl rfl) x).1 hx
    · intro y hy
      apply horB y
      apply (hfrl2 _ ⟨stA.ctr, (hmBval h1).2, rfl⟩).1
      exact (hfrp2 h1 _ (Or.inr rfl) y).1 hy
    · intro s hsF hs0
      have hsB : (s, vSHpath, p) ∈ stB.g := (hpathl2 s).1 ((hpathC s).1 hsF)
      rcases hpathuB s hsB with h | h
      · exact h
      · exact absurd ((hpathl1 s).1 h) hs0
  -- case (iii): several range classes
  · intro hlen2
    have h1 : ¬((classesB o none (some p)).length < 1) := by omega
    have hmulti := @dRS_multi o ord (computeShapeUri ns klass) stA mA p hlen2
    rw [hB] at hmulti
    simp only [Prod.mk.injEq] at hmulti
    obtain ⟨hstB, _⟩ := hmulti
    rw [show stA.fresh.1 = Node.bnode stA.ctr from rfl] at hstB
    have hbnd2 : BndBelow ((stA.fresh.2.add (computeShapeUri ns klass,
        vSHproperty, Node.bnode stA.ctr)).add
        (Node.bnode stA.ctr, vSHpath, p)).g (stA.ctr + 1) := by
      apply bndBelow_add
      · apply bndBelow_add
        · rw [fresh_g]
          exact bndBelow_mono hbndA (by omega)
        · exact tripleBnodeIds_lt
            (nodeBnd_of_not_bnode (computeShapeUri_not_bnode ns klass) _)
            (nodeBnd_of_not_bnode (show vSHproperty.isBNode = false from rfl) _)
            (nodeBnd_bnode (Nat.lt_succ_self _))
      · exact tripleBnodeIds_lt (nodeBnd_bnode (Nat.lt_succ_self _))
          (nodeBnd_of_not_bnode (show vSHpath.isBNode = false from rfl) _)
          (nodeBnd_of_not_bnode hpnb' _)
    have hne2 : ord (classesB o none (some p)) ≠ [] := by
      have hlene : (ord (classesB o none (some p))).length =
          (classesB o none (some p)).length := (hord _).length_eq
      intro hc
      rw [hc] at hlene
      simp only [List.length_nil] at hlene
      omega
    obtain ⟨ks, cs, hchainB, hcorrB, hcsB⟩ := @buildOr_chain
      ((stA.fresh.2.add (computeShapeUri ns klass, vSHproperty,
        Node.bnode stA.ctr)).add (Node.bnode stA.ctr, vSHpath, p))
      (Node.bnode stA.ctr) (ord (classesB o none (some p))) hbnd2 hne2
    rw [← hstB] at hchainB hcorrB hcsB
    have hrootn : Node.bnode ((stA.fresh.2.add (computeShapeUri ns klass,
        vSHproperty, Node.bnode stA.ctr)).add
        (Node.bnode stA.ctr, vSHpath, p)).ctr = Node.bnode (stA.ctr + 1) := rfl
    rw [hrootn] at hchainB
    have horB : (Node.bnode stA.ctr, vSHor, Node.bnode (stA.ctr + 1)) ∈
        stB.g := by
      rw [hstB, buildOr_def]
      exact mem_add.2 (Or.inr rfl)
    have hmemST2 : ∀ t : Triple,
        t ∈ ((stA.fresh.2.add (computeShapeUri ns klass, vSHproperty,
          Node.bnode stA.ctr)).add (Node.bnode stA.ctr, vSHpath, p)).g ↔
        (t ∈ stA.g ∨
          t = (computeShapeUri ns klass, vSHproperty, Node.bnode stA.ctr) ∨
          t = (Node.bnode stA.ctr, vSHpath, p)) := by
      intro t
      simp only [mem_add, fresh_g]
      tauto
    have horuB : ∀ y, (Node.bnode stA.ctr, vSHor, y) ∈ stB.g →
        y = Node.bnode (stA.ctr + 1) := by
      intro y hy
      rw [hstB, buildOr_def] at hy
      rcases mem_add.1 hy with h | h
      · rw [collLoop_mem_other (show vSHor ≠ vSHclass by decide)
          (show vSHor ≠ vRDFfirst by decide)
          (show vSHor ≠ vRDFrest by decide), fresh_g] at h
        rcases (hmemST2 _).1 h with h' | h' | h'
        · exact absurd h' (bndBelow_no_subject hbndA (le_refl _) _ _)
        · exact absurd (show vSHor = vSHproperty from
            congrArg (fun u : Triple => u.2.1) h') (by decide)
        · exact absurd (show vSHor = vSHpath from
            congrArg (fun u : Triple => u.2.1) h') (by decide)
      · exact congrArg (fun u : Triple => u.2.2) h
    have hclsnB : ∀ y, (Node.bnode stA.ctr, vSHclass, y) ∉ stB.g := by
      intro y hy
      rw [hstB, buildOr_def] at hy
      rcases mem_add.1 hy with h | h
      · by_cases hin : (Node.bnode stA.ctr, vSHclass, y) ∈
            ((stA.fresh.2.add (computeShapeUri ns klass, vSHproperty,
              Node.bnode stA.ctr)).add
              (Node.bnode stA.ctr, vSHpath, p)).fresh.2.g
        · rw [fresh_g] at hin
          rcases (hmemST2 _).1 hin with h' | h' | h'
          · exact bndBelow_no_subject hbndA (le_refl _) _ _ h'
          · exact absurd (show vSHclass = vSHproperty from
              congrArg (fun u : Triple => u.2.1) h') (by decide)
          · exact absurd (show vSHclass = vSHpath from
              congrArg (fun u : Triple => u.2.1) h') (by decide)
        · rcases collLoop_added _ _ _ _ _ h hin with
            ⟨_, ⟨n, hn, hbn⟩, _⟩ | ⟨hfr, _⟩
          · simp only [fresh_ctr, add_ctr] at hn
            simp only [Node.bnode.injEq] at hbn
            omega
          · rcases hfr with h1 | h1
            · exact triple_pred_ne (show vSHclass ≠ vRDFfirst by decide) h1
            · exact triple_pred_ne (show vSHclass ≠ vRDFrest by decide) h1
      · exact absurd (show vSHclass = vSHor from
          congrArg (fun u : Triple => u.2.1) h) (by decide)
    have hpathuB : ∀ s, (s, vSHpath, p) ∈ stB.g →
        s = Node.bnode stA.ctr ∨ (s, vSHpath, p) ∈ stA.g := by
      intro s hs
      rw [hstB, buildOr_def] at hs
      rcases mem_add.1 hs with h | h
      · rw [collLoop_mem_other (show vSHpath ≠ vSHclass by decide)
          (show vSHpath ≠ vRDFfirst by decide)
          (show vSHpath ≠ vRDFrest by decide), fresh_g] at h
        rcases (hmemST2 _).1 h with h' | h' | h'
        · exact Or.inr h'
        · exact absurd (show vSHpath = vSHproperty from
            congrArg (fun u : Triple => u.2.1) h') (by decide)
        · exact Or.inl (congrArg (fun u : Triple => u.1) h')
      · exact absurd (show vSHpath = vSHor from
          congrArg (fun u : Triple => u.2.1) h) (by decide)
    have hpropB : (computeShapeUri ns klass, vSHproperty,
        Node.bnode stA.ctr) ∈ stB.g := by
      rw [hstB, buildOr_def]
      apply mem_add.2
      left
      rw [collLoop_mem_other (show vSHproperty ≠ vSHclass by decide)
        (show vSHproperty ≠ vRDFfirst by decide)
        (show vSHproperty ≠ vRDFrest by decide), fresh_g]
      exact (hmemST2 _).2 (Or.inr (Or.inl rfl))
    have hpathB : (Node.bnode stA.ctr, vSHpath, p) ∈ stB.g := by
      rw [hstB, buildOr_def]
      apply mem_add.2
      left
      rw [collLoop_mem_other (show vSHpath ≠ vSHclass by decide)
        (show vSHpath ≠ vRDFfirst by decide)
        (show vSHpath ≠ vRDFrest by decide), fresh_g]
      exact (hmemST2 _).2 (Or.inr (Or.inr rfl))
    have hchainC : ChainAt stC.g (Node.bnode (stA.ctr + 1)) ks cs := by
      apply chainAt_congr hchainB
      intro x hx y
      obtain ⟨n, hnlt, rfl⟩ := hcsB x hx
      exact ⟨hfrl2 _ ⟨n, hnlt, rfl⟩, hfrl2 _ ⟨n, hnlt, rfl⟩⟩
    have hchainF : ChainAt stF.g (Node.bnode (stA.ctr + 1)) ks cs := by
      apply chainAt_congr hchainC
      intro x hx y
      obtain ⟨n, hnlt, rfl⟩ := hcsB x hx
      exact ⟨pass2_frozen_fr hpass2 (by omega) (Or.inl rfl) y,
        pass2_frozen_fr hpass2 (by omega) (Or.inr rfl) y⟩
    have hcorrF : List.Forall₂ (fun k x => (k, vSHclass, x) ∈ stF.g) ks
        (ord (classesB o none (some p))) := by
      apply List.Forall₂.imp ?_ hcorrB
      intro k x hk
      exact hkeepBF _ hk (show vSHclass ≠ vRDFrest by decide)
    have hchinvF : chainInvP stF.g :=
      (pass2_inv (computeShapeUri ns klass)
        (computeShapeUri_not_bnode ns klass) _ stC mC stF hpass2 hbndC hchC
        hmbC hrestrb).2
    refine ⟨Node.bnode stA.ctr, Node.bnode (stA.ctr + 1), ks, cs,
      hkeepBF _ hpropB (show vSHproperty ≠ vRDFrest by decide),
      hkeepBF _ hpathB (show vSHpath ≠ vRDFrest by decide),
      hkeepBF _ horB (show vSHor ≠ vRDFrest by decide), ?_, ?_, hchainF,
      rdfItems_of_chain hchinvF hchainF, hcorrF, ?_, ?_⟩
    · intro y hy
      apply horuB y
      apply (hfrl2 _ ⟨stA.ctr, (hmBval h1).2, rfl⟩).1
      exact (hfrp2 h1 _ (Or.inr rfl) y).1 hy
    · intro y hy
      apply hclsnB y
      apply (hfrl2 _ ⟨stA.ctr, (hmBval h1).2, rfl⟩).1
      exact (hfrp2 h1 _ (Or.inl rfl) y).1 hy
    · rw [List.Forall₂.length_eq hcorrB]
      exact (hord _).length_eq
    · intro s hsF hs0
      have hsB : (s, vSHpath, p) ∈ stB.g := (hpathl2 s).1 ((hpathC s).1 hsF)
      rcases hpathuB s hsB with h | h
      · exact h
      · exact absurd ((hpathl1 s).1 h) hs0

theorem domain_range_pass_spec_witness :
    ((∀ xs : List Node, ((id : List Node → List Node) xs).Perm xs) ∧
      (Node.uri "http://o/C").isBNode = false ∧
      BndBelow ({ ctr := 0, g := [] } : GenState).g
        ({ ctr := 0, g := [] } : GenState).ctr ∧
      chainInvP ({ ctr := 0, g := [] } : GenState).g ∧
      graphBnodeBound exOnt.graph ≤ ({ ctr := 0, g := [] } : GenState).ctr ∧
      addNodeShape exOnt id "http://v/" (.uri "http://o/C")
        { ctr := 0, g := [] } = .ok exSt3 ∧
      properties exOnt (some (.uri "http://o/C")) none =
        .ok [Node.uri "http://o/p"] ∧
      (Node.uri "http://o/p") ∈ [Node.uri "http://o/p"] ∧
      (∀ u ∈ restrictionUris exOnt (.uri "http://o/C"),
        (mkRestriction exOnt u).on_property ≠
          some (.uri "http://o/p"))) ∧
    (((classesB exOnt none (some (.uri "http://o/p"))).length < 1 →
      ∀ s, ((s, vSHpath, (Node.uri "http://o/p")) ∈ exSt3.g ↔
        (s, vSHpath, (Node.uri "http://o/p")) ∈
          ({ ctr := 0, g := [] } : GenState).g)) ∧
    (∀ R, classesB exOnt none (some (.uri "http://o/p")) = [R] →
      ∃ bk, (computeShapeUri "http://v/" (.uri "http://o/C"),
          vSHproperty, bk) ∈ exSt3.g ∧
        (bk, vSHpath, (Node.uri "http://o/p")) ∈ exSt3.g ∧
        (bk, vSHclass, R) ∈ exSt3.g ∧
        (∀ x, (bk, vSHclass, x) ∈ exSt3.g → x = R) ∧
        (∀ y, (bk, vSHor, y) ∉ exSt3.g) ∧
        (∀ s, (s, vSHpath, (Node.uri "http://o/p")) ∈ exSt3.g →
          (s, vSHpath, (Node.uri "http://o/p")) ∉
            ({ ctr := 0, g := [] } : GenState).g → s = bk)) ∧
    (1 < (classesB exOnt none (some (.uri "http://o/p"))).length →
      ∃ bk root ks cs,
        (computeShapeUri "http://v/" (.uri "http://o/C"),
          vSHproperty, bk) ∈ exSt3.g ∧
        (bk, vSHpath, (Node.uri "http://o/p")) ∈ exSt3.g ∧
        (bk, vSHor, root) ∈ exSt3.g ∧
        (∀ y, (bk, vSHor, y) ∈ exSt3.g → y = root) ∧
        (∀ y, (bk, vSHclass, y) ∉ exSt3.g) ∧
        ChainAt exSt3.g root ks cs ∧
        rdfItems exSt3.g (some root) = ks ∧
        List.Forall₂ (fun k x => (k, vSHclass, x) ∈ exSt3.g) ks
          (id (classesB exOnt none (some (.uri "http://o/p")))) ∧
        ks.length = (classesB exOnt none
          (some (.uri "http://o/p"))).length ∧
        (∀ s, (s, vSHpath, (Node.uri "http://o/p")) ∈ exSt3.g →
          (s, vSHpath, (Node.uri "http://o/p")) ∉
            ({ ctr := 0, g := [] } : GenState).g → s = bk))) :=
  ⟨⟨fun xs => List.Perm.refl xs, by decide,
    fun t ht => absurd ht (List.not_mem_nil t),
    fun t ht => absurd ht (List.not_mem_nil t), by decide,
    by rfl, by rfl, by decide, by decide⟩,
    domain_range_pass_spec exOnt id "http://v/" (.uri "http://o/C")
      { ctr := 0, g := [] } exSt3 [Node.uri "http://o/p"]
      (.uri "http://o/p") (fun xs => List.Perm.refl xs) (by decide)
      (fun t ht => absurd ht (List.not_mem_nil t))
      (fun t ht => absurd ht (List.not_mem_nil t)) (by decide) (by rfl)
      (by rfl) (by decide) (by decide)⟩

/-- C4: a restriction with truthy min/max qualified-cardinality values on
a property `p` that the domain/range pass has anchored (it ran for `p`,
i.e. `p` has at least one range class) attaches its `sh:minCount` and
`sh:maxCount` triples to that existing anchor: one node carries the
`sh:property` link from the shape, the `sh:path` triple for `p`, and both
cardinality triples, and every `sh:path` triple for `p` that is new
relative to the initial state has that same subject, so no second anchor
with a path triple for `p` is created. -/
theorem restriction_attaches_to_existing_anchor (o : Ontology)
    (ord : List Node → List Node) (ns : String) (klass : Node)
    (st0 stF : GenState) (props : List Node) (p u vmin vmax : Node)
    (hord : ∀ xs, (ord xs).Perm xs)
    (hkl : klass.isBNode = false)
    (hbnd : BndBelow st0.g st0.ctr) (hch : chainInvP st0.g)
    (hrun : addNodeShape o ord ns klass st0 = .ok stF)
    (hprops : properties o (some klass) none = .ok props)
    (hp : p ∈ props)
    (hlen : 1 ≤ (classesB o none (some p)).length)
    (hu : u ∈ restrictionUris o klass)
    (hup : (mkRestriction o u).on_property = some p)
    (humin : (mkRestriction o u).min_cardinality = some vmin)
    (humax : (mkRestriction o u).max_cardinality = some vmax)
    (hvmin : vmin.truthy = true) (hvmax : vmax.truthy = true) :
    ∃ bk, (computeShapeUri ns klass, vSHproperty, bk) ∈ stF.g ∧
      (bk, vSHpath, p) ∈ stF.g ∧
      (bk, vSHminCount, vmin) ∈ stF.g ∧
      (bk, vSHmaxCount, vmax) ∈ stF.g ∧
      (∀ s, (s, vSHpath, p) ∈ stF.g → (s, vSHpath, p) ∉ st0.g → s = bk) := by
  obtain ⟨props2, hprops2, hpipe⟩ := addNodeShape_elim hrun
  rw [hprops] at hprops2
  simp only [Except.ok.injEq] at hprops2
  subst hprops2
  obtain ⟨hpnd, hpnb⟩ := properties_ok_elim hprops
  have hctr1 : (((st0.add (computeShapeUri ns klass, vRDFtype,
      vSHNodeShape)).add (computeShapeUri ns klass, vRDFSisDefinedBy,
      .uri o.ident)).add
      (computeShapeUri ns klass, vSHtargetClass, klass)).ctr = st0.ctr := rfl
  have hbnd1 : BndBelow (((st0.add (computeShapeUri ns klass, vRDFtype,
      vSHNodeShape)).add (computeShapeUri ns klass, vRDFSisDefinedBy,
      .uri o.ident)).add
      (computeShapeUri ns klass, vSHtargetClass, klass)).g st0.ctr := by
    apply bndBelow_add
    · apply bndBelow_add
      · apply bndBelow_add hbnd
        exact tripleBnodeIds_lt
          (nodeBnd_of_not_bnode (computeShapeUri_not_bnode ns klass) _)
          (nodeBnd_of_not_bnode (show vRDFtype.isBNode = false from rfl) _)
          (nodeBnd_of_not_bnode (show vSHNodeShape.isBNode = false from rfl) _)
      · exact tripleBnodeIds_lt
          (nodeBnd_of_not_bnode (computeShapeUri_not_bnode ns klass) _)
          (nodeBnd_of_not_bnode
            (show vRDFSisDefinedBy.isBNode = false from rfl) _)
          (nodeBnd_uri _ _)
    · exact tripleBnodeIds_lt
        (nodeBnd_of_not_bnode (computeShapeUri_not_bnode ns klass) _)
        (nodeBnd_of_not_bnode (show vSHtargetClass.isBNode = false from rfl) _)
        (nodeBnd_of_not_bnode hkl _)
  have hch1 : chainInvP (((st0.add (computeShapeUri ns klass, vRDFtype,
      vSHNodeShape)).add (computeShapeUri ns klass, vRDFSisDefinedBy,
      .uri o.ident)).add
      (computeShapeUri ns klass, vSHtargetClass, klass)).g := by
    apply chainInvP_addSt
    · apply chainInvP_addSt
      · apply chainInvP_addSt hch
        intro _
        exact ⟨show vRDFtype ≠ vRDFfirst by decide,
          show vRDFtype ≠ vRDFrest by decide⟩
      · intro _
        exact ⟨show vRDFSisDefinedBy ≠ vRDFfirst by decide,
          show vRDFSisDefinedBy ≠ vRDFrest by decide⟩
    · intro _
      exact ⟨show vSHtargetClass ≠ vRDFfirst by decide,
        show vSHtargetClass ≠ vRDFrest by decide⟩
  have hpath1 : ∀ s : Node, ((s, vSHpath, p) ∈
      (((st0.add (computeShapeUri ns klass, vRDFtype, vSHNodeShape)).add
        (computeShapeUri ns klass, vRDFSisDefinedBy, .uri o.ident)).add
        (computeShapeUri ns klass, vSHtargetClass, klass)).g ↔
      (s, vSHpath, p) ∈ st0.g) := by
    intro s
    exact head_adds_other (show vSHpath ≠ vRDFtype by decide)
      (show vSHpath ≠ vRDFSisDefinedBy by decide)
      (show vSHpath ≠ vSHtargetClass by decide)
  revert hpipe hctr1 hbnd1 hch1 hpath1
  generalize ((st0.add (computeShapeUri ns klass, vRDFtype,
      vSHNodeShape)).add (computeShapeUri ns klass, vRDFSisDefinedBy,
      .uri o.ident)).add
      (computeShapeUri ns klass, vSHtargetClass, klass) = st1
  intro hpipe hctr1 hbnd1 hch1 hpath1
  have hpord : p ∈ ord props := (hord props).mem_iff.2 hp
  obtain ⟨l1, l2, hsplit⟩ := List.append_of_mem hpord
  have hordnd : (ord props).Nodup := (hord props).symm.nodup hpnd
  rw [hsplit] at hordnd
  obtain ⟨hl1nd, hpl2nd, hdisj⟩ := List.nodup_append.1 hordnd
  have hpnl2 : p ∉ l2 := (List.nodup_cons.1 hpl2nd).1
  have hpnl1 : p ∉ l1 := fun hc => hdisj hc (List.mem_cons_self _ _)
  have hl1nb : ∀ q ∈ l1, q.isBNode = false := by
    intro q hq
    apply hpnb q
    apply (hord props).mem_iff.1
    rw [hsplit]
    exact List.mem_append.2 (Or.inl hq)
  rw [hsplit, pass1_append, pass1_cons] at hpipe
  rcases hA : pass1 o ord (computeShapeUri ns klass) l1
      (st1, ([] : PropMap)) with ⟨stA, mA⟩
  rw [hA] at hpipe
  have hinvA := pass1_inv o ord (computeShapeUri ns klass) hord
    (computeShapeUri_not_bnode ns klass) l1 st1 []
    (by rw [hctr1]; exact hbnd1) hch1
    (fun kv hkv => absurd hkv (List.not_mem_nil kv))
    List.nodup_nil
    (fun q _ => rfl) hl1nd hl1nb
  rw [hA] at hinvA
  obtain ⟨hbndA0, _, _, _⟩ := hinvA
  have hbndA : BndBelow stA.g stA.ctr := hbndA0
  rcases hB : domainRangeStep o ord (computeShapeUri ns klass) (stA, mA) p
      with ⟨stB, mB⟩
  rw [hB] at hpipe
  rcases hC : pass1 o ord (computeShapeUri ns klass) l2 (stB, mB)
      with ⟨stC, mC⟩
  rw [hC] at hpipe
  have hpass2 : pass2 (computeShapeUri ns klass)
      ((ord (restrictionUris o klass)).map (mkRestriction o)) stC mC =
      .ok stF := hpipe
  have h1 : ¬((classesB o none (some p)).length < 1) := by omega
  have hmBval : mB = pmSet mA p stA.fresh.1 := by
    by_cases h2 : 1 < (classesB o none (some p)).length
    · have hm := @dRS_multi o ord (computeShapeUri ns klass) stA mA p h2
      rw [hB] at hm
      simp only [Prod.mk.injEq] at hm
      exact hm.2
    · have hm := @dRS_single o ord (computeShapeUri ns klass) stA mA p h1 h2
      rw [hB] at hm
      simp only [Prod.mk.injEq] at hm
      exact hm.2
  have hmCp : pmGet mC p = some (Node.bnode stA.ctr) := by
    have h1' := pass1_map_stable o ord (computeShapeUri ns klass) l2 stB mB p
      (fun q hq hc => hpnl2 (hc ▸ hq))
    rw [hC] at h1'
    have h2' : pmGet mC p = pmGet mB p := h1'
    rw [h2', hmBval, pmGet_pmSet]
    rfl
  have hppB : (computeShapeUri ns klass, vSHproperty, Node.bnode stA.ctr)
        ∈ stB.g ∧
      (Node.bnode stA.ctr, vSHpath, p) ∈ stB.g ∧
      (∀ s, (s, vSHpath, p) ∈ stB.g →
        s = Node.bnode stA.ctr ∨ (s, vSHpath, p) ∈ stA.g) := by
    by_cases h2 : 1 < (classesB o none (some p)).length
    · have hmulti := @dRS_multi o ord (computeShapeUri ns klass) stA mA p h2
      rw [hB] at hmulti
      simp only [Prod.mk.injEq] at hmulti
      obtain ⟨hstB, _⟩ := hmulti
      rw [show stA.fresh.1 = Node.bnode stA.ctr from rfl] at hstB
      have hmemST2 : ∀ t : Triple,
          t ∈ ((stA.fresh.2.add (computeShapeUri ns klass, vSHproperty,
            Node.bnode stA.ctr)).add (Node.bnode stA.ctr, vSHpath, p)).g ↔
          (t ∈ stA.g ∨
            t = (computeShapeUri ns klass, vSHproperty, Node.bnode stA.ctr) ∨
            t = (Node.bnode stA.ctr, vSHpath, p)) := by
        intro t
        simp only [mem_add, fresh_g]
        tauto
      refine ⟨?_, ?_, ?_⟩
      · rw [hstB, buildOr_def]
        apply mem_add.2
        left
        rw [collLoop_mem_other (show vSHproperty ≠ vSHclass by decide)
          (show vSHproperty ≠ vRDFfirst by decide)
          (show vSHproperty ≠ vRDFrest by decide), fresh_g]
        exact (hmemST2 _).2 (Or.inr (Or.inl rfl))
      · rw [hstB, buildOr_def]
        apply mem_add.2
        left
        rw [collLoop_mem_other (show vSHpath ≠ vSHclass by decide)
          (show vSHpath ≠ vRDFfirst by decide)
          (show vSHpath ≠ vRDFrest by decide), fresh_g]
        exact (hmemST2 _).2 (Or.inr (Or.inr rfl))
      · intro s hs
        rw [hstB, buildOr_def] at hs
        rcases mem_add.1 hs with h | h
        · rw [collLoop_mem_other (show vSHpath ≠ vSHclass by decide)
            (show vSHpath ≠ vRDFfirst by decide)
            (show vSHpath ≠ vRDFrest by decide), fresh_g] at h
          rcases (hmemST2 _).1 h with h' | h' | h'
          · exact Or.inr h'
          · exact absurd (show vSHpath = vSHproperty from
              congrArg (fun w : Triple => w.2.1) h') (by decide)
          · exact Or.inl (congrArg (fun w : Triple => w.1) h')
        · exact absurd (show vSHpath = vSHor from
            congrArg (fun w : Triple => w.2.1) h) (by decide)
    · have hsingle := @dRS_single o ord (computeShapeUri ns klass) stA mA p
        h1 h2
      rw [hB] at hsingle
      simp only [Prod.mk.injEq] at hsingle
      obtain ⟨hstB, _⟩ := hsingle
      rw [show stA.fresh.1 = Node.bnode stA.ctr from rfl] at hstB
      have hmemB : ∀ t : Triple, t ∈ stB.g ↔
          (t ∈ stA.g ∨
            t = (computeShapeUri ns klass, vSHproperty, Node.bnode stA.ctr) ∨
            t = (Node.bnode stA.ctr, vSHpath, p) ∨
            t = (Node.bnode stA.ctr, vSHclass,
              (ord (classesB o none (some p))).headD (Node.uri ""))) := by
        intro t
        rw [hstB]
        simp only [mem_add, fresh_g]
        tauto
      refine ⟨(hmemB _).2 (Or.inr (Or.inl rfl)),
        (hmemB _).2 (Or.inr (Or.inr (Or.inl rfl))), ?_⟩
      intro s hs
      rcases (hmemB _).1 hs with h | h | h | h
      · exact Or.inr h
      · exact absurd (show vSHpath = vSHproperty from
          congrArg (fun w : Triple => w.2.1) h) (by decide)
      · exact Or.inl (congrArg (fun w : Triple => w.1) h)
      · exact absurd (show vSHpath = vSHclass from
          congrArg (fun w : Triple => w.2.1) h) (by decide)
  obtain ⟨hpropB, hpathB, hpathuB⟩ := hppB
  have hkeepBF : ∀ t : Triple, t ∈ stB.g → t.2.1 ≠ vRDFrest → t ∈ stF.g := by
    intro t ht hpred
    apply pass2_keep hpass2 ?_ hpred
    have := @pass1_keep o ord (computeShapeUri ns klass) l2 stB mB t ht hpred
    rw [hC] at this
    exact this
  have hpathC : ∀ s : Node,
      ((s, vSHpath, p) ∈ stF.g ↔ (s, vSHpath, p) ∈ stC.g) := by
    intro s
    exact pass2_path_frozen_hit hpass2 hmCp
  have hpathl2 : ∀ s : Node,
      ((s, vSHpath, p) ∈ stC.g ↔ (s, vSHpath, p) ∈ stB.g) := by
    intro s
    have := @pass1_path_frozen o ord (computeShapeUri ns klass) l2 stB mB p s
      hpnl2
    rw [hC] at this
    exact this
  have hpathl1 : ∀ s : Node,
      ((s, vSHpath, p) ∈ stA.g ↔ (s, vSHpath, p) ∈ st0.g) := by
    intro s
    have := @pass1_path_frozen o ord (computeShapeUri ns klass) l1 st1
      ([] : PropMap) p s hpnl1
    rw [hA] at this
    exact (this.trans (hpath1 s))
  have huord : u ∈ ord (restrictionUris o klass) :=
    (hord (restrictionUris o klass)).mem_iff.2 hu
  obtain ⟨u1, u2, husplit⟩ := List.append_of_mem huord
  have hpass2s := hpass2
  rw [husplit, List.map_append, List.map_cons, pass2_append] at hpass2s
  rcases hD : pass2 (computeShapeUri ns klass) (u1.map (mkRestriction o))
      stC mC with e | stD
  · rw [hD] at hpass2s
    have hcontra : (Except.error e : Except String GenState) =
        .ok stF := hpass2s
    cases hcontra
  · rw [hD] at hpass2s
    have hpassD : pass2 (computeShapeUri ns klass)
        (mkRestriction o u :: u2.map (mkRestriction o)) stD mC =
        .ok stF := hpass2s
    rw [pass2_cons] at hpassD
    rcases hE : restrStep (computeShapeUri ns klass) (stD, mC)
        (mkRestriction o u) with e | accE
    · rw [hE] at hpassD
      have hcontra : (Except.error e : Except String GenState) =
          .ok stF := hpassD
      cases hcontra
    · rw [hE] at hpassD
      obtain ⟨stE, mE⟩ := accE
      have hpassE : pass2 (computeShapeUri ns klass)
          (u2.map (mkRestriction o)) stE mE = .ok stF := hpassD
      obtain ⟨b, st1', st2, ha, hcp, hstE, hmE⟩ := restrStep_ok_elim hE
      rw [restrAnchor, hup] at ha
      simp only [hmCp, Except.ok.injEq, Prod.mk.injEq] at ha
      obtain ⟨hbeq, hst1⟩ := ha
      subst hbeq
      subst hst1
      have hminE : (Node.bnode stA.ctr, vSHminCount, vmin) ∈ stE.g := by
        rw [hstE]
        exact (restrCardPart_mem_min st2 _ _ _ _).2
          (Or.inr ⟨rfl, humin, hvmin⟩)
      have hmaxE : (Node.bnode stA.ctr, vSHmaxCount, vmax) ∈ stE.g := by
        rw [hstE]
        exact (restrCardPart_mem_max st2 _ _ _ _).2
          (Or.inr ⟨rfl, humax, hvmax⟩)
      refine ⟨Node.bnode stA.ctr,
        hkeepBF _ hpropB (show vSHproperty ≠ vRDFrest by decide),
        hkeepBF _ hpathB (show vSHpath ≠ vRDFrest by decide),
        pass2_keep hpassE hminE (show vSHminCount ≠ vRDFrest by decide),
        pass2_keep hpassE hmaxE (show vSHmaxCount ≠ vRDFrest by decide), ?_⟩
      intro s hsF hs0
      have hsB : (s, vSHpath, p) ∈ stB.g := (hpathl2 s).1 ((hpathC s).1 hsF)
      rcases hpathuB s hsB with h | h
      · exact h
      · exact absurd ((hpathl1 s).1 h) hs0

theorem restriction_attaches_to_existing_anchor_witness :
    ((∀ xs : List Node, ((id : List Node → List Node) xs).Perm xs) ∧
      (Node.uri "http://o/C").isBNode = false ∧
      BndBelow ({ ctr := 1, g := [] } : GenState).g
        ({ ctr := 1, g := [] } : GenState).ctr ∧
      chainInvP ({ ctr := 1, g := [] } : GenState).g ∧
      addNodeShape exO4 id "http://v/" (.uri "http://o/C")
        { ctr := 1, g := [] } = .ok exSt4 ∧
      properties exO4 (some (.uri "http://o/C")) none =
        .ok [Node.uri "http://o/p"] ∧
      (Node.uri "http://o/p") ∈ [Node.uri "http://o/p"] ∧
      1 ≤ (classesB exO4 none (some (.uri "http://o/p"))).length ∧
      (Node.bnode 0) ∈ restrictionUris exO4 (.uri "http://o/C") ∧
      (mkRestriction exO4 (.bnode 0)).on_property =
        some (.uri "http://o/p") ∧
      (mkRestriction exO4 (.bnode 0)).min_cardinality =
        some (.lit "1" (some (xsdDT "nonNegativeInteger"))) ∧
      (mkRestriction exO4 (.bnode 0)).max_cardinality =
        some (.lit "1" (some (xsdDT "nonNegativeInteger"))) ∧
      (Node.lit "1" (some (xsdDT "nonNegativeInteger"))).truthy = true) ∧
    (∃ bk, (computeShapeUri "http://v/" (.uri "http://o/C"),
        vSHproperty, bk) ∈ exSt4.g ∧
      (bk, vSHpath, (Node.uri "http://o/p")) ∈ exSt4.g ∧
      (bk, vSHminCount,
        (Node.lit "1" (some (xsdDT "nonNegativeInteger")))) ∈ exSt4.g ∧
      (bk, vSHmaxCount,
        (Node.lit "1" (some (xsdDT "nonNegativeInteger")))) ∈ exSt4.g ∧
      (∀ s, (s, vSHpath, (Node.uri "http://o/p")) ∈ exSt4.g →
        (s, vSHpath, (Node.uri "http://o/p")) ∉
          ({ ctr := 1, g := [] } : GenState).g → s = bk)) :=
  ⟨⟨fun xs => List.Perm.refl xs, by decide,
    fun t ht => absurd ht (List.not_mem_nil t),
    fun t ht => absurd ht (List.not_mem_nil t),
    by rfl, by rfl, by decide, by decide, by decide, by rfl, by rfl, by rfl,
    by decide⟩,
    restriction_attaches_to_existing_anchor exO4 id "http://v/"
      (.uri "http://o/C") { ctr := 1, g := [] } exSt4 [Node.uri "http://o/p"]
      (.uri "http://o/p") (.bnode 0)
      (.lit "1" (some (xsdDT "nonNegativeInteger")))
      (.lit "1" (some (xsdDT "nonNegativeInteger")))
      (fun xs => List.Perm.refl xs) (by decide)
      (fun t ht => absurd ht (List.not_mem_nil t))
      (fun t ht => absurd ht (List.not_mem_nil t)) (by rfl)
      (by rfl) (by decide) (by decide) (by decide) (by rfl) (by rfl) (by rfl)
      (by decide) (by decide)⟩

end RicoShacl
